import Mathlib

/-!
Explainable-CBS: the single-agent constrained planner.

A shallow embedding of `includes/Environment.h`, `includes/Astar.h` and
`src/Astar.cpp`, followed by the properties of the planner that are proved
about it.

Conventions of the embedding.

* C++ `int` values are modelled by `Int`; signed overflow is undefined in
  C++ and is not modelled.  The `double` scores of a search node only ever
  hold integers and are modelled by `Int` as well.
* A `State*` is modelled by the `State` value it points to wherever only
  `(time, x, y)` is read.  The mutable `cost` tag is not part of the identity
  of a state; where the tags matter, `SegHeuristic` and `plan` are modelled a
  second time on a memory of state objects (`StateObj`, `Ref`,
  `SegHeuristicMem`, `planMem`), and the two models are proved to agree.
* `std::unordered_set<Location>` is modelled by a list; the code only asks
  whether some element matches.
* `std::priority_queue` fixes which elements may be on top (those of least
  `gScore + hScore`) but not which of them is; the planner takes that choice
  as the parameter `tie`.
-/

namespace XCBS

/-! ## Data model -/

/-- Modelled from the spec: `includes/State.h` is not among the sources.  A
time-expanded state is the triple `(time, x, y)`; equality is exact on the
three fields. -/
structure State where
  time : Int
  x : Int
  y : Int
  deriving DecidableEq, Repr

/-- Modelled from the spec: `State::isSameLocation` of the absent
`includes/State.h`; two states share `(x, y)`, time ignored. -/
def State.isSameLocation (s o : State) : Bool :=
  s.x == o.x && s.y == o.y

/-- The `Location` of `Environment.h`. -/
structure Location where
  x : Int
  y : Int
  deriving DecidableEq, Repr

/-- Modelled from the spec: `includes/Conflict.h` is not among the sources.
A vertex constraint `(agent, time, x, y)`. -/
structure VertexConstraint where
  agent : Nat
  time : Int
  x : Int
  y : Int
  deriving DecidableEq, Repr

/-- Modelled from the spec: `includes/Conflict.h` is not among the sources.
An edge constraint `(agent1, agent2, time1, x1, y1, time2, x2, y2)`. -/
structure EdgeConstraint where
  agent1 : Nat
  agent2 : Nat
  time1 : Int
  x1 : Int
  y1 : Int
  time2 : Int
  x2 : Int
  y2 : Int
  deriving DecidableEq, Repr

/-- Modelled from the spec: the `Constraint` of the absent
`includes/Conflict.h`, seen through the two nullable accessors that
`isStateValid` calls; `none` stands for `nullptr`. -/
structure Constraint where
  getVertexConstraint : Option VertexConstraint
  getEdgeConstraint : Option EdgeConstraint
  deriving DecidableEq, Repr

/-- The private members of `class Environment`. -/
structure Environment where
  m_dimx : Int
  m_dimy : Int
  m_obstacles : List Location
  m_goals : List Location
  m_agentIdx : Nat
  deriving Repr

/-- The constructor `Environment::Environment`: the cursor starts at 0. -/
def Environment.new (dimx dimy : Int) (obstacles goals : List Location) : Environment :=
  { m_dimx := dimx, m_dimy := dimy, m_obstacles := obstacles, m_goals := goals, m_agentIdx := 0 }

/-- The read `m_goals[m_agentIdx]`.  With the cursor outside the goal list the
C++ read is undefined; the model then reads `(0, 0)`. -/
def Environment.currentGoal (env : Environment) : Location :=
  env.m_goals.getD env.m_agentIdx ⟨0, 0⟩

/-! ## `Environment.h` -/

/-- The method `Environment::heuristicFunc`. -/
def Environment.heuristicFunc (env : Environment) (st : State) : Int :=
  |st.x - env.currentGoal.x| + |st.y - env.currentGoal.y|

/-- The body of the loop over the constraints in `Environment::isStateValid`:
does constraint `c` reject the move `curr → nxt`? -/
def constraintRejects (c : Constraint) (curr nxt : State) : Bool :=
  (match c.getVertexConstraint with
    | some v => v.x == nxt.x && v.y == nxt.y && v.time == nxt.time
    | none => false)
  ||
  (match c.getEdgeConstraint with
    | some e =>
        (e.x1 == curr.x && e.y1 == curr.y && e.time1 == curr.time) &&
        (e.x2 == nxt.x && e.y2 == nxt.y && e.time2 == nxt.time)
    | none => false)

/-- The loop over the constraints in `Environment::isStateValid`. -/
def constraintLoop (curr nxt : State) : List Constraint → Bool
  | [] => true
  | c :: cs => if constraintRejects c curr nxt then false else constraintLoop curr nxt cs

/-- The loop over the obstacles in `Environment::isStateValid`; `false` when
an obstacle is hit. -/
def obstacleLoop (nxt : State) : List Location → Bool
  | [] => true
  | obs :: rest =>
      if nxt.x == obs.x && nxt.y == obs.y then false else obstacleLoop nxt rest

/-- The method `Environment::isStateValid`. -/
def Environment.isStateValid (env : Environment) (curr nxt : State)
    (constraints : List Constraint) : Bool :=
  if decide (0 > nxt.x) || decide (nxt.x > env.m_dimx) ||
      decide (0 > nxt.y) || decide (nxt.y > env.m_dimy) then false
  else if !obstacleLoop nxt env.m_obstacles then false
  else constraintLoop curr nxt constraints

/-- The call `std::vector::clear`. -/
def vectorClear {α : Type} (_v : List α) : List α := []

/-- The method `Environment::expandState`; `neighbors` is the in-out vector, the result
its content on return. -/
def Environment.expandState (env : Environment) (st : State) (neighbors : List State)
    (constraints : List Constraint) : List State :=
  let neighbors := vectorClear neighbors
  let up : State := ⟨st.time + 1, st.x, st.y + 1⟩
  let down : State := ⟨st.time + 1, st.x, st.y - 1⟩
  let right : State := ⟨st.time + 1, st.x + 1, st.y⟩
  let left : State := ⟨st.time + 1, st.x - 1, st.y⟩
  let neighbors := if env.isStateValid st up constraints then neighbors ++ [up] else neighbors
  let neighbors := if env.isStateValid st down constraints then neighbors ++ [down] else neighbors
  let neighbors := if env.isStateValid st right constraints then neighbors ++ [right] else neighbors
  let neighbors := if env.isStateValid st left constraints then neighbors ++ [left] else neighbors
  neighbors

/-- The method `Environment::isStateGoal`. -/
def Environment.isStateGoal (env : Environment) (st : State) : Bool :=
  st.x == env.currentGoal.x && st.y == env.currentGoal.y

/-- The method `Environment::updateAgent`. -/
def Environment.updateAgent (env : Environment) : Environment :=
  if env.m_agentIdx < env.m_goals.length then
    { env with m_agentIdx := env.m_agentIdx + 1 }
  else
    { env with m_agentIdx := 0 }

/-- The method `Environment::getAgent`. -/
def Environment.getAgent (env : Environment) : Nat := env.m_agentIdx

/-- The method `Environment::getGoals`. -/
def Environment.getGoals (env : Environment) : List Location := env.m_goals

/-! ## `Astar.cpp` -/

/-- The inner `while` of `A_star::is_disjoint`: `false` as soon as a state of
`v2` shares the location of `s1`. -/
def disjointInner (s1 : State) : List State → Bool
  | [] => true
  | s2 :: rest => if s1.isSameLocation s2 then false else disjointInner s1 rest

/-- The outer `while` of `A_star::is_disjoint`. -/
def disjointOuter (v2 : List State) : List State → Bool
  | [] => true
  | s1 :: rest => if disjointInner s1 v2 then disjointOuter v2 rest else false

/-- The method `A_star::is_disjoint`. -/
def is_disjoint (v1 v2 : List State) : Bool :=
  if v1.isEmpty || v2.isEmpty then true
  else disjointOuter v2 v1

/-- The `Node` of `Astar.h`; `parent = none` stands for `nullptr`.  The field
`segCost` is never read or written by the planner and is left out. -/
inductive Node where
  | mk (state : State) (hScore : Int) (gScore : Int) (parent : Option Node)

/-- Field `state` of a node. -/
def Node.state : Node → State
  | .mk s _ _ _ => s

/-- Field `hScore` of a node. -/
def Node.hScore : Node → Int
  | .mk _ h _ _ => h

/-- Field `gScore` of a node. -/
def Node.gScore : Node → Int
  | .mk _ _ g _ => g

/-- Field `parent` of a node. -/
def Node.parent : Node → Option Node
  | .mk _ _ _ p => p

/-- The walk up the parent pointers that `plan` and `SegHeuristic` both make:
`while (n != nullptr) { v.insert(v.begin(), n->state); n = n->parent; }`,
started on the vector `acc`. -/
def walkUp : Node → List State → List State
  | .mk s _ _ none, acc => s :: acc
  | .mk s _ _ (some p), acc => walkUp p (s :: acc)

/-- The solution of agent `a` that every loop of `SegHeuristic` selects: the
candidate path for the agent being planned, `otherSols[a]` otherwise. -/
def agentPath (env : Environment) (currPathSeg : List State)
    (otherSols : List (List State)) (a : Nat) : List State :=
  if a = env.getAgent then currPathSeg else otherSols.getD a []

/-- Step 2 of `SegHeuristic`: the greatest length among the selected paths. -/
def longTimeOf (env : Environment) (currPathSeg : List State)
    (otherSols : List (List State)) : Nat :=
  (List.range otherSols.length).foldl
    (fun longTime a =>
      let currSol := agentPath env currPathSeg otherSols a
      if currSol.length > longTime then currSol.length else longTime)
    0

/-- The local variables of the segmentation loop of `SegHeuristic`.
`agentVisited` has `getGoals().size()` entries; an index beyond them is out
of bounds in C++ (undefined), and the model then reads `[]` and drops the
write. -/
structure SegState where
  agentVisited : List (List State)
  lastSegmentTime : Nat
  currCost : Nat
  deriving Repr

/-- Step 4a of `SegHeuristic`: every agent whose path is long enough records
the state it occupies at `currTime`. -/
def recordVisited (env : Environment) (currPathSeg : List State)
    (otherSols : List (List State)) (currTime : Nat)
    (agentVisited : List (List State)) : List (List State) :=
  (List.range otherSols.length).foldl
    (fun av a =>
      match (agentPath env currPathSeg otherSols a)[currTime]? with
      | some s => av.modify (fun visited => visited ++ [s]) a
      | none => av)
    agentVisited

/-- Steps 4c to 4e of `SegHeuristic` for one ordered pair of agents: when
their visited lists are not disjoint, `currTime` becomes a boundary, the
counter goes up by one and every visited list is cleared. -/
def checkPair (otherSols : List (List State)) (currTime : Nat) (seg : SegState)
    (a1 a2 : Nat) : SegState :=
  if a1 ≠ a2 then
    let disjoint := is_disjoint (seg.agentVisited.getD a1 []) (seg.agentVisited.getD a2 [])
    if !disjoint then
      { agentVisited :=
          (List.range otherSols.length).foldl (fun av a => av.set a []) seg.agentVisited,
        lastSegmentTime := currTime,
        currCost := seg.currCost + 1 }
    else seg
  else seg

/-- Step 4b of `SegHeuristic`: the double loop over the ordered pairs. -/
def checkPairs (otherSols : List (List State)) (currTime : Nat) (seg : SegState) : SegState :=
  (List.range otherSols.length).foldl
    (fun seg1 a1 =>
      (List.range otherSols.length).foldl
        (fun seg2 a2 => checkPair otherSols currTime seg2 a1 a2) seg1)
    seg

/-- One round of the loop `for (currTime = 0; currTime <= longTime; ...)`. -/
def segmentStep (env : Environment) (currPathSeg : List State)
    (otherSols : List (List State)) (seg : SegState) (currTime : Nat) : SegState :=
  checkPairs otherSols currTime
    { seg with
      agentVisited := recordVisited env currPathSeg otherSols currTime seg.agentVisited }

/-- The value returned by `A_star::SegHeuristic`.  The writes to the `cost`
tags do not influence it and are not part of this definition. -/
def SegHeuristic (env : Environment) (n : Node) (otherSols : List (List State)) : Int :=
  let currPathSeg := walkUp n []
  let longTime := longTimeOf env currPathSeg otherSols
  let agentVisited : List (List State) := List.replicate env.getGoals.length []
  let seg := (List.range (longTime + 1)).foldl
    (segmentStep env currPathSeg otherSols)
    { agentVisited := agentVisited, lastSegmentTime := 0, currCost := 1 }
  (seg.currCost : Int)

/-- The `gScore + hScore` that `myComparator` compares. -/
def Node.fScore (n : Node) : Int := n.gScore + n.hScore

/-- The elements that `myComparator` allows on top of the heap, each with its
position: no element of the heap has a smaller `fScore`. -/
def topCandidates (open_heap : List Node) : List (Nat × Node) :=
  open_heap.enum.filter
    (fun p => open_heap.all (fun m => decide (p.2.fScore ≤ m.fScore)))

/-- The call `open_heap.top()` with its position in the list of the heap's elements;
`none` on an empty heap.  `tie k heap` picks among the allowed elements in
round `k` of the search. -/
def heapTop (tie : Nat → List Node → Nat) (k : Nat) (open_heap : List Node) :
    Option (Nat × Node) :=
  (topCandidates open_heap)[tie k open_heap % (topCandidates open_heap).length]?

/-- The test `tentative_gScore < n->gScore`; the `gScore` of a node made by
`new Node(st)` is `+infinity`, written `none`. -/
def scoreLess (tentative_gScore : Int) : Option Int → Bool
  | none => true
  | some g => decide (tentative_gScore < g)

/-- The body of `for (State *st: neighbors)` in `A_star::plan`, acting on the
pair `(open_heap, open_list)`.  `bound` is the value of `getBound()`, and
`getXdim() * getYdim()` is `m_dimx * m_dimy`. -/
def relax (env : Environment) (startState : State) (parentSol : List (List State))
    (bound : Int) (current : Node) (acc : List Node × List State) (st : State) :
    List Node × List State :=
  let tentative_gScore := current.gScore + 1
  if scoreLess tentative_gScore none then
    let hScore :=
      if parentSol.length ≠ 0 then
        env.m_dimx * env.m_dimy * SegHeuristic env (.mk st 0 tentative_gScore (some current)) parentSol
      else
        env.heuristicFunc startState
    let n := Node.mk st hScore tentative_gScore (some current)
    if st ∉ acc.2 then
      if parentSol.length ≠ 0 then
        if hScore ≤ bound then (acc.1 ++ [n], st :: acc.2) else acc
      else
        (acc.1 ++ [n], st :: acc.2)
    else acc
  else acc

/-- The `while (!open_heap.empty())` loop of `A_star::plan` and the `return
false` after it.  The result is `none` when `fuel` rounds were not enough,
and otherwise the returned flag with the content of `solution`. -/
def planLoop (tie : Nat → List Node → Nat) (env : Environment) (startState : State)
    (constraints : List Constraint) (parentSol : List (List State)) (bound : Int) :
    Nat → Nat → List Node → List State → List State → Option (Bool × List State)
  | 0, _, _, _, _ => none
  | fuel + 1, k, open_heap, open_list, neighbors =>
    match heapTop tie k open_heap with
    | none => some (false, [])
    | some (i, current) =>
      if env.isStateGoal current.state then
        some (true, walkUp current [])
      else
        let open_heap := open_heap.eraseIdx i
        let neighbors := env.expandState current.state neighbors constraints
        let next := neighbors.foldl (relax env startState parentSol bound current)
          (open_heap, open_list)
        planLoop tie env startState constraints parentSol bound fuel (k + 1)
          next.1 next.2 neighbors

/-- The method `A_star::plan`: the flag it returns and the content of `solution` on
return, or `none` when the loop is still running after `fuel` rounds. -/
def plan (tie : Nat → List Node → Nat) (env : Environment) (fuel : Nat)
    (startState : State) (solution : List State) (constraints : List Constraint)
    (parentSol : List (List State)) (bound : Int) : Option (Bool × List State) :=
  let _solution := vectorClear solution
  let startNode := Node.mk startState (env.heuristicFunc startState) 0 none
  planLoop tie env startState constraints parentSol bound fuel 0
    [startNode] [startState] []

/-- A bound on the number of rounds that the loop of `plan` can still make
when every state it may yet push lies in the finite set `U`: each state of `U`
that is not in `open_list` counts twice, each element of the heap once. -/
def searchMeasure (U : Finset State) (open_heap : List Node) (open_list : List State) : Nat :=
  2 * (U.filter (fun s => s ∉ open_list)).card + open_heap.length

/-- What holds of every node of the heap when `plan` runs without reference
solutions: `hScore` is the heuristic of the start, `gScore` is the time elapsed
since the start and one less than the length of the node's chain, the state is
inside the grid, and `gScore` plus the heuristic of the state is at least the
heuristic of the start. -/
def GridNode (env : Environment) (startState : State) (n : Node) : Prop :=
  n.hScore = env.heuristicFunc startState ∧
  0 ≤ n.gScore ∧
  n.gScore = n.state.time - startState.time ∧
  ((walkUp n []).length : Int) = n.gScore + 1 ∧
  (0 ≤ n.state.x ∧ n.state.x ≤ env.m_dimx ∧ 0 ≤ n.state.y ∧ n.state.y ≤ env.m_dimy) ∧
  env.heuristicFunc startState ≤ n.gScore + env.heuristicFunc n.state

/-- The invariant of the loop of `plan` on a grid without obstacles and
constraints: every node of the heap is a `GridNode`; for some depth `d` no node
of the heap is shallower than `d` and every state of `open_list` deeper than `d`
is still the state of a node of the heap; and some node of the heap lies on a
shortest route to the goal. -/
def GridInv (env : Environment) (startState : State) (open_heap : List Node)
    (open_list : List State) : Prop :=
  (∀ n ∈ open_heap, GridNode env startState n) ∧
  (∃ d : Int, (∀ n ∈ open_heap, d ≤ n.gScore) ∧
    ∀ s ∈ open_list, d < s.time - startState.time → ∃ n ∈ open_heap, n.state = s) ∧
  (∃ w ∈ open_heap, w.gScore + env.heuristicFunc w.state = env.heuristicFunc startState)

/-- Modelled from the spec: a `State` object of the absent `includes/State.h`
as it lies in memory, the triple `(time, x, y)` together with the mutable
`cost` tag that `SegHeuristic` writes. -/
structure StateObj where
  time : Int
  x : Int
  y : Int
  cost : Int
  deriving DecidableEq, Repr

/-- The identity of a state object: its `(time, x, y)`, without the tag. -/
def StateObj.toState (o : StateObj) : State := ⟨o.time, o.x, o.y⟩

/-- Steps 2 to 6 of `A_star::SegHeuristic`, from the candidate path that step 1
has rebuilt: the value returned. -/
def segmentCost (env : Environment) (currPathSeg : List State)
    (otherSols : List (List State)) : Int :=
  let longTime := longTimeOf env currPathSeg otherSols
  let agentVisited : List (List State) := List.replicate env.getGoals.length []
  let seg := (List.range (longTime + 1)).foldl
    (segmentStep env currPathSeg otherSols)
    { agentVisited := agentVisited, lastSegmentTime := 0, currCost := 1 }
  (seg.currCost : Int)

/-- One round of the `while (!open_heap.empty())` loop of `A_star::plan`: the
flag and solution if the round returns (an empty heap counts as the `return
false` after the loop), or else the values of `open_heap`, `open_list` and
`neighbors` at the start of the next round. -/
def planRound (tie : Nat → List Node → Nat) (env : Environment) (startState : State)
    (constraints : List Constraint) (parentSol : List (List State)) (bound : Int)
    (k : Nat) (open_heap : List Node) (open_list neighbors : List State) :
    (Bool × List State) ⊕ (List Node × List State × List State) :=
  match heapTop tie k open_heap with
  | none => .inl (false, [])
  | some (i, current) =>
    if env.isStateGoal current.state then
      .inl (true, walkUp current [])
    else
      let open_heap := open_heap.eraseIdx i
      let neighbors := env.expandState current.state neighbors constraints
      let next := neighbors.foldl (relax env startState parentSol bound current)
        (open_heap, open_list)
      .inr (next.1, next.2, neighbors)

/-- The values of `open_heap`, `open_list` and `neighbors` in `A_star::plan`
after `j` rounds of the loop, or `none` if `plan` has returned before. -/
def planState (tie : Nat → List Node → Nat) (env : Environment) (startState : State)
    (constraints : List Constraint) (parentSol : List (List State)) (bound : Int) :
    Nat → Option (List Node × List State × List State)
  | 0 => some ([Node.mk startState (env.heuristicFunc startState) 0 none], [startState], [])
  | j + 1 =>
    match planState tie env startState constraints parentSol bound j with
    | none => none
    | some (open_heap, open_list, neighbors) =>
      match planRound tie env startState constraints parentSol bound j
          open_heap open_list neighbors with
      | .inl _ => none
      | .inr next => some next

/-- What holds of every node of the heap when `plan` runs without reference
solutions, on any grid and under any constraints: `hScore` is the heuristic of
the start, and `gScore` is the time elapsed since the start and one less than
the length of the node's chain. -/
def LayerNode (env : Environment) (startState : State) (n : Node) : Prop :=
  n.hScore = env.heuristicFunc startState ∧
  n.gScore = n.state.time - startState.time ∧
  ((walkUp n []).length : Int) = n.gScore + 1

/-- The invariant of the loop of `plan` without reference solutions, relative
to a sequence `route` of states: every node of the heap is a `LayerNode`; for
some depth `d` no node of the heap is shallower than `d` and every state of
`open_list` deeper than `d` is still the state of a node of the heap; and the
state of some node of the heap is on `route`. -/
def LayerInv (env : Environment) (startState : State) (route : List State)
    (open_heap : List Node) (open_list : List State) : Prop :=
  (∀ n ∈ open_heap, LayerNode env startState n) ∧
  (∃ d : Int, (∀ n ∈ open_heap, d ≤ n.gScore) ∧
    ∀ s ∈ open_list, d < s.time - startState.time → ∃ n ∈ open_heap, n.state = s) ∧
  (∃ w ∈ open_heap, ∃ j : Nat, route[j]? = some w.state)

/-- Step 4e of `SegHeuristic`: the visited list of every agent below
`otherSols.size()` is cleared. -/
def clearVisited (otherSols : List (List State)) (agentVisited : List (List State)) :
    List (List State) :=
  (List.range otherSols.length).foldl (fun av a => av.set a []) agentVisited

/-- The state of the segmentation loop after steps 4d and 4e at `currTime`. -/
def bumpSeg (otherSols : List (List State)) (currTime : Nat) (seg : SegState) : SegState :=
  { agentVisited := clearVisited otherSols seg.agentVisited,
    lastSegmentTime := currTime,
    currCost := seg.currCost + 1 }

/-- The test of steps 4b and 4c for the ordered pair `(a1, a2)`: the agents
differ and their visited lists are not disjoint. -/
def pairConflict (seg : SegState) (a1 a2 : Nat) : Prop :=
  a1 ≠ a2 ∧ is_disjoint (seg.agentVisited.getD a1 []) (seg.agentVisited.getD a2 []) = false


/-- The visited lists of the segmentation loop spelled out: the agents below
`otherSols.size()` that have an entry hold the states of their path at the
timesteps `w, ..., u - 1`, every other entry is empty. -/
def windowVisited (env : Environment) (currPathSeg : List State)
    (otherSols : List (List State)) (w u : Nat) : List (List State) :=
  (List.range env.getGoals.length).map
    (fun a => if a < otherSols.length then
      ((agentPath env currPathSeg otherSols a).take u).drop w else [])

/-- The local variables of the segmentation loop of `SegHeuristic` after the
rounds `currTime = 0, ..., k - 1`. -/
def segAfter (env : Environment) (currPathSeg : List State)
    (otherSols : List (List State)) (k : Nat) : SegState :=
  (List.range k).foldl (segmentStep env currPathSeg otherSols)
    { agentVisited := List.replicate env.getGoals.length [],
      lastSegmentTime := 0, currCost := 1 }

/-- Two distinct agents below `otherSols.size()` that both have a visited list
stand on the same cell at some timesteps `i` and `j` of the window
`w, ..., u - 1`. -/
def windowConflict (env : Environment) (currPathSeg : List State)
    (otherSols : List (List State)) (w u : Nat) : Prop :=
  ∃ a1 a2 i j : Nat, ∃ s1 s2 : State,
    a1 ≠ a2 ∧
    (a1 < otherSols.length ∧ a1 < env.getGoals.length) ∧
    (a2 < otherSols.length ∧ a2 < env.getGoals.length) ∧
    (w ≤ i ∧ i < u) ∧ (w ≤ j ∧ j < u) ∧
    (agentPath env currPathSeg otherSols a1)[i]? = some s1 ∧
    (agentPath env currPathSeg otherSols a2)[j]? = some s2 ∧
    s1.x = s2.x ∧ s1.y = s2.y

/-- A `State*`: the address of a state object.  An object is either one that
the caller of `plan` owns (the states of the reference solutions, the start
state), or the one that `expandState` makes as neighbour number `index` in
round `round` of the running `plan`. -/
inductive Ref where
  | caller (addr : Nat)
  | made (round : Nat) (index : Nat)
  deriving DecidableEq, Repr

/-- The write `p->cost = v` on a memory of state objects. -/
def setCost (mem : Ref → StateObj) (p : Ref) (v : Int) : Ref → StateObj :=
  fun q => if q = p then { mem p with cost := v } else mem q

/-- The states that a vector of `State*` points to. -/
def derefPath (mem : Ref → StateObj) (path : List Ref) : List State :=
  path.map (fun r => (mem r).toState)

/-- The solution of agent `a` that every loop of `SegHeuristic` selects, as the
vector of `State*` that it is. -/
def agentRefs (env : Environment) (currPathSeg : List Ref)
    (otherSols : List (List Ref)) (a : Nat) : List Ref :=
  if a = env.getAgent then currPathSeg else otherSols.getD a []

/-- The three tagging loops of `SegHeuristic` (clear all costs with `lo = 0`,
`hi = longTime + 1`, `v = 0`; step 4d with `lo = lastSegmentTime`,
`hi = currTime`, `v = currCost`; the final loop with `lo = lastSegmentTime`,
`hi = longTime + 1`, `v = currCost`): for every agent and every `t` with
`lo <= t < hi` inside the agent's path, the state at `t` gets `cost = v`. -/
def writeCosts (env : Environment) (currPathSeg : List Ref) (otherSols : List (List Ref))
    (lo hi : Nat) (v : Int) (mem : Ref → StateObj) : Ref → StateObj :=
  (List.range otherSols.length).foldl
    (fun m a =>
      (List.range' lo (hi - lo)).foldl
        (fun m2 t =>
          match (agentRefs env currPathSeg otherSols a)[t]? with
          | some p => setCost m2 p v
          | none => m2)
        m)
    mem

/-- Step 2 of `SegHeuristic` on vectors of `State*`. -/
def longTimeRefs (env : Environment) (currPathSeg : List Ref)
    (otherSols : List (List Ref)) : Nat :=
  (List.range otherSols.length).foldl
    (fun longTime a =>
      let currSol := agentRefs env currPathSeg otherSols a
      if currSol.length > longTime then currSol.length else longTime)
    0

/-- The local variables of the segmentation loop of `SegHeuristic` together
with the memory of the state objects. -/
structure SegRun where
  agentVisited : List (List Ref)
  lastSegmentTime : Nat
  currCost : Nat
  mem : Ref → StateObj

/-- Step 4a of `SegHeuristic` on vectors of `State*`. -/
def recordVisitedRefs (env : Environment) (currPathSeg : List Ref)
    (otherSols : List (List Ref)) (currTime : Nat)
    (agentVisited : List (List Ref)) : List (List Ref) :=
  (List.range otherSols.length).foldl
    (fun av a =>
      match (agentRefs env currPathSeg otherSols a)[currTime]? with
      | some p => av.modify (fun visited => visited ++ [p]) a
      | none => av)
    agentVisited

/-- Steps 4c to 4e of `SegHeuristic` for one ordered pair of agents, with the
writes of step 4d: the states of the timesteps from `lastSegmentTime` up to
`currTime - 1` get the current counter as cost. -/
def checkPairRefs (env : Environment) (currPathSeg : List Ref) (otherSols : List (List Ref))
    (currTime : Nat) (run : SegRun) (a1 a2 : Nat) : SegRun :=
  if a1 ≠ a2 then
    let disjoint := is_disjoint (derefPath run.mem (run.agentVisited.getD a1 []))
      (derefPath run.mem (run.agentVisited.getD a2 []))
    if !disjoint then
      { agentVisited :=
          (List.range otherSols.length).foldl (fun av a => av.set a []) run.agentVisited,
        lastSegmentTime := currTime,
        currCost := run.currCost + 1,
        mem := writeCosts env currPathSeg otherSols run.lastSegmentTime currTime
          run.currCost run.mem }
    else run
  else run

/-- Step 4b of `SegHeuristic` with the writes of step 4d. -/
def checkPairsRefs (env : Environment) (currPathSeg : List Ref) (otherSols : List (List Ref))
    (currTime : Nat) (run : SegRun) : SegRun :=
  (List.range otherSols.length).foldl
    (fun run1 a1 =>
      (List.range otherSols.length).foldl
        (fun run2 a2 => checkPairRefs env currPathSeg otherSols currTime run2 a1 a2) run1)
    run

/-- One round of the loop `for (currTime = 0; currTime <= longTime; ...)`, the
writes included. -/
def segmentStepRefs (env : Environment) (currPathSeg : List Ref)
    (otherSols : List (List Ref)) (run : SegRun) (currTime : Nat) : SegRun :=
  checkPairsRefs env currPathSeg otherSols currTime
    { run with
      agentVisited := recordVisitedRefs env currPathSeg otherSols currTime run.agentVisited }

/-- The segmentation loop of `SegHeuristic` after the rounds `currTime = 0,
..., k - 1`, started on the memory `mem` in which all costs have been cleared. -/
def runAfter (env : Environment) (currPathSeg : List Ref) (otherSols : List (List Ref))
    (mem : Ref → StateObj) (k : Nat) : SegRun :=
  (List.range k).foldl (segmentStepRefs env currPathSeg otherSols)
    { agentVisited := List.replicate env.getGoals.length [],
      lastSegmentTime := 0, currCost := 1,
      mem := writeCosts env currPathSeg otherSols 0
        (longTimeRefs env currPathSeg otherSols + 1) 0 mem }

/-- Steps 2 to 6 of `A_star::SegHeuristic` on the memory of the state objects:
the value returned and the memory on return.  `currPathSeg` is the vector of
`State*` that step 1 has rebuilt from the node. -/
def SegHeuristicMem (env : Environment) (currPathSeg : List Ref)
    (otherSols : List (List Ref)) (mem : Ref → StateObj) : Int × (Ref → StateObj) :=
  let longTime := longTimeRefs env currPathSeg otherSols
  let run := runAfter env currPathSeg otherSols mem (longTime + 1)
  ((run.currCost : Int),
    writeCosts env currPathSeg otherSols run.lastSegmentTime (longTime + 1)
      run.currCost run.mem)

/-- The local variables of a `SegRun` with every `State*` replaced by the
`(time, x, y)` that `pos` gives for it. -/
def SegRun.view (pos : Ref → State) (run : SegRun) : SegState :=
  { agentVisited := run.agentVisited.map (List.map pos),
    lastSegmentTime := run.lastSegmentTime,
    currCost := run.currCost }

/-- The state of the segmentation loop after steps 4d and 4e at `currTime`,
the writes of step 4d included. -/
def bumpRun (env : Environment) (currPathSeg : List Ref) (otherSols : List (List Ref))
    (currTime : Nat) (run : SegRun) : SegRun :=
  { agentVisited :=
      (List.range otherSols.length).foldl (fun av a => av.set a []) run.agentVisited,
    lastSegmentTime := currTime,
    currCost := run.currCost + 1,
    mem := writeCosts env currPathSeg otherSols run.lastSegmentTime currTime
      run.currCost run.mem }

/-- Round `u` of the segmentation loop of `SegHeuristic` creates a segment
boundary: the counter `currCost` goes up in that round. -/
def boundaryAt (env : Environment) (currPathSeg : List Ref) (otherSols : List (List Ref))
    (mem : Ref → StateObj) (u : Nat) : Bool :=
  decide ((runAfter env currPathSeg otherSols mem (u + 1)).currCost
    ≠ (runAfter env currPathSeg otherSols mem u).currCost)

/-- A memory for the examples: the objects at the addresses 0 and 1 are the states
(0,0,0) and (1,1,0) of a candidate path, those at 10 to 13 the states (0,5,5),
(1,5,5), (2,5,5) and (3,1,0) of another agent, every cost being 7. -/
def exampleMem : Ref → StateObj
  | .caller 0 => ⟨0, 0, 0, 7⟩
  | .caller 1 => ⟨1, 1, 0, 7⟩
  | .caller 10 => ⟨0, 5, 5, 7⟩
  | .caller 11 => ⟨1, 5, 5, 7⟩
  | .caller 12 => ⟨2, 5, 5, 7⟩
  | .caller 13 => ⟨3, 1, 0, 7⟩
  | _ => ⟨0, 0, 0, 7⟩

/-- The loop variables of `A_star::plan` that the search changes, with the
memory of the state objects.  An entry of `open_heap` is a node together with
the `State*` of the node and of its ancestors, start first. -/
structure SearchMem where
  open_heap : List (Node × List Ref)
  open_list : List State
  mem : Ref → StateObj

/-- The memory after `expandState` has made the state objects of the
neighbours in round `k`.  `includes/State.h` is absent; the cost of a new
object is taken to be 0, and no value computed here depends on it. -/
def makeStates (k : Nat) (neighbors : List State) (mem : Ref → StateObj) : Ref → StateObj :=
  fun q =>
    match q with
    | .made k' j =>
      if k' = k then
        match neighbors[j]? with
        | some st => ⟨st.time, st.x, st.y, 0⟩
        | none => mem q
      else mem q
    | .caller _ => mem q

/-- The neighbours of round `k` with the addresses of their objects. -/
def neighborRefs (k : Nat) (neighbors : List State) : List (State × Ref) :=
  neighbors.enum.map (fun p => (p.2, Ref.made k p.1))

/-- The body of `for (State *st: neighbors)` in `A_star::plan` on the memory
of the state objects: as `relax`, with `SegHeuristic` writing its cost tags. -/
def relaxMem (env : Environment) (startState : State) (parentSol : List (List Ref))
    (bound : Int) (current : Node × List Ref) (acc : SearchMem) (st : State × Ref) :
    SearchMem :=
  let tentative_gScore := current.1.gScore + 1
  if scoreLess tentative_gScore none then
    let refs := current.2 ++ [st.2]
    let seg := SegHeuristicMem env refs parentSol acc.mem
    let hScore :=
      if parentSol.length ≠ 0 then env.m_dimx * env.m_dimy * seg.1
      else env.heuristicFunc startState
    let mem := if parentSol.length ≠ 0 then seg.2 else acc.mem
    let n := Node.mk st.1 hScore tentative_gScore (some current.1)
    if st.1 ∉ acc.open_list then
      if parentSol.length ≠ 0 then
        if hScore ≤ bound then
          { open_heap := acc.open_heap ++ [(n, refs)],
            open_list := st.1 :: acc.open_list, mem := mem }
        else { acc with mem := mem }
      else
        { open_heap := acc.open_heap ++ [(n, refs)],
          open_list := st.1 :: acc.open_list, mem := mem }
    else { acc with mem := mem }
  else acc

/-- The call `open_heap.top()` on a heap whose entries carry their `State*`. -/
def heapTopMem (tie : Nat → List Node → Nat) (k : Nat) (open_heap : List (Node × List Ref)) :
    Option (Nat × (Node × List Ref)) :=
  match heapTop tie k (open_heap.map Prod.fst) with
  | none => none
  | some (i, _) => (open_heap[i]?).map (fun e => (i, e))

/-- The loop of `A_star::plan` on the memory of the state objects, the grid
model being passed from round to round: the flag and solution returned, the
grid model and the memory on return, or `none` when `fuel` rounds were not
enough. -/
def planLoopMem (tie : Nat → List Node → Nat) (startState : State)
    (constraints : List Constraint) (parentSol : List (List Ref)) (bound : Int) :
    Nat → Nat → List (Node × List Ref) → List State → List State → Environment →
      (Ref → StateObj) → Option ((Bool × List State) × Environment × (Ref → StateObj))
  | 0, _, _, _, _, _, _ => none
  | fuel + 1, k, open_heap, open_list, neighbors, env, mem =>
    match heapTopMem tie k open_heap with
    | none => some ((false, []), env, mem)
    | some (i, current) =>
      if env.isStateGoal current.1.state then
        some ((true, walkUp current.1 []), env, mem)
      else
        let open_heap := open_heap.eraseIdx i
        let neighbors := env.expandState current.1.state neighbors constraints
        let mem := makeStates k neighbors mem
        let next := (neighborRefs k neighbors).foldl
          (relaxMem env startState parentSol bound current)
          { open_heap := open_heap, open_list := open_list, mem := mem }
        planLoopMem tie startState constraints parentSol bound fuel (k + 1)
          next.open_heap next.open_list neighbors env next.mem

/-- The method `A_star::plan` on the memory of the state objects: `startRef` is
the `State*` of the start, `parentSol` holds the `State*` of the reference
solutions. -/
def planMem (tie : Nat → List Node → Nat) (env : Environment) (fuel : Nat)
    (startRef : Ref) (solution : List State) (constraints : List Constraint)
    (parentSol : List (List Ref)) (bound : Int) (mem : Ref → StateObj) :
    Option ((Bool × List State) × Environment × (Ref → StateObj)) :=
  let _solution := vectorClear solution
  let startState := (mem startRef).toState
  let startNode := Node.mk startState (env.heuristicFunc startState) 0 none
  planLoopMem tie startState constraints parentSol bound fuel 0
    [(startNode, [startRef])] [startState] [] env mem

/-- The invariant that ties the heap of the search on memory in round `k` to
the memory: the `State*` of every entry point to the states of the node's
chain and none of them is an object made in round `k` or later, and the
reference solutions point to the states `pv` and to no object made by `plan`. -/
def MemInv (k : Nat) (pv : List (List State)) (parentSol : List (List Ref))
    (open_heap : List (Node × List Ref)) (mem : Ref → StateObj) : Prop :=
  (∀ e ∈ open_heap, derefPath mem e.2 = walkUp e.1 [] ∧
    ∀ r ∈ e.2, ∀ k' j, r = Ref.made k' j → k' < k) ∧
  parentSol.map (derefPath mem) = pv ∧
  (∀ p ∈ parentSol, ∀ r ∈ p, ∀ k' j, r ≠ Ref.made k' j)

/-- A conflict interval of a reference set: the pair `(min i j, max i j)`, read
as the integer interval between its components, for two distinct agents `a` and
`b` of the set that stand on the same cell, `a` at timestep `i` of its path and
`b` at timestep `j` of its path.  The agents are the indices below
`otherSols.size()`, and the path of the agent being planned is the candidate
path. -/
def conflictInterval (env : Environment) (currPathSeg : List State)
    (otherSols : List (List State)) (I : Nat × Nat) : Prop :=
  ∃ a b i j : Nat, ∃ s1 s2 : State,
    a ≠ b ∧ a < otherSols.length ∧ b < otherSols.length ∧
    (agentPath env currPathSeg otherSols a)[i]? = some s1 ∧
    (agentPath env currPathSeg otherSols b)[j]? = some s2 ∧
    (s1.x = s2.x ∧ s1.y = s2.y) ∧ I = (min i j, max i j)

/-- The integer intervals `[I.1, I.2]` and `[J.1, J.2]` have no timestep in
common. -/
def nonIntersecting (I J : Nat × Nat) : Prop :=
  ∀ t : Nat, ¬ ((I.1 ≤ t ∧ t ≤ I.2) ∧ (J.1 ≤ t ∧ t ≤ J.2))

end XCBS

namespace XCBS

/-! ## The grid model -/

theorem obstacleLoop_iff (nxt : State) (obstacles : List Location) :
    obstacleLoop nxt obstacles = true ↔
      ∀ obs ∈ obstacles, ¬ (nxt.x = obs.x ∧ nxt.y = obs.y) := by
  induction obstacles with
  | nil => simp [obstacleLoop]
  | cons o rest ih =>
    by_cases h : nxt.x = o.x ∧ nxt.y = o.y
    · simp [obstacleLoop, h]
    · have h2 : (nxt.x == o.x && nxt.y == o.y) = false := by
        simpa [Bool.and_eq_true] using h
      simp only [obstacleLoop, h2, Bool.false_eq_true, if_false, ih, List.mem_cons,
        forall_eq_or_imp]
      tauto

theorem constraintRejects_eq_false_iff (c : Constraint) (curr nxt : State) :
    constraintRejects c curr nxt = false ↔
      (∀ v, c.getVertexConstraint = some v →
        ¬ (v.x = nxt.x ∧ v.y = nxt.y ∧ v.time = nxt.time)) ∧
      (∀ e, c.getEdgeConstraint = some e →
        ¬ ((e.x1 = curr.x ∧ e.y1 = curr.y ∧ e.time1 = curr.time) ∧
           (e.x2 = nxt.x ∧ e.y2 = nxt.y ∧ e.time2 = nxt.time))) := by
  obtain ⟨v, e⟩ := c
  cases v <;> cases e <;>
    simp [constraintRejects, Bool.or_eq_false_iff, and_assoc]

theorem constraintLoop_iff (curr nxt : State) (constraints : List Constraint) :
    constraintLoop curr nxt constraints = true ↔
      ∀ c ∈ constraints, constraintRejects c curr nxt = false := by
  induction constraints with
  | nil => simp [constraintLoop]
  | cons c rest ih =>
    cases h : constraintRejects c curr nxt <;> simp [constraintLoop, h, ih]

theorem isStateValid_true_iff (env : Environment) (curr nxt : State)
    (constraints : List Constraint) :
    env.isStateValid curr nxt constraints = true ↔
      (0 ≤ nxt.x ∧ nxt.x ≤ env.m_dimx ∧ 0 ≤ nxt.y ∧ nxt.y ≤ env.m_dimy) ∧
      (∀ obs ∈ env.m_obstacles, ¬ (nxt.x = obs.x ∧ nxt.y = obs.y)) ∧
      (∀ c ∈ constraints, ∀ v, c.getVertexConstraint = some v →
        ¬ (v.x = nxt.x ∧ v.y = nxt.y ∧ v.time = nxt.time)) ∧
      (∀ c ∈ constraints, ∀ e, c.getEdgeConstraint = some e →
        ¬ ((e.x1 = curr.x ∧ e.y1 = curr.y ∧ e.time1 = curr.time) ∧
           (e.x2 = nxt.x ∧ e.y2 = nxt.y ∧ e.time2 = nxt.time))) := by
  have hc := constraintLoop_iff curr nxt constraints
  have ho := obstacleLoop_iff nxt env.m_obstacles
  simp only [constraintRejects_eq_false_iff] at hc
  unfold Environment.isStateValid
  by_cases hb : 0 ≤ nxt.x ∧ nxt.x ≤ env.m_dimx ∧ 0 ≤ nxt.y ∧ nxt.y ≤ env.m_dimy
  · obtain ⟨h1, h2, h3, h4⟩ := hb
    have hcond : (decide (0 > nxt.x) || decide (nxt.x > env.m_dimx) ||
        decide (0 > nxt.y) || decide (nxt.y > env.m_dimy)) = false := by
      simp [h1, h2, h3, h4]
    rw [hcond]
    cases hobs : obstacleLoop nxt env.m_obstacles
    · have : ¬ ∀ obs ∈ env.m_obstacles, ¬ (nxt.x = obs.x ∧ nxt.y = obs.y) := by
        rw [← ho, hobs]; simp
      simp only [Bool.false_eq_true, if_false, Bool.not_false, if_true, false_iff]
      tauto
    · have hall := ho.mp hobs
      simp only [Bool.false_eq_true, if_false, Bool.not_true, hc]
      constructor
      · intro h
        exact ⟨⟨h1, h2, h3, h4⟩, hall, fun c hcm v hv => (h c hcm).1 v hv,
          fun c hcm e he => (h c hcm).2 e he⟩
      · rintro ⟨_, _, hv, he⟩ c hcm
        exact ⟨hv c hcm, he c hcm⟩
  · have hcond : (decide (0 > nxt.x) || decide (nxt.x > env.m_dimx) ||
        decide (0 > nxt.y) || decide (nxt.y > env.m_dimy)) = true := by
      simp only [Bool.or_eq_true, decide_eq_true_eq]
      by_contra hne
      apply hb
      omega
    rw [hcond]
    simp only [if_true, Bool.false_eq_true, false_iff]
    tauto

/-- C6: `isStateValid(curr, nxt, constraints)` holds exactly when `nxt` lies in
`[0, dimx] x [0, dimy]` (both upper bounds included), is on no obstacle, matches
no vertex constraint on `(x, y, time)`, and `curr → nxt` matches no edge
constraint on `(x1, y1, time1) → (x2, y2, time2)`. -/
theorem isStateValid_iff (env : Environment) (curr nxt : State)
    (constraints : List Constraint) :
    env.isStateValid curr nxt constraints = true ↔
      (0 ≤ nxt.x ∧ nxt.x ≤ env.m_dimx ∧ 0 ≤ nxt.y ∧ nxt.y ≤ env.m_dimy) ∧
      (∀ obs ∈ env.m_obstacles, ¬ (nxt.x = obs.x ∧ nxt.y = obs.y)) ∧
      (∀ c ∈ constraints, ∀ v, c.getVertexConstraint = some v →
        ¬ (v.x = nxt.x ∧ v.y = nxt.y ∧ v.time = nxt.time)) ∧
      (∀ c ∈ constraints, ∀ e, c.getEdgeConstraint = some e →
        ¬ ((e.x1 = curr.x ∧ e.y1 = curr.y ∧ e.time1 = curr.time) ∧
           (e.x2 = nxt.x ∧ e.y2 = nxt.y ∧ e.time2 = nxt.time))) :=
  isStateValid_true_iff env curr nxt constraints

theorem expandState_eq (env : Environment) (st : State) (neighbors : List State)
    (constraints : List Constraint) :
    env.expandState st neighbors constraints =
      List.filter (fun n => env.isStateValid st n constraints)
        [⟨st.time + 1, st.x, st.y + 1⟩, ⟨st.time + 1, st.x, st.y - 1⟩,
         ⟨st.time + 1, st.x + 1, st.y⟩, ⟨st.time + 1, st.x - 1, st.y⟩] := by
  unfold Environment.expandState vectorClear
  cases h1 : env.isStateValid st ⟨st.time + 1, st.x, st.y + 1⟩ constraints <;>
  cases h2 : env.isStateValid st ⟨st.time + 1, st.x, st.y - 1⟩ constraints <;>
  cases h3 : env.isStateValid st ⟨st.time + 1, st.x + 1, st.y⟩ constraints <;>
  cases h4 : env.isStateValid st ⟨st.time + 1, st.x - 1, st.y⟩ constraints <;>
  simp [List.filter, h1, h2, h3, h4]

theorem mem_expandState (env : Environment) (st : State) (neighbors : List State)
    (constraints : List Constraint) (n : State) :
    n ∈ env.expandState st neighbors constraints ↔
      (n = ⟨st.time + 1, st.x, st.y + 1⟩ ∨ n = ⟨st.time + 1, st.x, st.y - 1⟩ ∨
       n = ⟨st.time + 1, st.x + 1, st.y⟩ ∨ n = ⟨st.time + 1, st.x - 1, st.y⟩) ∧
      env.isStateValid st n constraints = true := by
  rw [expandState_eq]
  simp [List.mem_filter]

theorem expandState_clears (env : Environment) (st : State) (neighbors : List State)
    (constraints : List Constraint) :
    env.expandState st neighbors constraints = env.expandState st [] constraints := by
  rw [expandState_eq, expandState_eq]

/-- C7: `expandState(s, neighbors, constraints)` leaves in `neighbors` exactly
the sublist of `[up, down, right, left]`, each at time `s.time + 1` and in that
order, of the candidates that `isStateValid` accepts; so it has at most four
elements, none of them at the cell of `s`, and nothing of what `neighbors` held
before the call survives. -/
theorem expandState_spec (env : Environment) (s : State) (neighbors : List State)
    (constraints : List Constraint) :
    env.expandState s neighbors constraints =
        List.filter (fun n => env.isStateValid s n constraints)
          [⟨s.time + 1, s.x, s.y + 1⟩, ⟨s.time + 1, s.x, s.y - 1⟩,
           ⟨s.time + 1, s.x + 1, s.y⟩, ⟨s.time + 1, s.x - 1, s.y⟩] ∧
      (env.expandState s neighbors constraints).length ≤ 4 ∧
      (∀ n ∈ env.expandState s neighbors constraints, ¬ (n.x = s.x ∧ n.y = s.y)) ∧
      env.expandState s neighbors constraints = env.expandState s [] constraints := by
  refine ⟨expandState_eq env s neighbors constraints, ?_, ?_, ?_⟩
  · rw [expandState_eq]
    exact le_trans (List.length_filter_le _ _) (by simp)
  · intro n hn
    rw [mem_expandState] at hn
    rcases hn.1 with h | h | h | h <;> subst h <;> simp
  · rw [expandState_eq, expandState_eq]

theorem currentGoal_eq (env : Environment) (g : Location)
    (hg : env.m_goals[env.m_agentIdx]? = some g) : env.currentGoal = g := by
  unfold Environment.currentGoal
  rw [List.getD_eq_getElem?_getD, hg]
  rfl

theorem heuristicFunc_step (env : Environment) (constraints : List Constraint)
    (neighbors : List State) (a b : State)
    (h : b ∈ env.expandState a neighbors constraints) :
    env.heuristicFunc a ≤ env.heuristicFunc b + 1 := by
  rw [mem_expandState] at h
  unfold Environment.heuristicFunc
  rcases h.1 with h | h | h | h <;> subst h <;> simp only <;>
    cases abs_cases (a.x - env.currentGoal.x) <;>
    cases abs_cases (a.y - env.currentGoal.y) <;>
    first
      | (cases abs_cases (a.y + 1 - env.currentGoal.y) <;> omega)
      | (cases abs_cases (a.y - 1 - env.currentGoal.y) <;> omega)
      | (cases abs_cases (a.x + 1 - env.currentGoal.x) <;> omega)
      | (cases abs_cases (a.x - 1 - env.currentGoal.x) <;> omega)

theorem heuristicFunc_goal (env : Environment) (s : State)
    (h : env.isStateGoal s = true) : env.heuristicFunc s = 0 := by
  unfold Environment.isStateGoal at h
  simp only [Bool.and_eq_true, beq_iff_eq] at h
  unfold Environment.heuristicFunc
  rw [h.1, h.2]
  simp

theorem heuristicFunc_chain (env : Environment) (constraints : List Constraint)
    (chain : List State) :
    ∀ s : State,
      List.Chain (fun a b => b ∈ env.expandState a [] constraints) s chain →
      env.isStateGoal ((s :: chain).getLast (List.cons_ne_nil s chain)) = true →
      env.heuristicFunc s ≤ chain.length := by
  induction chain with
  | nil =>
    intro s _ hgoal
    simp only [List.getLast_singleton] at hgoal
    simp [heuristicFunc_goal env s hgoal]
  | cons b rest ih =>
    intro s hch hgoal
    rw [List.chain_cons] at hch
    have hlast : (s :: b :: rest).getLast (List.cons_ne_nil s (b :: rest)) =
        (b :: rest).getLast (List.cons_ne_nil b rest) := by
      simp [List.getLast_cons]
    rw [hlast] at hgoal
    have h1 := ih b hch.2 hgoal
    have h2 := heuristicFunc_step env constraints [] s b hch.1
    simp only [List.length_cons, Nat.cast_add, Nat.cast_one]
    omega

/-- C8: `heuristicFunc(s)` is `|s.x - g.x| + |s.y - g.y|` for the goal `g` of
the selected agent, and it never exceeds the number of steps of a chain
`s = s0, s1, ..., sk` in which every state is produced by `expandState` from
the one before and `sk` satisfies `isStateGoal`. -/
theorem heuristicFunc_admissible (env : Environment) (g : Location)
    (hg : env.m_goals[env.m_agentIdx]? = some g) (s : State) :
    env.heuristicFunc s = |s.x - g.x| + |s.y - g.y| ∧
    ∀ (constraints : List Constraint) (chain : List State),
      List.Chain (fun a b => b ∈ env.expandState a [] constraints) s chain →
      env.isStateGoal ((s :: chain).getLast (List.cons_ne_nil s chain)) = true →
      env.heuristicFunc s ≤ chain.length := by
  refine ⟨?_, fun constraints chain => heuristicFunc_chain env constraints chain s⟩
  unfold Environment.heuristicFunc
  rw [currentGoal_eq env g hg]

/-- Witness of C8 on the 5x5 grid with goal (2,2) and the state (0,0,0). -/
theorem heuristicFunc_admissible_witness :
    (Environment.new 5 5 [] [⟨2, 2⟩]).m_goals[(Environment.new 5 5 [] [⟨2, 2⟩]).m_agentIdx]?
        = some ⟨2, 2⟩ ∧
      (Environment.new 5 5 [] [⟨2, 2⟩]).heuristicFunc ⟨0, 0, 0⟩
        = |(0 : Int) - 2| + |(0 : Int) - 2| :=
  ⟨rfl, (heuristicFunc_admissible (Environment.new 5 5 [] [⟨2, 2⟩]) ⟨2, 2⟩ rfl ⟨0, 0, 0⟩).1⟩

/-- C9, the code at the failing input: on a grid with the single goal (2,2)
the constructed cursor 0 is a valid index, and one call of `updateAgent` moves
it to 1, which is the size of the goal list and no index into it. -/
theorem updateAgent_leaves_goal_list :
    (Environment.new 5 5 [] [⟨2, 2⟩]).m_agentIdx < (Environment.new 5 5 [] [⟨2, 2⟩]).m_goals.length ∧
      (Environment.new 5 5 [] [⟨2, 2⟩]).updateAgent.m_agentIdx = 1 ∧
      (Environment.new 5 5 [] [⟨2, 2⟩]).updateAgent.m_goals.length = 1 ∧
      ¬ ((Environment.new 5 5 [] [⟨2, 2⟩]).updateAgent.m_agentIdx
          < (Environment.new 5 5 [] [⟨2, 2⟩]).updateAgent.m_goals.length) := by
  decide

/-! ## Disjointness -/

theorem disjointInner_iff (s1 : State) (v2 : List State) :
    disjointInner s1 v2 = true ↔ ∀ s2 ∈ v2, ¬ (s1.x = s2.x ∧ s1.y = s2.y) := by
  induction v2 with
  | nil => simp [disjointInner]
  | cons b rest ih =>
    by_cases h : s1.x = b.x ∧ s1.y = b.y
    · simp [disjointInner, State.isSameLocation, h]
    · have h2 : s1.isSameLocation b = false := by
        simpa [State.isSameLocation, Bool.and_eq_true] using h
      simp only [disjointInner, h2, Bool.false_eq_true, if_false, ih, List.mem_cons,
        forall_eq_or_imp]
      tauto

theorem disjointOuter_iff (v1 v2 : List State) :
    disjointOuter v2 v1 = true ↔
      ∀ s1 ∈ v1, ∀ s2 ∈ v2, ¬ (s1.x = s2.x ∧ s1.y = s2.y) := by
  induction v1 with
  | nil => simp [disjointOuter]
  | cons a rest ih =>
    cases h : disjointInner a v2
    · have : ¬ ∀ s2 ∈ v2, ¬ (a.x = s2.x ∧ a.y = s2.y) := by
        rw [← disjointInner_iff, h]; simp
      simp only [disjointOuter, h, Bool.false_eq_true, if_false, List.mem_cons,
        forall_eq_or_imp, false_iff]
      tauto
    · have h2 := (disjointInner_iff a v2).mp h
      simp only [disjointOuter, h, if_true, List.mem_cons, forall_eq_or_imp]
      rw [ih]
      exact ⟨fun h3 => ⟨h2, h3⟩, fun h3 => h3.2⟩

theorem is_disjoint_iff (v1 v2 : List State) :
    is_disjoint v1 v2 = true ↔
      ∀ s1 ∈ v1, ∀ s2 ∈ v2, ¬ (s1.x = s2.x ∧ s1.y = s2.y) := by
  unfold is_disjoint
  cases v1 with
  | nil => simp
  | cons a r1 =>
    cases v2 with
    | nil => simp
    | cons b r2 =>
      simp only [List.isEmpty_cons, Bool.or_self, Bool.false_eq_true, if_false]
      exact disjointOuter_iff (a :: r1) (b :: r2)

/-- C10: `is_disjoint` is symmetric, and it is true as soon as one of the two
paths is empty. -/
theorem is_disjoint_symm_and_empty (A B : List State) :
    is_disjoint A B = is_disjoint B A ∧
      ((A = [] ∨ B = []) → is_disjoint A B = true) := by
  constructor
  · rw [Bool.eq_iff_iff, is_disjoint_iff, is_disjoint_iff]
    constructor
    · intro h b hb a ha hab
      exact h a ha b hb ⟨hab.1.symm, hab.2.symm⟩
    · intro h a ha b hb hab
      exact h b hb a ha ⟨hab.1.symm, hab.2.symm⟩
  · rintro (h | h) <;> subst h <;> simp [is_disjoint]

/-! ## The search: nodes, heap and relaxation -/

theorem walkUp_append : ∀ (n : Node) (acc : List State),
    walkUp n acc = walkUp n [] ++ acc
  | .mk s _ _ none, acc => by simp [walkUp]
  | .mk s _ _ (some p), acc => by
    rw [walkUp, walkUp, walkUp_append p (s :: acc), walkUp_append p [s]]
    simp

theorem walkUp_child (st : State) (h g : Int) (current : Node) :
    walkUp (.mk st h g (some current)) [] = walkUp current [] ++ [st] := by
  rw [walkUp, walkUp_append]

theorem walkUp_getLast? : ∀ n : Node, (walkUp n []).getLast? = some n.state
  | .mk s _ _ none => by simp [walkUp, Node.state]
  | .mk s h g (some p) => by
    rw [walkUp_child, List.getLast?_concat]
    rfl

theorem exists_least_fScore (l : List Node) (hl : l ≠ []) :
    ∃ m ∈ l, ∀ x ∈ l, m.fScore ≤ x.fScore := by
  induction l with
  | nil => exact absurd rfl hl
  | cons a rest ih =>
    by_cases hr : rest = []
    · subst hr
      exact ⟨a, by simp, by simp⟩
    · obtain ⟨m, hm, hmin⟩ := ih hr
      by_cases hle : a.fScore ≤ m.fScore
      · refine ⟨a, by simp, ?_⟩
        intro x hx
        rcases List.mem_cons.mp hx with h | h
        · rw [h]
        · exact le_trans hle (hmin x h)
      · refine ⟨m, List.mem_cons_of_mem _ hm, ?_⟩
        intro x hx
        rcases List.mem_cons.mp hx with h | h
        · rw [h]; omega
        · exact hmin x h

theorem mem_topCandidates (open_heap : List Node) (i : Nat) (n : Node) :
    (i, n) ∈ topCandidates open_heap ↔
      open_heap[i]? = some n ∧ ∀ m ∈ open_heap, n.fScore ≤ m.fScore := by
  simp [topCandidates, List.mem_filter, List.mk_mem_enum_iff_getElem?]

theorem topCandidates_ne_nil (open_heap : List Node) (h : open_heap ≠ []) :
    topCandidates open_heap ≠ [] := by
  obtain ⟨m, hm, hmin⟩ := exists_least_fScore open_heap h
  obtain ⟨i, hi⟩ := List.mem_iff_getElem?.mp hm
  exact List.ne_nil_of_mem ((mem_topCandidates open_heap i m).mpr ⟨hi, hmin⟩)

theorem heapTop_eq_none (tie : Nat → List Node → Nat) (k : Nat) (open_heap : List Node)
    (h : heapTop tie k open_heap = none) : open_heap = [] := by
  by_contra hne
  have hc := topCandidates_ne_nil open_heap hne
  have hlen : 0 < (topCandidates open_heap).length := List.length_pos.mpr hc
  unfold heapTop at h
  rw [List.getElem?_eq_none_iff] at h
  have := Nat.mod_lt (tie k open_heap) hlen
  omega

theorem heapTop_nil (tie : Nat → List Node → Nat) (k : Nat) :
    heapTop tie k [] = none := by
  simp [heapTop, topCandidates]

theorem heapTop_eq_some (tie : Nat → List Node → Nat) (k : Nat) (open_heap : List Node)
    (i : Nat) (current : Node) (h : heapTop tie k open_heap = some (i, current)) :
    open_heap[i]? = some current ∧ ∀ m ∈ open_heap, current.fScore ≤ m.fScore := by
  unfold heapTop at h
  exact (mem_topCandidates open_heap i current).mp (List.getElem?_mem h)

theorem heapTop_mem (tie : Nat → List Node → Nat) (k : Nat) (open_heap : List Node)
    (i : Nat) (current : Node) (h : heapTop tie k open_heap = some (i, current)) :
    current ∈ open_heap :=
  List.getElem?_mem (heapTop_eq_some tie k open_heap i current h).1

theorem mem_eraseIdx_of_ne (open_heap : List Node) (i : Nat) (current n : Node)
    (hi : open_heap[i]? = some current) (hn : n ∈ open_heap) (hne : n.state ≠ current.state) :
    n ∈ open_heap.eraseIdx i := by
  obtain ⟨j, hj⟩ := List.mem_iff_getElem?.mp hn
  rw [List.mem_eraseIdx_iff_getElem?]
  refine ⟨j, ?_, hj⟩
  intro hji
  subst hji
  rw [hi] at hj
  injection hj with hj
  exact hne (by rw [hj])

theorem length_eraseIdx_top (open_heap : List Node) (i : Nat) (current : Node)
    (hi : open_heap[i]? = some current) :
    (open_heap.eraseIdx i).length + 1 = open_heap.length := by
  obtain ⟨hlt, _⟩ := List.getElem?_eq_some.mp hi
  rw [List.length_eraseIdx, if_pos hlt]
  omega

theorem foldl_invariant {α β : Type} (f : β → α → β) (P : β → Prop) (l : List α) :
    ∀ b : β, (∀ b a, a ∈ l → P b → P (f b a)) → P b → P (l.foldl f b) := by
  induction l with
  | nil => intro b _ h0; exact h0
  | cons a rest ih =>
    intro b hstep h0
    rw [List.foldl_cons]
    exact ih (f b a) (fun b' a' ha' => hstep b' a' (List.mem_cons_of_mem _ ha'))
      (hstep b a (List.mem_cons_self _ _) h0)

theorem relax_cases (env : Environment) (startState : State) (parentSol : List (List State))
    (bound : Int) (current : Node) (acc : List Node × List State) (st : State) :
    relax env startState parentSol bound current acc st = acc ∨
    ∃ h : Int, st ∉ acc.2 ∧ (parentSol = [] → h = env.heuristicFunc startState) ∧
      relax env startState parentSol bound current acc st =
        (acc.1 ++ [Node.mk st h (current.gScore + 1) (some current)], st :: acc.2) := by
  unfold relax
  simp only [scoreLess, if_true]
  by_cases hmem : st ∈ acc.2
  · left; simp [hmem]
  · by_cases hsol : parentSol.length ≠ 0
    · by_cases hb : env.m_dimx * env.m_dimy *
          SegHeuristic env (.mk st 0 (current.gScore + 1) (some current)) parentSol ≤ bound
      · right
        refine ⟨env.m_dimx * env.m_dimy *
          SegHeuristic env (.mk st 0 (current.gScore + 1) (some current)) parentSol,
          hmem, ?_, ?_⟩
        · intro h; subst h; simp at hsol
        · simp only [hmem, not_false_eq_true, if_true, if_pos hsol, if_pos hb]
      · left
        simp only [hmem, not_false_eq_true, if_true, if_pos hsol, if_neg hb]
    · right
      refine ⟨env.heuristicFunc startState, hmem, fun _ => rfl, ?_⟩
      simp only [hmem, not_false_eq_true, if_true, if_neg hsol]

theorem relax_unguided (env : Environment) (startState : State)
    (bound : Int) (current : Node) (acc : List Node × List State) (st : State) :
    relax env startState [] bound current acc st =
      if st ∈ acc.2 then acc
      else (acc.1 ++ [Node.mk st (env.heuristicFunc startState) (current.gScore + 1)
        (some current)], st :: acc.2) := by
  unfold relax
  by_cases hmem : st ∈ acc.2 <;> simp [scoreLess, hmem]

theorem relax_fold_mem (env : Environment) (startState : State)
    (parentSol : List (List State)) (bound : Int) (current : Node) (neighbors : List State) :
    ∀ acc : List Node × List State, ∀ n ∈
      (neighbors.foldl (relax env startState parentSol bound current) acc).1,
      n ∈ acc.1 ∨ ∃ st ∈ neighbors, ∃ h : Int,
        (parentSol = [] → h = env.heuristicFunc startState) ∧
        n = Node.mk st h (current.gScore + 1) (some current) := by
  induction neighbors with
  | nil => intro acc n hn; exact Or.inl hn
  | cons st rest ih =>
    intro acc n hn
    rw [List.foldl_cons] at hn
    rcases ih _ n hn with h | ⟨st', hst', h, hh, hn'⟩
    · rcases relax_cases env startState parentSol bound current acc st with hr | ⟨h', _, hh', hr⟩
      · rw [hr] at h; exact Or.inl h
      · rw [hr] at h
        rcases List.mem_append.mp h with h | h
        · exact Or.inl h
        · right
          exact ⟨st, List.mem_cons_self _ _, h', hh', by simpa using h⟩
    · right
      exact ⟨st', List.mem_cons_of_mem _ hst', h, hh, hn'⟩

/-- The search only ever returns the chain of a node that it built: if a
property holds of every node of the heap and passes from a node to each child
made from one of its neighbours, it holds of the node whose chain is returned. -/
theorem planLoop_success (tie : Nat → List Node → Nat) (env : Environment)
    (startState : State) (constraints : List Constraint) (parentSol : List (List State))
    (bound : Int) (P : Node → Prop)
    (hchild : ∀ (current : Node) (st : State) (h : Int), P current →
      st ∈ env.expandState current.state [] constraints →
      P (Node.mk st h (current.gScore + 1) (some current))) :
    ∀ (fuel k : Nat) (open_heap : List Node) (open_list neighbors path : List State),
      (∀ n ∈ open_heap, P n) →
      planLoop tie env startState constraints parentSol bound fuel k
        open_heap open_list neighbors = some (true, path) →
      ∃ current, P current ∧ env.isStateGoal current.state = true ∧
        path = walkUp current [] := by
  intro fuel
  induction fuel with
  | zero => intro k heap ol nb path _ h; simp [planLoop] at h
  | succ fuel ih =>
    intro k heap ol nb path hP h
    rw [planLoop] at h
    cases htop : heapTop tie k heap with
    | none => rw [htop] at h; simp at h
    | some top =>
      obtain ⟨i, current⟩ := top
      rw [htop] at h
      simp only at h
      have hcur : P current := hP current (heapTop_mem tie k heap i current htop)
      by_cases hgoal : env.isStateGoal current.state = true
      · rw [if_pos hgoal] at h
        refine ⟨current, hcur, hgoal, ?_⟩
        simp only [Option.some.injEq, Prod.mk.injEq, true_and] at h
        exact h.symm
      · rw [if_neg hgoal] at h
        refine ih _ _ _ _ path ?_ h
        intro n hn
        rcases relax_fold_mem env startState parentSol bound current _ _ n hn with
          hn | ⟨st, hst, h', _, hn⟩
        · exact hP n (List.mem_of_mem_eraseIdx hn)
        · rw [hn]
          refine hchild current st h' hcur ?_
          rw [expandState_clears] at hst
          exact hst

theorem plan_success_chain (tie : Nat → List Node → Nat) (env : Environment) (fuel : Nat)
    (startState : State) (solution : List State) (constraints : List Constraint)
    (parentSol : List (List State)) (bound : Int) (path : List State)
    (h : plan tie env fuel startState solution constraints parentSol bound
      = some (true, path)) :
    path.head? = some startState ∧
      List.Chain' (fun a b => b ∈ env.expandState a [] constraints) path ∧
      ∃ last, path.getLast? = some last ∧ env.isStateGoal last = true := by
  unfold plan at h
  have key := planLoop_success tie env startState constraints parentSol bound
    (fun n => (walkUp n []).head? = some startState ∧
      List.Chain' (fun a b => b ∈ env.expandState a [] constraints) (walkUp n []))
    (by
      intro current st h' hcur hst
      rw [walkUp_child]
      obtain ⟨h1, h2⟩ := hcur
      constructor
      · cases hw : walkUp current [] with
        | nil => rw [hw] at h1; simp at h1
        | cons a rest => rw [hw] at h1; simpa using h1
      · refine List.Chain'.append h2 (List.chain'_singleton st) ?_
        intro x hx y hy
        rw [walkUp_getLast?] at hx
        simp only [Option.mem_def, Option.some.injEq, List.head?_cons] at hx hy
        subst hx; subst hy
        exact hst)
    fuel 0 _ _ _ path
    (by
      intro n hn
      simp only [List.mem_singleton] at hn
      subst hn
      simp [walkUp])
    h
  obtain ⟨current, ⟨h1, h2⟩, hgoal, hpath⟩ := key
  subst hpath
  exact ⟨h1, h2, current.state, walkUp_getLast? current, hgoal⟩

theorem chain'_tail_pred {α : Type} (R : α → α → Prop) :
    ∀ l : List α, List.Chain' R l → ∀ s ∈ l.tail, ∃ p ∈ l, R p s := by
  intro l
  induction l with
  | nil => intro _ s hs; simp at hs
  | cons a rest ih =>
    intro hch s hs
    cases rest with
    | nil => simp at hs
    | cons b rest' =>
      rw [List.chain'_cons] at hch
      simp only [List.tail_cons] at hs
      rcases List.mem_cons.mp hs with hsb | hsr
      · subst hsb
        exact ⟨a, List.mem_cons_self _ _, hch.1⟩
      · obtain ⟨p, hp, hR⟩ := ih hch.2 s (by simpa using hsr)
        exact ⟨p, List.mem_cons_of_mem _ hp, hR⟩

/-- C2: whenever `plan` returns success, for any grid, constraints and
reference solutions, the returned path is non-empty, starts with the start
state, ends in a state that satisfies `isStateGoal`, and every consecutive pair
`(p, q)` has `q.time = p.time + 1` and `q` one unit away from `p` in exactly one
of the four cardinal directions. -/
theorem plan_success_path (tie : Nat → List Node → Nat) (env : Environment) (fuel : Nat)
    (startState : State) (solution : List State) (constraints : List Constraint)
    (parentSol : List (List State)) (bound : Int) (path : List State)
    (h : plan tie env fuel startState solution constraints parentSol bound
      = some (true, path)) :
    path ≠ [] ∧ path.head? = some startState ∧
      (∃ last, path.getLast? = some last ∧ env.isStateGoal last = true) ∧
      List.Chain' (fun p q => q.time = p.time + 1 ∧
        ((q.x = p.x ∧ q.y = p.y + 1) ∨ (q.x = p.x ∧ q.y = p.y - 1) ∨
         (q.x = p.x + 1 ∧ q.y = p.y) ∨ (q.x = p.x - 1 ∧ q.y = p.y))) path := by
  obtain ⟨h1, h2, h3⟩ :=
    plan_success_chain tie env fuel startState solution constraints parentSol bound path h
  refine ⟨?_, h1, h3, ?_⟩
  · intro hnil; rw [hnil] at h1; simp at h1
  · refine List.Chain'.imp ?_ h2
    intro p q hq
    rw [mem_expandState] at hq
    rcases hq.1 with hq | hq | hq | hq <;> subst hq <;> simp

/-- C3: whenever `plan` returns success, no state of the returned path after
the start matches a vertex constraint on `(x, y, time)`, lies on an obstacle or
lies outside `[0, dimx] x [0, dimy]`, and no consecutive pair of path states
matches the transition of an edge constraint; so with a vertex constraint on
`(1, 0)` at time 1 the state `(time = 1, x = 1, y = 0)` is none of the states
after the start, and is not on the path at all unless it is the start. -/
theorem plan_success_respects (tie : Nat → List Node → Nat) (env : Environment) (fuel : Nat)
    (startState : State) (solution : List State) (constraints : List Constraint)
    (parentSol : List (List State)) (bound : Int) (path : List State)
    (h : plan tie env fuel startState solution constraints parentSol bound
      = some (true, path)) :
    (∀ s ∈ path.tail,
      (0 ≤ s.x ∧ s.x ≤ env.m_dimx ∧ 0 ≤ s.y ∧ s.y ≤ env.m_dimy) ∧
      (∀ obs ∈ env.m_obstacles, ¬ (s.x = obs.x ∧ s.y = obs.y)) ∧
      (∀ c ∈ constraints, ∀ v, c.getVertexConstraint = some v →
        ¬ (v.x = s.x ∧ v.y = s.y ∧ v.time = s.time))) ∧
    List.Chain' (fun p q => ∀ c ∈ constraints, ∀ e, c.getEdgeConstraint = some e →
        ¬ ((e.x1 = p.x ∧ e.y1 = p.y ∧ e.time1 = p.time) ∧
           (e.x2 = q.x ∧ e.y2 = q.y ∧ e.time2 = q.time))) path ∧
    ((∃ c ∈ constraints, ∃ v, c.getVertexConstraint = some v ∧
        v.x = 1 ∧ v.y = 0 ∧ v.time = 1) →
      (⟨1, 1, 0⟩ : State) ∉ path.tail ∧
      (startState ≠ ⟨1, 1, 0⟩ → (⟨1, 1, 0⟩ : State) ∉ path)) := by
  obtain ⟨h1, h2, _⟩ :=
    plan_success_chain tie env fuel startState solution constraints parentSol bound path h
  have htail : ∀ s ∈ path.tail,
      (0 ≤ s.x ∧ s.x ≤ env.m_dimx ∧ 0 ≤ s.y ∧ s.y ≤ env.m_dimy) ∧
      (∀ obs ∈ env.m_obstacles, ¬ (s.x = obs.x ∧ s.y = obs.y)) ∧
      (∀ c ∈ constraints, ∀ v, c.getVertexConstraint = some v →
        ¬ (v.x = s.x ∧ v.y = s.y ∧ v.time = s.time)) := by
    intro s hs
    obtain ⟨p, _, hR⟩ := chain'_tail_pred _ path h2 s hs
    rw [mem_expandState] at hR
    have hv := (isStateValid_true_iff env p s constraints).mp hR.2
    exact ⟨hv.1, hv.2.1, hv.2.2.1⟩
  have hnot : (∃ c ∈ constraints, ∃ v, c.getVertexConstraint = some v ∧
        v.x = 1 ∧ v.y = 0 ∧ v.time = 1) → (⟨1, 1, 0⟩ : State) ∉ path.tail := by
    rintro ⟨c, hc, v, hv, hx, hy, ht⟩ hmem
    exact (htail _ hmem).2.2 c hc v hv ⟨hx, hy, ht⟩
  refine ⟨htail, ?_, fun hex => ⟨hnot hex, ?_⟩⟩
  · refine List.Chain'.imp ?_ h2
    intro p q hq
    rw [mem_expandState] at hq
    exact ((isStateValid_true_iff env p q constraints).mp hq.2).2.2.2
  · intro hne hmem
    cases path with
    | nil => simp at hmem
    | cons a rest =>
      simp only [List.head?_cons, Option.some.injEq] at h1
      subst h1
      rcases List.mem_cons.mp hmem with hm | hm
      · exact hne hm.symm
      · exact hnot hex (by simpa using hm)

/-- Witness of C2: the 5x5 grid with goal (2,2) and the start (0,0,0). -/
theorem plan_success_path_witness :
    plan (fun _ _ => 0) (Environment.new 5 5 [] [⟨2, 2⟩]) 20 ⟨0, 0, 0⟩ [] [] [] 0
        = some (true, [⟨0, 0, 0⟩, ⟨1, 0, 1⟩, ⟨2, 0, 2⟩, ⟨3, 1, 2⟩, ⟨4, 2, 2⟩]) ∧
      ([⟨0, 0, 0⟩, ⟨1, 0, 1⟩, ⟨2, 0, 2⟩, ⟨3, 1, 2⟩, ⟨4, 2, 2⟩] : List State) ≠ [] :=
  ⟨by decide, (plan_success_path (fun _ _ => 0) (Environment.new 5 5 [] [⟨2, 2⟩]) 20
    ⟨0, 0, 0⟩ [] [] [] 0 _ (by decide)).1⟩

theorem heapTop_singleton (tie : Nat → List Node → Nat) (k : Nat) (n : Node) :
    heapTop tie k [n] = some (0, n) := by
  have hc : topCandidates [n] = [(0, n)] := by
    simp [topCandidates, List.enum, List.enumFrom, List.filter]
  unfold heapTop
  rw [hc]
  simp [Nat.mod_one]

/-- C4, the claim fails when the start is already at the goal: on the 5x5 grid
with goal (0,0), start (0,0,0) and vertex constraints on (0,1) and (1,0) at
time 1, `expandState` on the start yields no state and `plan` returns success
with the one-state path. -/
theorem plan_blocked_start_at_goal :
    (Environment.new 5 5 [] [⟨0, 0⟩]).expandState ⟨0, 0, 0⟩ []
        [⟨some ⟨0, 1, 0, 1⟩, none⟩, ⟨some ⟨0, 1, 1, 0⟩, none⟩] = [] ∧
      plan (fun _ _ => 0) (Environment.new 5 5 [] [⟨0, 0⟩]) 20 ⟨0, 0, 0⟩ []
        [⟨some ⟨0, 1, 0, 1⟩, none⟩, ⟨some ⟨0, 1, 1, 0⟩, none⟩] [] 0
        = some (true, [⟨0, 0, 0⟩]) := by
  decide

/-- C4 as amended: for every grid, start state, constraint set and reference
solutions such that `expandState` on the start yields no state and the start
does not satisfy `isStateGoal`, `plan` returns failure with an empty solution
(two rounds of the loop are enough). -/
theorem plan_blocked_start_fails (tie : Nat → List Node → Nat) (env : Environment)
    (fuel : Nat) (startState : State) (solution : List State)
    (constraints : List Constraint) (parentSol : List (List State)) (bound : Int)
    (hexpand : env.expandState startState [] constraints = [])
    (hgoal : env.isStateGoal startState = false) :
    plan tie env (fuel + 2) startState solution constraints parentSol bound
      = some (false, []) := by
  unfold plan
  simp only []
  rw [planLoop, heapTop_singleton]
  simp only [Node.state, hgoal, Bool.false_eq_true, if_false, hexpand, List.foldl_nil,
    List.eraseIdx_cons_zero]
  rw [planLoop, heapTop_nil]

/-- Witness of amended C4: the 5x5 grid with goal (2,2), start (0,0,0) and
vertex constraints on (0,1) and (1,0) at time 1. -/
theorem plan_blocked_start_fails_witness :
    plan (fun _ _ => 0) (Environment.new 5 5 [] [⟨2, 2⟩]) (0 + 2) ⟨0, 0, 0⟩ []
        [⟨some ⟨0, 1, 0, 1⟩, none⟩, ⟨some ⟨0, 1, 1, 0⟩, none⟩] [] 0
      = some (false, []) :=
  plan_blocked_start_fails (fun _ _ => 0) (Environment.new 5 5 [] [⟨2, 2⟩]) 0 ⟨0, 0, 0⟩ []
    [⟨some ⟨0, 1, 0, 1⟩, none⟩, ⟨some ⟨0, 1, 1, 0⟩, none⟩] [] 0 (by decide) (by decide)

/-- Witness of C3: the 5x5 grid with goal (2,2), start (0,0,0) and a vertex
constraint on (1,0) at time 1. -/
theorem plan_success_respects_witness :
    plan (fun _ _ => 0) (Environment.new 5 5 [] [⟨2, 2⟩]) 20 ⟨0, 0, 0⟩ []
        [⟨some ⟨0, 1, 1, 0⟩, none⟩] [] 0
        = some (true, [⟨0, 0, 0⟩, ⟨1, 0, 1⟩, ⟨2, 0, 2⟩, ⟨3, 1, 2⟩, ⟨4, 2, 2⟩]) ∧
      (⟨1, 1, 0⟩ : State) ∉
        ([⟨0, 0, 0⟩, ⟨1, 0, 1⟩, ⟨2, 0, 2⟩, ⟨3, 1, 2⟩, ⟨4, 2, 2⟩] : List State) :=
  ⟨by decide,
    ((plan_success_respects (fun _ _ => 0) (Environment.new 5 5 [] [⟨2, 2⟩]) 20 ⟨0, 0, 0⟩ []
      [⟨some ⟨0, 1, 1, 0⟩, none⟩] [] 0 _ (by decide)).2.2
      ⟨_, List.mem_cons_self _ _, ⟨0, 1, 1, 0⟩, rfl, rfl, rfl, rfl⟩).2 (by decide)⟩

/-! ## Termination of the search -/

theorem relax_measure (env : Environment) (startState : State) (parentSol : List (List State))
    (bound : Int) (current : Node) (U : Finset State) (acc : List Node × List State)
    (st : State) (hst : st ∈ U) :
    searchMeasure U (relax env startState parentSol bound current acc st).1
        (relax env startState parentSol bound current acc st).2
      ≤ searchMeasure U acc.1 acc.2 := by
  rcases relax_cases env startState parentSol bound current acc st with hr | ⟨h, hmem, _, hr⟩
  · rw [hr]
  · rw [hr]
    unfold searchMeasure
    have hfilter : U.filter (fun s => s ∉ st :: acc.2) =
        (U.filter (fun s => s ∉ acc.2)).erase st := by
      ext s
      simp only [Finset.mem_filter, List.mem_cons, not_or, Finset.mem_erase]
      tauto
    have hin : st ∈ U.filter (fun s => s ∉ acc.2) := by
      simp [Finset.mem_filter, hst, hmem]
    have hpos : 0 < (U.filter (fun s => s ∉ acc.2)).card := Finset.card_pos.mpr ⟨st, hin⟩
    simp only [hfilter, Finset.card_erase_of_mem hin, List.length_append, List.length_singleton]
    omega

theorem relax_fold_measure (env : Environment) (startState : State)
    (parentSol : List (List State)) (bound : Int) (current : Node) (U : Finset State)
    (neighbors : List State) (hU : ∀ st ∈ neighbors, st ∈ U)
    (acc : List Node × List State) :
    searchMeasure U (neighbors.foldl (relax env startState parentSol bound current) acc).1
        (neighbors.foldl (relax env startState parentSol bound current) acc).2
      ≤ searchMeasure U acc.1 acc.2 := by
  refine foldl_invariant (relax env startState parentSol bound current)
    (fun b => searchMeasure U b.1 b.2 ≤ searchMeasure U acc.1 acc.2) neighbors acc ?_ le_rfl
  intro b a ha hb
  exact le_trans (relax_measure env startState parentSol bound current U b a (hU a ha)) hb

/-- The loop of `plan` returns once `fuel` exceeds the measure, provided an
invariant `P` of `(open_heap, open_list)` is kept by every round and sends every
neighbour of a popped node into the finite set `U`.  The result comes from a
state that satisfies `P`: failure from an empty heap, success from the top of a
heap. -/
theorem planLoop_terminates (tie : Nat → List Node → Nat) (env : Environment)
    (startState : State) (constraints : List Constraint) (parentSol : List (List State))
    (bound : Int) (U : Finset State) (P : List Node → List State → Prop)
    (hstep : ∀ (k i : Nat) (current : Node) (open_heap : List Node) (open_list : List State),
      P open_heap open_list → heapTop tie k open_heap = some (i, current) →
      env.isStateGoal current.state = false →
      (∀ st ∈ env.expandState current.state [] constraints, st ∈ U) ∧
      P ((env.expandState current.state [] constraints).foldl
            (relax env startState parentSol bound current)
            (open_heap.eraseIdx i, open_list)).1
        ((env.expandState current.state [] constraints).foldl
            (relax env startState parentSol bound current)
            (open_heap.eraseIdx i, open_list)).2) :
    ∀ (fuel k : Nat) (open_heap : List Node) (open_list neighbors : List State),
      P open_heap open_list → searchMeasure U open_heap open_list < fuel →
      ∃ r, planLoop tie env startState constraints parentSol bound fuel k
          open_heap open_list neighbors = some r ∧
        ((r = (false, []) ∧ ∃ open_list', P [] open_list') ∨
         (∃ (k' i : Nat) (current : Node) (open_heap' : List Node) (open_list' : List State),
            P open_heap' open_list' ∧ heapTop tie k' open_heap' = some (i, current) ∧
            env.isStateGoal current.state = true ∧ r = (true, walkUp current []))) := by
  intro fuel
  induction fuel with
  | zero => intro k heap ol nb _ h; omega
  | succ fuel ih =>
    intro k heap ol nb hP hμ
    rw [planLoop]
    cases htop : heapTop tie k heap with
    | none =>
      have hnil := heapTop_eq_none tie k heap htop
      subst hnil
      exact ⟨(false, []), rfl, Or.inl ⟨rfl, ol, hP⟩⟩
    | some top =>
      obtain ⟨i, current⟩ := top
      simp only
      by_cases hgoal : env.isStateGoal current.state = true
      · rw [if_pos hgoal]
        exact ⟨_, rfl, Or.inr ⟨k, i, current, heap, ol, hP, htop, hgoal, rfl⟩⟩
      · rw [if_neg hgoal, expandState_clears]
        have hgoal' : env.isStateGoal current.state = false := by
          simpa using hgoal
        obtain ⟨hU, hP'⟩ := hstep k i current heap ol hP htop hgoal'
        refine ih _ _ _ _ hP' ?_
        have h1 := relax_fold_measure env startState parentSol bound current U
          (env.expandState current.state [] constraints) hU (heap.eraseIdx i, ol)
        have h2 := length_eraseIdx_top heap i current
          (heapTop_eq_some tie k heap i current htop).1
        unfold searchMeasure at h1 hμ ⊢
        simp only at h1
        omega

/-! ## A search that never returns -/

theorem corridor_expand (t x : Int) (hx : x = 0 ∨ x = 1) (neighbors : List State) :
    (Environment.new 3 0 [⟨2, 0⟩] [⟨3, 0⟩]).expandState ⟨t, x, 0⟩ neighbors []
      = [⟨t + 1, 1 - x, 0⟩] := by
  rw [expandState_eq]
  rcases hx with h | h <;> subst h <;>
    simp [List.filter, Environment.isStateValid, Environment.new, obstacleLoop, constraintLoop]

theorem corridor_not_goal (t x : Int) (hx : x = 0 ∨ x = 1) :
    (Environment.new 3 0 [⟨2, 0⟩] [⟨3, 0⟩]).isStateGoal ⟨t, x, 0⟩ = false := by
  rcases hx with h | h <;> subst h <;>
    simp [Environment.isStateGoal, Environment.currentGoal, Environment.new]

theorem corridor_loop (tie : Nat → List Node → Nat) (startState : State) (bound : Int) :
    ∀ (fuel k : Nat) (n : Node) (open_list neighbors : List State),
      n.state.y = 0 → (n.state.x = 0 ∨ n.state.x = 1) →
      (∀ s ∈ open_list, s.time ≤ n.state.time) →
      planLoop tie (Environment.new 3 0 [⟨2, 0⟩] [⟨3, 0⟩]) startState [] [] bound fuel k
        [n] open_list neighbors = none := by
  intro fuel
  induction fuel with
  | zero => intro k n ol nb _ _ _; rfl
  | succ fuel ih =>
    intro k n ol nb hy hx hol
    obtain ⟨s, h, g, p⟩ := n
    obtain ⟨t, x, y⟩ := s
    simp only [Node.state] at hy hx hol
    subst hy
    rw [planLoop, heapTop_singleton]
    simp only [Node.state, corridor_not_goal t x hx, Bool.false_eq_true, if_false,
      corridor_expand t x hx, List.eraseIdx_cons_zero, List.foldl_cons, List.foldl_nil]
    rw [relax_unguided]
    have hnew : (⟨t + 1, 1 - x, 0⟩ : State) ∉ ol := by
      intro hmem
      have := hol _ hmem
      simp only at this
      omega
    simp only [hnew, if_false, List.nil_append]
    refine ih _ _ _ _ rfl ?_ ?_
    · simp only [Node.state]; omega
    · intro s hs
      simp only [Node.state]
      rcases List.mem_cons.mp hs with h1 | h1
      · rw [h1]
      · have := hol s h1
        omega

theorem corridor_chain (constraints : List Constraint) (chain : List State) :
    ∀ s : State, s.y = 0 → (s.x = 0 ∨ s.x = 1) →
      List.Chain (fun a b => b ∈ (Environment.new 3 0 [⟨2, 0⟩] [⟨3, 0⟩]).expandState a []
        constraints) s chain →
      ∀ q ∈ s :: chain, (Environment.new 3 0 [⟨2, 0⟩] [⟨3, 0⟩]).isStateGoal q = false := by
  induction chain with
  | nil =>
    intro s hy hx _ q hq
    simp only [List.mem_singleton] at hq
    subst hq
    obtain ⟨t, x, y⟩ := q
    simp only at hy hx
    subst hy
    exact corridor_not_goal t x hx
  | cons b rest ih =>
    intro s hy hx hch q hq
    rw [List.chain_cons] at hch
    rcases List.mem_cons.mp hq with h | h
    · subst h
      obtain ⟨t, x, y⟩ := q
      simp only at hy hx
      subst hy
      exact corridor_not_goal t x hx
    · have hb := hch.1
      rw [mem_expandState] at hb
      have hv := (isStateValid_true_iff _ s b constraints).mp hb.2
      simp only [Environment.new] at hv
      have hobs := hv.2.1 ⟨2, 0⟩ (by simp)
      simp only at hobs
      have hby : b.y = 0 := by omega
      have hbx : b.x = 0 ∨ b.x = 1 := by
        rcases hb.1 with e | e | e | e <;> rw [e] at hobs hv ⊢ <;> simp only at hobs hv ⊢ <;>
          omega
      exact ih b hby hbx hch.2 q h

/-- C5, the claim fails when the agent can keep moving: on the 4x1 corridor
`x = 0..3, y = 0` with an obstacle on (2,0), goal (3,0) and start (0,0,0), no
chain of `expandState` steps under any constraint list reaches a goal state,
yet `plan` without constraints never returns, whatever the order of the heap
and however many rounds it is given. -/
theorem plan_corridor_never_returns :
    (∀ (constraints : List Constraint) (chain : List State),
      List.Chain (fun a b => b ∈ (Environment.new 3 0 [⟨2, 0⟩] [⟨3, 0⟩]).expandState a []
        constraints) ⟨0, 0, 0⟩ chain →
      ∀ q ∈ (⟨0, 0, 0⟩ : State) :: chain,
        (Environment.new 3 0 [⟨2, 0⟩] [⟨3, 0⟩]).isStateGoal q = false) ∧
    ¬ ∃ (tie : Nat → List Node → Nat) (fuel : Nat) (r : Bool × List State),
      plan tie (Environment.new 3 0 [⟨2, 0⟩] [⟨3, 0⟩]) fuel ⟨0, 0, 0⟩ [] [] [] 0 = some r := by
  refine ⟨fun constraints chain hch =>
    corridor_chain constraints chain ⟨0, 0, 0⟩ rfl (Or.inl rfl) hch, ?_⟩
  rintro ⟨tie, fuel, r, h⟩
  have hloop := corridor_loop tie ⟨0, 0, 0⟩ 0 fuel 0
    (Node.mk ⟨0, 0, 0⟩ ((Environment.new 3 0 [⟨2, 0⟩] [⟨3, 0⟩]).heuristicFunc ⟨0, 0, 0⟩) 0 none)
    [⟨0, 0, 0⟩] [] rfl (Or.inl rfl) (by simp [Node.state])
  unfold plan at h
  rw [hloop] at h
  exact Option.noConfusion h

/-- C5 as amended: for every grid, start state and constraint set (no reference
solutions) such that the start lies in a finite set of states that is closed
under `expandState` and holds no goal state (only finitely many states can be
reached by valid moves, none of them at the goal), `plan` runs to completion
and returns failure with an empty solution: some number of rounds `N` is enough
for every order of the heap. -/
theorem plan_fails_on_finite_reach (tie : Nat → List Node → Nat) (env : Environment)
    (startState : State) (solution : List State) (constraints : List Constraint)
    (bound : Int) (reach : Finset State)
    (hstart : startState ∈ reach)
    (hclosed : ∀ s ∈ reach, ∀ n ∈ env.expandState s [] constraints, n ∈ reach)
    (hnogoal : ∀ s ∈ reach, env.isStateGoal s = false) :
    ∃ N : Nat, ∀ fuel : Nat, N ≤ fuel →
      plan tie env fuel startState solution constraints [] bound = some (false, []) := by
  refine ⟨searchMeasure reach
    [Node.mk startState (env.heuristicFunc startState) 0 none] [startState] + 1, ?_⟩
  intro fuel hfuel
  unfold plan
  obtain ⟨r, hr, hcase⟩ := planLoop_terminates tie env startState constraints [] bound reach
    (fun open_heap _ => ∀ n ∈ open_heap, n.state ∈ reach)
    (by
      intro k i current heap ol hP htop _
      have hcur := hP current (heapTop_mem tie k heap i current htop)
      refine ⟨hclosed current.state hcur, ?_⟩
      intro n hn
      rcases relax_fold_mem env startState [] bound current _ _ n hn with
        hn | ⟨st, hst, h', _, hn⟩
      · exact hP n (List.mem_of_mem_eraseIdx hn)
      · rw [hn]
        exact hclosed current.state hcur st hst)
    fuel 0 [Node.mk startState (env.heuristicFunc startState) 0 none] [startState] []
    (by
      intro n hn
      simp only [List.mem_singleton] at hn
      subst hn
      exact hstart)
    (by omega)
  simp only
  rw [hr]
  rcases hcase with ⟨hfail, _⟩ | ⟨k', i, current, heap', ol', hP, htop, hgoal, _⟩
  · rw [hfail]
  · have hcur := hP current (heapTop_mem tie k' heap' i current htop)
    rw [hnogoal current.state hcur] at hgoal
    exact absurd hgoal (by simp)

/-- Witness of amended C5: the corridor `x = 0..2, y = 0` with an obstacle on
(1,0), goal (2,0) and start (0,0,0); the start has no valid move, so the set
holding the start alone is closed. -/
theorem plan_fails_on_finite_reach_witness :
    ∃ N : Nat, ∀ fuel : Nat, N ≤ fuel →
      plan (fun _ _ => 0) (Environment.new 2 0 [⟨1, 0⟩] [⟨2, 0⟩]) fuel ⟨0, 0, 0⟩ [] [] [] 0
        = some (false, []) :=
  plan_fails_on_finite_reach (fun _ _ => 0) (Environment.new 2 0 [⟨1, 0⟩] [⟨2, 0⟩])
    ⟨0, 0, 0⟩ [] [] 0 {⟨0, 0, 0⟩} (by simp)
    (by
      intro s hs n hn
      rw [Finset.mem_singleton] at hs
      subst hs
      have : (Environment.new 2 0 [⟨1, 0⟩] [⟨2, 0⟩]).expandState ⟨0, 0, 0⟩ [] [] = [] := by
        decide
      rw [this] at hn
      simp at hn)
    (by
      intro s hs
      rw [Finset.mem_singleton] at hs
      subst hs
      decide)

/-! ## The search on an empty grid -/

theorem relax_fold_grows (env : Environment) (startState : State)
    (parentSol : List (List State)) (bound : Int) (current : Node) (neighbors : List State)
    (acc : List Node × List State) :
    (∀ n ∈ acc.1, n ∈ (neighbors.foldl (relax env startState parentSol bound current) acc).1) ∧
    (∀ s ∈ acc.2, s ∈ (neighbors.foldl (relax env startState parentSol bound current) acc).2) ∧
    (∀ s ∈ (neighbors.foldl (relax env startState parentSol bound current) acc).2,
      s ∈ acc.2 ∨
      ∃ n ∈ (neighbors.foldl (relax env startState parentSol bound current) acc).1,
        n.state = s) := by
  refine foldl_invariant (relax env startState parentSol bound current)
    (fun b => (∀ n ∈ acc.1, n ∈ b.1) ∧ (∀ s ∈ acc.2, s ∈ b.2) ∧
      (∀ s ∈ b.2, s ∈ acc.2 ∨ ∃ n ∈ b.1, n.state = s)) neighbors acc ?_
    ⟨fun _ h => h, fun _ h => h, fun _ h => Or.inl h⟩
  rintro b st _ ⟨h1, h2, h3⟩
  rcases relax_cases env startState parentSol bound current b st with hr | ⟨h, _, _, hr⟩
  · rw [hr]; exact ⟨h1, h2, h3⟩
  · rw [hr]
    refine ⟨fun n hn => List.mem_append_left _ (h1 n hn),
      fun s hs => List.mem_cons_of_mem _ (h2 s hs), ?_⟩
    intro s hs
    rcases List.mem_cons.mp hs with hs | hs
    · right
      exact ⟨_, List.mem_append_right _ (List.mem_singleton_self _), by rw [hs]; rfl⟩
    · rcases h3 s hs with h4 | ⟨n, hn, hns⟩
      · exact Or.inl h4
      · exact Or.inr ⟨n, List.mem_append_left _ hn, hns⟩

theorem relax_fold_unguided_all (env : Environment) (startState : State) (bound : Int)
    (current : Node) (neighbors : List State) :
    ∀ (acc : List Node × List State), ∀ st ∈ neighbors,
      st ∈ (neighbors.foldl (relax env startState [] bound current) acc).2 := by
  induction neighbors with
  | nil => intro acc st hst; simp at hst
  | cons a rest ih =>
    intro acc st hst
    rw [List.foldl_cons]
    rcases List.mem_cons.mp hst with h | h
    · subst h
      refine (relax_fold_grows env startState [] bound current rest _).2.1 st ?_
      rw [relax_unguided]
      by_cases hmem : st ∈ acc.2
      · rw [if_pos hmem]; exact hmem
      · rw [if_neg hmem]; exact List.mem_cons_self _ _
    · exact ih _ st h

theorem heuristicFunc_nonneg (env : Environment) (s : State) : 0 ≤ env.heuristicFunc s := by
  unfold Environment.heuristicFunc
  positivity

theorem heuristicFunc_pos_of_not_goal (env : Environment) (s : State)
    (h : env.isStateGoal s = false) : 0 < env.heuristicFunc s := by
  unfold Environment.isStateGoal at h
  unfold Environment.heuristicFunc
  by_cases hx : s.x = env.currentGoal.x
  · have hy : s.y ≠ env.currentGoal.y := by
      intro hy
      simp [hx, hy] at h
    have : 0 < |s.y - env.currentGoal.y| := abs_pos.mpr (sub_ne_zero.mpr hy)
    have := abs_nonneg (s.x - env.currentGoal.x)
    omega
  · have : 0 < |s.x - env.currentGoal.x| := abs_pos.mpr (sub_ne_zero.mpr hx)
    have := abs_nonneg (s.y - env.currentGoal.y)
    omega

theorem exists_closer_neighbor (env : Environment) (hobs : env.m_obstacles = [])
    (s : State)
    (hs : 0 ≤ s.x ∧ s.x ≤ env.m_dimx ∧ 0 ≤ s.y ∧ s.y ≤ env.m_dimy)
    (hg : 0 ≤ env.currentGoal.x ∧ env.currentGoal.x ≤ env.m_dimx ∧
      0 ≤ env.currentGoal.y ∧ env.currentGoal.y ≤ env.m_dimy)
    (hpos : 0 < env.heuristicFunc s) :
    ∃ st ∈ env.expandState s [] [], env.heuristicFunc st + 1 = env.heuristicFunc s := by
  have hvalid : ∀ n : State,
      (0 ≤ n.x ∧ n.x ≤ env.m_dimx ∧ 0 ≤ n.y ∧ n.y ≤ env.m_dimy) →
      env.isStateValid s n [] = true := by
    intro n hn
    rw [isStateValid_true_iff, hobs]
    exact ⟨hn, by simp, by simp, by simp⟩
  unfold Environment.heuristicFunc at hpos ⊢
  by_cases h1 : s.x < env.currentGoal.x
  · refine ⟨⟨s.time + 1, s.x + 1, s.y⟩, ?_, ?_⟩
    · rw [mem_expandState]
      exact ⟨by simp, hvalid _ ⟨by simp only; omega, by simp only; omega, hs.2.2.1, hs.2.2.2⟩⟩
    · simp only
      cases abs_cases (s.x - env.currentGoal.x) <;>
        cases abs_cases (s.x + 1 - env.currentGoal.x) <;> omega
  · by_cases h2 : env.currentGoal.x < s.x
    · refine ⟨⟨s.time + 1, s.x - 1, s.y⟩, ?_, ?_⟩
      · rw [mem_expandState]
        exact ⟨by simp, hvalid _ ⟨by simp only; omega, by simp only; omega, hs.2.2.1, hs.2.2.2⟩⟩
      · simp only
        cases abs_cases (s.x - env.currentGoal.x) <;>
          cases abs_cases (s.x - 1 - env.currentGoal.x) <;> omega
    · have hx : s.x = env.currentGoal.x := by omega
      by_cases h3 : s.y < env.currentGoal.y
      · refine ⟨⟨s.time + 1, s.x, s.y + 1⟩, ?_, ?_⟩
        · rw [mem_expandState]
          exact ⟨by simp, hvalid _ ⟨hs.1, hs.2.1, by simp only; omega, by simp only; omega⟩⟩
        · simp only
          cases abs_cases (s.y - env.currentGoal.y) <;>
            cases abs_cases (s.y + 1 - env.currentGoal.y) <;> omega
      · refine ⟨⟨s.time + 1, s.x, s.y - 1⟩, ?_, ?_⟩
        · rw [mem_expandState]
          have : env.currentGoal.y < s.y := by
            cases abs_cases (s.x - env.currentGoal.x) <;>
              cases abs_cases (s.y - env.currentGoal.y) <;> omega
          exact ⟨by simp, hvalid _ ⟨hs.1, hs.2.1, by simp only; omega, by simp only; omega⟩⟩
        · simp only
          cases abs_cases (s.x - env.currentGoal.x) <;>
            cases abs_cases (s.y - env.currentGoal.y) <;>
            cases abs_cases (s.y - 1 - env.currentGoal.y) <;> omega

theorem gScore_mk (s : State) (h g : Int) (p : Option Node) :
    (Node.mk s h g p).gScore = g := rfl

theorem state_mk (s : State) (h g : Int) (p : Option Node) :
    (Node.mk s h g p).state = s := rfl

theorem gridNode_child (env : Environment) (startState : State) (current : Node)
    (st : State) (hcur : GridNode env startState current)
    (hst : st ∈ env.expandState current.state [] []) :
    GridNode env startState
      (Node.mk st (env.heuristicFunc startState) (current.gScore + 1) (some current)) := by
  obtain ⟨_, h2, h3, h4, _, h6⟩ := hcur
  have hstep := heuristicFunc_step env [] [] current.state st hst
  rw [mem_expandState] at hst
  have hv := (isStateValid_true_iff env current.state st []).mp hst.2
  have htime : st.time = current.state.time + 1 := by
    rcases hst.1 with e | e | e | e <;> rw [e]
  refine ⟨rfl, ?_, ?_, ?_, hv.1, ?_⟩
  · rw [gScore_mk]; omega
  · rw [gScore_mk, state_mk]; omega
  · rw [walkUp_child]
    rw [gScore_mk]
    simp only [List.length_append, List.length_singleton, Nat.cast_add, Nat.cast_one]
    omega
  · rw [gScore_mk, state_mk]; omega

theorem gridInv_step (tie : Nat → List Node → Nat) (env : Environment) (startState : State)
    (bound : Int) (hobs : env.m_obstacles = [])
    (hg : 0 ≤ env.currentGoal.x ∧ env.currentGoal.x ≤ env.m_dimx ∧
      0 ≤ env.currentGoal.y ∧ env.currentGoal.y ≤ env.m_dimy)
    (k i : Nat) (current : Node) (open_heap : List Node) (open_list : List State)
    (hP : GridInv env startState open_heap open_list)
    (htop : heapTop tie k open_heap = some (i, current))
    (hgoal : env.isStateGoal current.state = false) :
    (∀ st ∈ env.expandState current.state [] [],
      (startState.time ≤ st.time ∧
        st.time ≤ startState.time + env.heuristicFunc startState + 1) ∧
      (0 ≤ st.x ∧ st.x ≤ env.m_dimx ∧ 0 ≤ st.y ∧ st.y ≤ env.m_dimy)) ∧
    GridInv env startState
      ((env.expandState current.state [] []).foldl
        (relax env startState [] bound current) (open_heap.eraseIdx i, open_list)).1
      ((env.expandState current.state [] []).foldl
        (relax env startState [] bound current) (open_heap.eraseIdx i, open_list)).2 := by
  obtain ⟨hA, ⟨d, hd, hB⟩, ⟨w, hw, hwM⟩⟩ := hP
  obtain ⟨hi, hmin⟩ := heapTop_eq_some tie k open_heap i current htop
  have hcurmem := heapTop_mem tie k open_heap i current htop
  have hcurA := hA current hcurmem
  have hming : ∀ m ∈ open_heap, current.gScore ≤ m.gScore := by
    intro m hm
    have h1 := hmin m hm
    unfold Node.fScore at h1
    rw [(hA m hm).1, hcurA.1] at h1
    omega
  have hcurM : current.gScore ≤ env.heuristicFunc startState := by
    have h1 := hming w hw
    have h2 := heuristicFunc_nonneg env w.state
    omega
  have hgrow := relax_fold_grows env startState [] bound current
    (env.expandState current.state [] []) (open_heap.eraseIdx i, open_list)
  have hnew := relax_fold_mem env startState [] bound current
    (env.expandState current.state [] []) (open_heap.eraseIdx i, open_list)
  have hall := relax_fold_unguided_all env startState bound current
    (env.expandState current.state [] []) (open_heap.eraseIdx i, open_list)
  have hnextA : ∀ n ∈ ((env.expandState current.state [] []).foldl
      (relax env startState [] bound current) (open_heap.eraseIdx i, open_list)).1,
      GridNode env startState n := by
    intro n hn
    rcases hnew n hn with h | ⟨st, hst, h, hh, hn'⟩
    · exact hA n (List.mem_of_mem_eraseIdx h)
    · rw [hn', hh rfl]
      exact gridNode_child env startState current st hcurA hst
  have hnextB : ∀ s ∈ ((env.expandState current.state [] []).foldl
      (relax env startState [] bound current) (open_heap.eraseIdx i, open_list)).2,
      current.gScore < s.time - startState.time →
      ∃ n ∈ ((env.expandState current.state [] []).foldl
        (relax env startState [] bound current) (open_heap.eraseIdx i, open_list)).1,
        n.state = s := by
    intro s hs hdepth
    rcases hgrow.2.2 s hs with h | h
    · have hdcur := hd current hcurmem
      obtain ⟨n, hn, hns⟩ := hB s h (by omega)
      refine ⟨n, hgrow.1 n (mem_eraseIdx_of_ne open_heap i current n hi hn ?_), hns⟩
      intro heq
      have h3 := hcurA.2.2.1
      rw [← heq, hns] at h3
      omega
    · exact h
  refine ⟨?_, hnextA, ⟨current.gScore, ?_, hnextB⟩, ?_⟩
  · intro st hst
    have hst' := hst
    rw [mem_expandState] at hst'
    have hv := (isStateValid_true_iff env current.state st []).mp hst'.2
    have htime : st.time = current.state.time + 1 := by
      rcases hst'.1 with e | e | e | e <;> rw [e]
    have h2 := hcurA.2.1
    have h3 := hcurA.2.2.1
    exact ⟨⟨by omega, by omega⟩, hv.1⟩
  · intro n hn
    rcases hnew n hn with h | ⟨st, _, h, _, hn'⟩
    · exact hming n (List.mem_of_mem_eraseIdx h)
    · rw [hn']
      rw [gScore_mk]
      omega
  · by_cases hwc : w.state = current.state
    · have hwA := hA w hw
      have hgw : w.gScore = current.gScore := by
        have h3 := hcurA.2.2.1
        have h3' := hwA.2.2.1
        rw [hwc] at h3'
        omega
      rw [hwc, hgw] at hwM
      obtain ⟨st, hst, hcloser⟩ := exists_closer_neighbor env hobs current.state
        hcurA.2.2.2.2.1 hg (heuristicFunc_pos_of_not_goal env current.state hgoal)
      have hst' := hst
      rw [mem_expandState] at hst'
      have htime : st.time = current.state.time + 1 := by
        rcases hst'.1 with e | e | e | e <;> rw [e]
      have h3 := hcurA.2.2.1
      obtain ⟨n, hn, hns⟩ := hnextB st (hall st hst) (by omega)
      refine ⟨n, hn, ?_⟩
      have hnA := hnextA n hn
      have h3n := hnA.2.2.1
      rw [hns] at h3n ⊢
      omega
    · exact ⟨w, hgrow.1 w (mem_eraseIdx_of_ne open_heap i current w hi hw hwc), hwM⟩

/-- C1: on every grid without obstacles, for every start state `S` and goal
cell `G` of the selected agent both inside `[0, dimx] x [0, dimy]`, with an
empty constraint list and no reference solutions, `plan` returns success (some
number of rounds `N` is enough, for every order of the heap) with a path of
exactly `|S.x - G.x| + |S.y - G.y| + 1` states. -/
theorem plan_empty_grid (tie : Nat → List Node → Nat) (env : Environment)
    (S : State) (G : Location) (solution : List State) (bound : Int)
    (hobs : env.m_obstacles = [])
    (hgoal : env.m_goals[env.m_agentIdx]? = some G)
    (hS : 0 ≤ S.x ∧ S.x ≤ env.m_dimx ∧ 0 ≤ S.y ∧ S.y ≤ env.m_dimy)
    (hG : 0 ≤ G.x ∧ G.x ≤ env.m_dimx ∧ 0 ≤ G.y ∧ G.y ≤ env.m_dimy) :
    ∃ N : Nat, ∀ fuel : Nat, N ≤ fuel →
      ∃ path : List State,
        plan tie env fuel S solution [] [] bound = some (true, path) ∧
        (path.length : Int) = |S.x - G.x| + |S.y - G.y| + 1 := by
  have hcg : env.currentGoal = G := currentGoal_eq env G hgoal
  have hG' : 0 ≤ env.currentGoal.x ∧ env.currentGoal.x ≤ env.m_dimx ∧
      0 ≤ env.currentGoal.y ∧ env.currentGoal.y ≤ env.m_dimy := by
    rw [hcg]; exact hG
  have hM : env.heuristicFunc S = |S.x - G.x| + |S.y - G.y| := by
    unfold Environment.heuristicFunc
    rw [hcg]
  let U : Finset State :=
    ((Finset.Icc S.time (S.time + env.heuristicFunc S + 1)) ×ˢ
      ((Finset.Icc (0 : Int) env.m_dimx) ×ˢ (Finset.Icc (0 : Int) env.m_dimy))).image
      (fun p => (⟨p.1, p.2.1, p.2.2⟩ : State))
  have hU : ∀ st : State,
      (S.time ≤ st.time ∧ st.time ≤ S.time + env.heuristicFunc S + 1) ∧
      (0 ≤ st.x ∧ st.x ≤ env.m_dimx ∧ 0 ≤ st.y ∧ st.y ≤ env.m_dimy) → st ∈ U := by
    intro st hst
    simp only [U, Finset.mem_image, Finset.mem_product, Finset.mem_Icc, Prod.exists]
    exact ⟨st.time, st.x, st.y, ⟨hst.1, ⟨hst.2.1, hst.2.2.1⟩, hst.2.2.2.1, hst.2.2.2.2⟩, rfl⟩
  refine ⟨searchMeasure U [Node.mk S (env.heuristicFunc S) 0 none] [S] + 1, ?_⟩
  intro fuel hfuel
  unfold plan
  obtain ⟨r, hr, hcase⟩ := planLoop_terminates tie env S [] [] bound U (GridInv env S)
    (by
      intro k i current heap ol hP htop hng
      obtain ⟨h1, h2⟩ := gridInv_step tie env S bound hobs hG' k i current heap ol hP htop hng
      exact ⟨fun st hst => hU st (h1 st hst), h2⟩)
    fuel 0 [Node.mk S (env.heuristicFunc S) 0 none] [S] []
    (by
      refine ⟨?_, ⟨0, ?_, ?_⟩, ⟨_, List.mem_singleton_self _, ?_⟩⟩
      · intro n hn
        simp only [List.mem_singleton] at hn
        subst hn
        refine ⟨rfl, le_refl _, ?_, ?_, hS, ?_⟩
        · simp [Node.gScore, Node.state]
        · simp [walkUp, Node.gScore]
        · simp [Node.gScore, Node.state]
      · intro n hn
        simp only [List.mem_singleton] at hn
        subst hn
        exact le_refl _
      · intro s hs hd
        simp only [List.mem_singleton] at hs
        subst hs
        simp at hd
      · simp [Node.gScore, Node.state])
    (by omega)
  simp only
  rw [hr]
  rcases hcase with ⟨_, ol', hP⟩ | ⟨k', i, current, heap', ol', hP, htop, hcurgoal, hrr⟩
  · obtain ⟨_, _, ⟨w, hw, _⟩⟩ := hP
    simp at hw
  · obtain ⟨hA, _, ⟨w, hw, hwM⟩⟩ := hP
    obtain ⟨_, hmin⟩ := heapTop_eq_some tie k' heap' i current htop
    have hcurA := hA current (heapTop_mem tie k' heap' i current htop)
    have hwA := hA w hw
    have h1 := hmin w hw
    unfold Node.fScore at h1
    rw [hwA.1, hcurA.1] at h1
    have h2 := heuristicFunc_nonneg env w.state
    have h3 := heuristicFunc_goal env current.state hcurgoal
    have h4 := hcurA.2.2.2.2.2
    have h5 := hcurA.2.2.2.1
    refine ⟨walkUp current [], by rw [hrr], ?_⟩
    rw [← hM]
    omega

/-- Witness of C1: the 5x5 grid with goal (2,2) and the start (0,0,0). -/
theorem plan_empty_grid_witness :
    ∃ N : Nat, ∀ fuel : Nat, N ≤ fuel →
      ∃ path : List State,
        plan (fun _ _ => 0) (Environment.new 5 5 [] [⟨2, 2⟩]) fuel ⟨0, 0, 0⟩ [] [] [] 0
          = some (true, path) ∧
        (path.length : Int) = |(0 : Int) - 2| + |(0 : Int) - 2| + 1 :=
  plan_empty_grid (fun _ _ => 0) (Environment.new 5 5 [] [⟨2, 2⟩]) ⟨0, 0, 0⟩ ⟨2, 2⟩ [] 0
    rfl rfl (by decide) (by decide)

/-! ## Disjointness depends on locations only -/

theorem is_disjoint_iff_locs (A B : List State) :
    is_disjoint A B = true ↔
      ∀ p ∈ A.map (fun s => (s.x, s.y)), ∀ q ∈ B.map (fun s => (s.x, s.y)), p ≠ q := by
  rw [is_disjoint_iff]
  simp only [List.mem_map, forall_exists_index, and_imp, forall_apply_eq_imp_iff₂, ne_eq,
    Prod.mk.injEq]

theorem is_disjoint_congr_locs (A B A' B' : List State)
    (hA : A.map (fun s => (s.x, s.y)) = A'.map (fun s => (s.x, s.y)))
    (hB : B.map (fun s => (s.x, s.y)) = B'.map (fun s => (s.x, s.y))) :
    is_disjoint A B = is_disjoint A' B' := by
  rw [Bool.eq_iff_iff, is_disjoint_iff_locs, is_disjoint_iff_locs, hA, hB]

/-- C11: `is_disjoint(A, B)` is true exactly when no state of `A` and state of
`B` have the same `x` and the same `y`; and two pairs of paths of state objects
with the same sequences of `(x, y)` get the same answer, whatever the time
fields and cost tags of the objects are. -/
theorem is_disjoint_locations (A B : List State) :
    (is_disjoint A B = true ↔ ¬ ∃ a ∈ A, ∃ b ∈ B, a.x = b.x ∧ a.y = b.y) ∧
    (∀ P Q P' Q' : List StateObj,
      P.map (fun o => (o.x, o.y)) = P'.map (fun o => (o.x, o.y)) →
      Q.map (fun o => (o.x, o.y)) = Q'.map (fun o => (o.x, o.y)) →
      is_disjoint (P.map StateObj.toState) (Q.map StateObj.toState) =
        is_disjoint (P'.map StateObj.toState) (Q'.map StateObj.toState)) := by
  constructor
  · rw [is_disjoint_iff]
    constructor
    · rintro h ⟨a, ha, b, hb, hab⟩
      exact h a ha b hb hab
    · intro h a ha b hb hab
      exact h ⟨a, ha, b, hb, hab⟩
  · intro P Q P' Q' hP hQ
    apply is_disjoint_congr_locs
    · simpa [List.map_map, Function.comp_def, StateObj.toState] using hP
    · simpa [List.map_map, Function.comp_def, StateObj.toState] using hQ

theorem SegHeuristic_eq_segmentCost (env : Environment) (n : Node)
    (otherSols : List (List State)) :
    SegHeuristic env n otherSols = segmentCost env (walkUp n []) otherSols := rfl

/-! ## Admission under guidance -/


theorem relax_guided (env : Environment) (startState : State) (parentSol : List (List State))
    (bound : Int) (current : Node) (acc : List Node × List State) (st : State)
    (hsol : parentSol ≠ []) :
    relax env startState parentSol bound current acc st =
      if st ∈ acc.2 then acc
      else if env.m_dimx * env.m_dimy *
          SegHeuristic env (.mk st 0 (current.gScore + 1) (some current)) parentSol ≤ bound then
        (acc.1 ++ [Node.mk st (env.m_dimx * env.m_dimy *
          SegHeuristic env (.mk st 0 (current.gScore + 1) (some current)) parentSol)
          (current.gScore + 1) (some current)], st :: acc.2)
      else acc := by
  have hlen : parentSol.length ≠ 0 := by
    intro h; exact hsol (List.length_eq_zero.mp h)
  unfold relax
  simp only [scoreLess, if_true, if_pos hlen]
  by_cases hmem : st ∈ acc.2
  · simp [hmem]
  · simp only [hmem, not_false_eq_true, if_true, if_false]

theorem relax_fold_mem_guided (env : Environment) (startState : State)
    (parentSol : List (List State)) (bound : Int) (current : Node) (neighbors : List State)
    (hsol : parentSol ≠ []) :
    ∀ acc : List Node × List State, ∀ n ∈
      (neighbors.foldl (relax env startState parentSol bound current) acc).1,
      n ∈ acc.1 ∨ ∃ st ∈ neighbors, ∃ h : Int,
        n = Node.mk st h (current.gScore + 1) (some current) ∧
        env.m_dimx * env.m_dimy * segmentCost env (walkUp current [] ++ [st]) parentSol
          ≤ bound := by
  induction neighbors with
  | nil => intro acc n hn; exact Or.inl hn
  | cons st rest ih =>
    intro acc n hn
    rw [List.foldl_cons] at hn
    rcases ih _ n hn with h | ⟨st', hst', h, hn', hb⟩
    · rw [relax_guided env startState parentSol bound current acc st hsol] at h
      by_cases hmem : st ∈ acc.2
      · rw [if_pos hmem] at h; exact Or.inl h
      · rw [if_neg hmem] at h
        by_cases hb : env.m_dimx * env.m_dimy *
            SegHeuristic env (.mk st 0 (current.gScore + 1) (some current)) parentSol ≤ bound
        · rw [if_pos hb] at h
          rcases List.mem_append.mp h with h | h
          · exact Or.inl h
          · right
            refine ⟨st, List.mem_cons_self _ _, _, by simpa using h, ?_⟩
            rw [SegHeuristic_eq_segmentCost, walkUp_child] at hb
            exact hb
        · rw [if_neg hb] at h; exact Or.inl h
    · right
      exact ⟨st', List.mem_cons_of_mem _ hst', h, hn', hb⟩

theorem planLoop_success_guided (tie : Nat → List Node → Nat) (env : Environment)
    (startState : State) (constraints : List Constraint) (parentSol : List (List State))
    (bound : Int) (hsol : parentSol ≠ []) (P : Node → Prop)
    (hchild : ∀ (current : Node) (st : State) (h : Int), P current →
      env.m_dimx * env.m_dimy * segmentCost env (walkUp current [] ++ [st]) parentSol ≤ bound →
      P (Node.mk st h (current.gScore + 1) (some current))) :
    ∀ (fuel k : Nat) (open_heap : List Node) (open_list neighbors path : List State),
      (∀ n ∈ open_heap, P n) →
      planLoop tie env startState constraints parentSol bound fuel k
        open_heap open_list neighbors = some (true, path) →
      ∃ current, P current ∧ path = walkUp current [] := by
  intro fuel
  induction fuel with
  | zero => intro k heap ol nb path _ h; simp [planLoop] at h
  | succ fuel ih =>
    intro k heap ol nb path hP h
    rw [planLoop] at h
    cases htop : heapTop tie k heap with
    | none => rw [htop] at h; simp at h
    | some top =>
      obtain ⟨i, current⟩ := top
      rw [htop] at h
      simp only at h
      have hcur : P current := hP current (heapTop_mem tie k heap i current htop)
      by_cases hgoal : env.isStateGoal current.state = true
      · rw [if_pos hgoal] at h
        refine ⟨current, hcur, ?_⟩
        simp only [Option.some.injEq, Prod.mk.injEq, true_and] at h
        exact h.symm
      · rw [if_neg hgoal] at h
        refine ih _ _ _ _ path ?_ h
        intro n hn
        rcases relax_fold_mem_guided env startState parentSol bound current _ hsol _ n hn with
          hn | ⟨st, _, h', hn, hb⟩
        · exact hP n (List.mem_of_mem_eraseIdx hn)
        · rw [hn]
          exact hchild current st h' hcur hb

/-- C15: with a non-empty reference solution set a successor is pushed only if
its `h = dimx * dimy * segmentCost(candidate, references)` is at most the bound,
so whenever `plan` succeeds with guidance every prefix of the returned path that
ends at a state other than the start has `dimx * dimy * segmentCost <= bound`;
with an empty reference solution set every successor whose state is not in
`open_list` is pushed. -/
theorem plan_guided_admission (tie : Nat → List Node → Nat) (env : Environment)
    (startState : State) (constraints : List Constraint) (parentSol : List (List State))
    (bound : Int) :
    (parentSol ≠ [] → ∀ (current : Node) (acc : List Node × List State) (st : State),
      relax env startState parentSol bound current acc st ≠ acc →
      env.m_dimx * env.m_dimy * segmentCost env (walkUp current [] ++ [st]) parentSol
        ≤ bound) ∧
    (parentSol ≠ [] → ∀ (fuel : Nat) (solution path : List State),
      plan tie env fuel startState solution constraints parentSol bound = some (true, path) →
      ∀ pre : List State, pre <+: path → 2 ≤ pre.length →
        env.m_dimx * env.m_dimy * segmentCost env pre parentSol ≤ bound) ∧
    (∀ (current : Node) (acc : List Node × List State) (st : State), st ∉ acc.2 →
      relax env startState [] bound current acc st =
        (acc.1 ++ [Node.mk st (env.heuristicFunc startState) (current.gScore + 1)
          (some current)], st :: acc.2)) := by
  refine ⟨?_, ?_, ?_⟩
  · intro hsol current acc st hne
    rw [relax_guided env startState parentSol bound current acc st hsol] at hne
    by_cases hmem : st ∈ acc.2
    · rw [if_pos hmem] at hne; exact absurd rfl hne
    · rw [if_neg hmem] at hne
      by_cases hb : env.m_dimx * env.m_dimy *
          SegHeuristic env (.mk st 0 (current.gScore + 1) (some current)) parentSol ≤ bound
      · rw [SegHeuristic_eq_segmentCost, walkUp_child] at hb
        exact hb
      · rw [if_neg hb] at hne; exact absurd rfl hne
  · intro hsol fuel solution path h
    unfold plan at h
    obtain ⟨current, hP, hpath⟩ := planLoop_success_guided tie env startState constraints
      parentSol bound hsol
      (fun n => ∀ pre : List State, pre <+: walkUp n [] → 2 ≤ pre.length →
        env.m_dimx * env.m_dimy * segmentCost env pre parentSol ≤ bound)
      (by
        intro current st h' hcur hb pre hpre hlen
        rw [walkUp_child, List.prefix_concat_iff] at hpre
        rcases hpre with hpre | hpre
        · rw [hpre]; exact hb
        · exact hcur pre hpre hlen)
      fuel 0 _ _ _ path
      (by
        intro n hn pre hpre hlen
        simp only [List.mem_singleton] at hn
        subst hn
        have := hpre.length_le
        simp [walkUp] at this
        omega)
      h
    intro pre hpre hlen
    rw [hpath] at hpre
    exact hP pre hpre hlen
  · intro current acc st hmem
    rw [relax_unguided, if_neg hmem]

/-- Witness of C15: two agents on the 5x5 grid, the first planned from (0,0,0)
to (1,0) with the second resting on (1,1) and bound 100. -/
theorem plan_guided_admission_witness :
    plan (fun _ _ => 0) (Environment.new 5 5 [] [⟨1, 0⟩, ⟨1, 1⟩]) 20 ⟨0, 0, 0⟩ [] []
        [[], [⟨0, 1, 1⟩]] 100 = some (true, [⟨0, 0, 0⟩, ⟨1, 1, 0⟩]) ∧
      (Environment.new 5 5 [] [⟨1, 0⟩, ⟨1, 1⟩]).m_dimx *
        (Environment.new 5 5 [] [⟨1, 0⟩, ⟨1, 1⟩]).m_dimy *
        segmentCost (Environment.new 5 5 [] [⟨1, 0⟩, ⟨1, 1⟩]) [⟨0, 0, 0⟩, ⟨1, 1, 0⟩]
          [[], [⟨0, 1, 1⟩]] ≤ 100 :=
  ⟨by decide,
    (plan_guided_admission (fun _ _ => 0) (Environment.new 5 5 [] [⟨1, 0⟩, ⟨1, 1⟩]) ⟨0, 0, 0⟩ []
      [[], [⟨0, 1, 1⟩]] 100).2.1 (by simp) 20 [] _ (by decide) _ (List.prefix_refl _)
      (by simp)⟩

/-! ## The open list as the log of the pushes -/

theorem planLoop_succ (tie : Nat → List Node → Nat) (env : Environment) (startState : State)
    (constraints : List Constraint) (parentSol : List (List State)) (bound : Int)
    (fuel k : Nat) (open_heap : List Node) (open_list neighbors : List State) :
    planLoop tie env startState constraints parentSol bound (fuel + 1) k
        open_heap open_list neighbors =
      match planRound tie env startState constraints parentSol bound k
          open_heap open_list neighbors with
      | .inl r => some r
      | .inr next => planLoop tie env startState constraints parentSol bound fuel (k + 1)
          next.1 next.2.1 next.2.2 := by
  rw [planLoop, planRound]
  cases heapTop tie k open_heap with
  | none => rfl
  | some top =>
    obtain ⟨i, current⟩ := top
    simp only
    by_cases hgoal : env.isStateGoal current.state = true
    · rw [if_pos hgoal, if_pos hgoal]
    · rw [if_neg hgoal, if_neg hgoal]

theorem plan_eq_planLoop_of_planState (tie : Nat → List Node → Nat) (env : Environment)
    (startState : State) (solution : List State) (constraints : List Constraint)
    (parentSol : List (List State)) (bound : Int) (fuel : Nat) :
    ∀ (j : Nat) (open_heap : List Node) (open_list neighbors : List State),
      planState tie env startState constraints parentSol bound j
        = some (open_heap, open_list, neighbors) →
      plan tie env (j + fuel) startState solution constraints parentSol bound =
        planLoop tie env startState constraints parentSol bound fuel j
          open_heap open_list neighbors := by
  intro j
  induction j generalizing fuel with
  | zero =>
    intro heap ol nb h
    simp only [planState, Option.some.injEq, Prod.mk.injEq] at h
    obtain ⟨h1, h2, h3⟩ := h
    subst h1; subst h2; subst h3
    simp [plan]
  | succ j ih =>
    intro heap ol nb h
    rw [planState] at h
    cases hprev : planState tie env startState constraints parentSol bound j with
    | none => rw [hprev] at h; simp at h
    | some prev =>
      obtain ⟨heap0, ol0, nb0⟩ := prev
      rw [hprev] at h
      simp only at h
      cases hround : planRound tie env startState constraints parentSol bound j heap0 ol0 nb0 with
      | inl r => rw [hround] at h; simp at h
      | inr next =>
        rw [hround] at h
        simp only [Option.some.injEq] at h
        subst h
        have := ih (fuel + 1) heap0 ol0 nb0 hprev
        rw [planLoop_succ, hround] at this
        simp only at this
        rw [← this]
        congr 1
        omega

theorem relax_fold_log (env : Environment) (startState : State)
    (parentSol : List (List State)) (bound : Int) (current : Node) (neighbors : List State)
    (acc : List Node × List State) :
    ∃ pushed : List Node,
      (neighbors.foldl (relax env startState parentSol bound current) acc).1
        = acc.1 ++ pushed ∧
      (neighbors.foldl (relax env startState parentSol bound current) acc).2
        = (pushed.map Node.state).reverse ++ acc.2 ∧
      (acc.2.Nodup →
        (neighbors.foldl (relax env startState parentSol bound current) acc).2.Nodup) := by
  refine foldl_invariant (relax env startState parentSol bound current)
    (fun b => ∃ pushed : List Node, b.1 = acc.1 ++ pushed ∧
      b.2 = (pushed.map Node.state).reverse ++ acc.2 ∧ (acc.2.Nodup → b.2.Nodup))
    neighbors acc ?_ ⟨[], by simp, by simp, fun h => h⟩
  rintro b st _ ⟨pushed, h1, h2, h3⟩
  rcases relax_cases env startState parentSol bound current b st with hr | ⟨h, hmem, _, hr⟩
  · rw [hr]; exact ⟨pushed, h1, h2, h3⟩
  · rw [hr]
    refine ⟨pushed ++ [Node.mk st h (current.gScore + 1) (some current)], ?_, ?_, ?_⟩
    · simp only [h1, List.append_assoc]
    · simp only [h2, List.map_append, List.map_cons, List.map_nil, List.reverse_append,
        List.reverse_cons, List.reverse_nil, List.nil_append, List.singleton_append,
        List.cons_append, state_mk]
    · intro hnd
      exact List.nodup_cons.mpr ⟨hmem, h3 hnd⟩

theorem planState_nodup (tie : Nat → List Node → Nat) (env : Environment)
    (startState : State) (constraints : List Constraint) (parentSol : List (List State))
    (bound : Int) :
    ∀ (j : Nat) (open_heap : List Node) (open_list neighbors : List State),
      planState tie env startState constraints parentSol bound j
        = some (open_heap, open_list, neighbors) →
      open_list.Nodup ∧ (open_heap.map Node.state).Nodup ∧
        (∀ n ∈ open_heap, n.state ∈ open_list) := by
  intro j
  induction j with
  | zero =>
    intro heap ol nb h
    simp only [planState, Option.some.injEq, Prod.mk.injEq] at h
    obtain ⟨h1, h2, _⟩ := h
    subst h1; subst h2
    simp [state_mk]
  | succ j ih =>
    intro heap ol nb h
    rw [planState] at h
    cases hprev : planState tie env startState constraints parentSol bound j with
    | none => rw [hprev] at h; simp at h
    | some prev =>
      obtain ⟨heap0, ol0, nb0⟩ := prev
      rw [hprev] at h
      simp only at h
      obtain ⟨hnd, hhnd, hsub⟩ := ih heap0 ol0 nb0 hprev
      unfold planRound at h
      cases htop : heapTop tie j heap0 with
      | none => rw [htop] at h; simp at h
      | some top =>
        obtain ⟨i, current⟩ := top
        rw [htop] at h
        simp only at h
        by_cases hgoal : env.isStateGoal current.state = true
        · rw [if_pos hgoal] at h; simp at h
        · rw [if_neg hgoal] at h
          simp only [Option.some.injEq, Prod.mk.injEq] at h
          obtain ⟨h1, h2, _⟩ := h
          obtain ⟨pushed, hp1, hp2, hp3⟩ := relax_fold_log env startState parentSol bound
            current (env.expandState current.state nb0 constraints) (heap0.eraseIdx i, ol0)
          rw [h1] at hp1
          rw [h2] at hp2 hp3
          simp only at hp1 hp2 hp3
          have hol := hp3 hnd
          refine ⟨hol, ?_, ?_⟩
          · rw [hp1, List.map_append, List.nodup_append]
            have hsubl : (heap0.eraseIdx i).Sublist heap0 := List.eraseIdx_sublist _ _
            refine ⟨(hsubl.map Node.state).nodup hhnd, ?_, ?_⟩
            · rw [hp2, List.nodup_append] at hol
              exact List.nodup_reverse.mp hol.1
            · intro s hs1 hs2
              rw [hp2, List.nodup_append] at hol
              obtain ⟨n, hn, hns⟩ := List.mem_map.mp hs1
              have : s ∈ ol0 := by
                rw [← hns]; exact hsub n (List.mem_of_mem_eraseIdx hn)
              exact hol.2.2 (List.mem_reverse.mpr hs2) this
          · intro n hn
            rw [hp1] at hn
            rw [hp2]
            rcases List.mem_append.mp hn with hn | hn
            · exact List.mem_append_right _ (hsub n (List.mem_of_mem_eraseIdx hn))
            · exact List.mem_append_left _
                (List.mem_reverse.mpr (List.mem_map_of_mem _ hn))

theorem planState_step (tie : Nat → List Node → Nat) (env : Environment)
    (startState : State) (constraints : List Constraint) (parentSol : List (List State))
    (bound : Int) (j : Nat) (open_heap : List Node) (open_list neighbors : List State)
    (open_heap' : List Node) (open_list' neighbors' : List State)
    (h : planState tie env startState constraints parentSol bound j
      = some (open_heap, open_list, neighbors))
    (h' : planState tie env startState constraints parentSol bound (j + 1)
      = some (open_heap', open_list', neighbors')) :
    ∃ (i : Nat) (pushed : List Node),
      open_heap' = open_heap.eraseIdx i ++ pushed ∧
      open_list' = (pushed.map Node.state).reverse ++ open_list := by
  rw [planState, h] at h'
  simp only at h'
  unfold planRound at h'
  cases htop : heapTop tie j open_heap with
  | none => rw [htop] at h'; simp at h'
  | some top =>
    obtain ⟨i, current⟩ := top
    rw [htop] at h'
    simp only at h'
    by_cases hgoal : env.isStateGoal current.state = true
    · rw [if_pos hgoal] at h'; simp at h'
    · rw [if_neg hgoal] at h'
      simp only [Option.some.injEq, Prod.mk.injEq] at h'
      obtain ⟨h1, h2, _⟩ := h'
      obtain ⟨pushed, hp1, hp2, _⟩ := relax_fold_log env startState parentSol bound
        current (env.expandState current.state neighbors constraints)
        (open_heap.eraseIdx i, open_list)
      exact ⟨i, pushed, by rw [← h1, hp1], by rw [← h2, hp2]⟩

/-- C17: at the start of every round of `plan`, `open_list` holds no state
twice, no two nodes of `open_heap` have the same state, and every state of a
node of the heap is in `open_list`; a round removes the top of the heap, appends
the nodes it pushes and puts exactly their states in front of `open_list`.  So
`open_list` lists every state ever pushed, popped or not, and none occurs
twice: a state that is found again is never pushed again and no entry of the
heap is ever replaced. -/
theorem open_list_logs_pushes (tie : Nat → List Node → Nat) (env : Environment)
    (startState : State) (constraints : List Constraint) (parentSol : List (List State))
    (bound : Int) (j : Nat) (open_heap : List Node) (open_list neighbors : List State)
    (h : planState tie env startState constraints parentSol bound j
      = some (open_heap, open_list, neighbors)) :
    open_list.Nodup ∧ (open_heap.map Node.state).Nodup ∧
      (∀ n ∈ open_heap, n.state ∈ open_list) ∧
      ∀ (open_heap' : List Node) (open_list' neighbors' : List State),
        planState tie env startState constraints parentSol bound (j + 1)
          = some (open_heap', open_list', neighbors') →
        ∃ (i : Nat) (pushed : List Node),
          open_heap' = open_heap.eraseIdx i ++ pushed ∧
          open_list' = (pushed.map Node.state).reverse ++ open_list := by
  obtain ⟨h1, h2, h3⟩ := planState_nodup tie env startState constraints parentSol bound j
    open_heap open_list neighbors h
  exact ⟨h1, h2, h3, fun heap' ol' nb' h' =>
    planState_step tie env startState constraints parentSol bound j open_heap open_list
      neighbors heap' ol' nb' h h'⟩

/-- Witness of C17: the state of the search on the 5x5 grid with goal (2,2)
after the first round from (0,0,0). -/
theorem open_list_logs_pushes_witness :
    planState (fun _ _ => 0) (Environment.new 5 5 [] [⟨2, 2⟩]) ⟨0, 0, 0⟩ [] [] 0 1
        = some
          ([Node.mk ⟨1, 0, 1⟩ 4 1 (some (Node.mk ⟨0, 0, 0⟩ 4 0 none)),
            Node.mk ⟨1, 1, 0⟩ 4 1 (some (Node.mk ⟨0, 0, 0⟩ 4 0 none))],
           [⟨1, 1, 0⟩, ⟨1, 0, 1⟩, ⟨0, 0, 0⟩], [⟨1, 0, 1⟩, ⟨1, 1, 0⟩]) ∧
      ([⟨1, 1, 0⟩, ⟨1, 0, 1⟩, ⟨0, 0, 0⟩] : List State).Nodup :=
  ⟨rfl, (open_list_logs_pushes (fun _ _ => 0) (Environment.new 5 5 [] [⟨2, 2⟩]) ⟨0, 0, 0⟩
    [] [] 0 1 _ _ _ rfl).1⟩

/-! ## Shortest paths without reference solutions -/

theorem planLoop_success_inv (tie : Nat → List Node → Nat) (env : Environment)
    (startState : State) (constraints : List Constraint) (parentSol : List (List State))
    (bound : Int) (P : List Node → List State → Prop)
    (hstep : ∀ (k i : Nat) (current : Node) (open_heap : List Node) (open_list : List State),
      P open_heap open_list → heapTop tie k open_heap = some (i, current) →
      env.isStateGoal current.state = false →
      P ((env.expandState current.state [] constraints).foldl
            (relax env startState parentSol bound current)
            (open_heap.eraseIdx i, open_list)).1
        ((env.expandState current.state [] constraints).foldl
            (relax env startState parentSol bound current)
            (open_heap.eraseIdx i, open_list)).2) :
    ∀ (fuel k : Nat) (open_heap : List Node) (open_list neighbors path : List State),
      P open_heap open_list →
      planLoop tie env startState constraints parentSol bound fuel k
        open_heap open_list neighbors = some (true, path) →
      ∃ (k' i : Nat) (current : Node) (open_heap' : List Node) (open_list' : List State),
        P open_heap' open_list' ∧ heapTop tie k' open_heap' = some (i, current) ∧
        env.isStateGoal current.state = true ∧ path = walkUp current [] := by
  intro fuel
  induction fuel with
  | zero => intro k heap ol nb path _ h; simp [planLoop] at h
  | succ fuel ih =>
    intro k heap ol nb path hP h
    rw [planLoop] at h
    cases htop : heapTop tie k heap with
    | none => rw [htop] at h; simp at h
    | some top =>
      obtain ⟨i, current⟩ := top
      rw [htop] at h
      simp only at h
      by_cases hgoal : env.isStateGoal current.state = true
      · rw [if_pos hgoal] at h
        simp only [Option.some.injEq, Prod.mk.injEq, true_and] at h
        exact ⟨k, i, current, heap, ol, hP, htop, hgoal, h.symm⟩
      · rw [if_neg hgoal, expandState_clears] at h
        have hgoal' : env.isStateGoal current.state = false := by simpa using hgoal
        exact ih _ _ _ _ path (hstep k i current heap ol hP htop hgoal') h

theorem chain_getElem?_step {α : Type} (R : α → α → Prop) :
    ∀ (rest : List α) (a : α), List.Chain R a rest →
      ∀ (j : Nat) (x y : α), (a :: rest)[j]? = some x → (a :: rest)[j + 1]? = some y →
        R x y := by
  intro rest
  induction rest with
  | nil => intro a _ j x y _ hy; simp at hy
  | cons b rest ih =>
    intro a hch j x y hx hy
    rw [List.chain_cons] at hch
    cases j with
    | zero =>
      simp only [List.getElem?_cons_zero, Option.some.injEq, zero_add,
        List.getElem?_cons_succ] at hx hy
      subst hx; subst hy
      exact hch.1
    | succ j =>
      simp only [List.getElem?_cons_succ] at hx hy
      exact ih b hch.2 j x y hx (by simpa using hy)

theorem chain_getElem?_time (env : Environment) (constraints : List Constraint) :
    ∀ (rest : List State) (a : State),
      List.Chain (fun p q => q ∈ env.expandState p [] constraints) a rest →
      ∀ (j : Nat) (s : State), (a :: rest)[j]? = some s → s.time = a.time + j := by
  intro rest
  induction rest with
  | nil =>
    intro a _ j s hs
    cases j with
    | zero => simp at hs; subst hs; simp
    | succ j => simp at hs
  | cons b rest ih =>
    intro a hch j s hs
    rw [List.chain_cons] at hch
    cases j with
    | zero => simp at hs; subst hs; simp
    | succ j =>
      simp only [List.getElem?_cons_succ] at hs
      have h1 := ih b hch.2 j s hs
      have h2 := hch.1
      rw [mem_expandState] at h2
      have h3 : b.time = a.time + 1 := by
        rcases h2.1 with e | e | e | e <;> rw [e]
      rw [h1, h3]
      push_cast
      ring

theorem layerNode_child (env : Environment) (startState : State)
    (constraints : List Constraint) (current : Node)
    (st : State) (hcur : LayerNode env startState current)
    (hst : st ∈ env.expandState current.state [] constraints) :
    LayerNode env startState
      (Node.mk st (env.heuristicFunc startState) (current.gScore + 1) (some current)) := by
  obtain ⟨_, h2, h3⟩ := hcur
  rw [mem_expandState] at hst
  have htime : st.time = current.state.time + 1 := by
    rcases hst.1 with e | e | e | e <;> rw [e]
  refine ⟨rfl, ?_, ?_⟩
  · rw [gScore_mk, state_mk]; omega
  · rw [walkUp_child, gScore_mk]
    simp only [List.length_append, List.length_singleton, Nat.cast_add, Nat.cast_one]
    omega

theorem layerInv_step (tie : Nat → List Node → Nat) (env : Environment) (startState : State)
    (constraints : List Constraint) (bound : Int) (rest : List State)
    (hch : List.Chain (fun p q => q ∈ env.expandState p [] constraints) startState rest)
    (hlast : env.isStateGoal ((startState :: rest).getLast (List.cons_ne_nil _ _)) = true)
    (k i : Nat) (current : Node) (open_heap : List Node) (open_list : List State)
    (hP : LayerInv env startState (startState :: rest) open_heap open_list)
    (htop : heapTop tie k open_heap = some (i, current))
    (hgoal : env.isStateGoal current.state = false) :
    LayerInv env startState (startState :: rest)
      ((env.expandState current.state [] constraints).foldl
        (relax env startState [] bound current) (open_heap.eraseIdx i, open_list)).1
      ((env.expandState current.state [] constraints).foldl
        (relax env startState [] bound current) (open_heap.eraseIdx i, open_list)).2 := by
  obtain ⟨hA, ⟨d, hd, hB⟩, ⟨w, hw, j, hwj⟩⟩ := hP
  obtain ⟨hi, hmin⟩ := heapTop_eq_some tie k open_heap i current htop
  have hcurmem := heapTop_mem tie k open_heap i current htop
  have hcurA := hA current hcurmem
  have hming : ∀ m ∈ open_heap, current.gScore ≤ m.gScore := by
    intro m hm
    have h1 := hmin m hm
    unfold Node.fScore at h1
    rw [(hA m hm).1, hcurA.1] at h1
    omega
  have hgrow := relax_fold_grows env startState [] bound current
    (env.expandState current.state [] constraints) (open_heap.eraseIdx i, open_list)
  have hnew := relax_fold_mem env startState [] bound current
    (env.expandState current.state [] constraints) (open_heap.eraseIdx i, open_list)
  have hall := relax_fold_unguided_all env startState bound current
    (env.expandState current.state [] constraints) (open_heap.eraseIdx i, open_list)
  have hnextA : ∀ n ∈ ((env.expandState current.state [] constraints).foldl
      (relax env startState [] bound current) (open_heap.eraseIdx i, open_list)).1,
      LayerNode env startState n := by
    intro n hn
    rcases hnew n hn with h | ⟨st, hst, h, hh, hn'⟩
    · exact hA n (List.mem_of_mem_eraseIdx h)
    · rw [hn', hh rfl]
      exact layerNode_child env startState constraints current st hcurA hst
  have hnextB : ∀ s ∈ ((env.expandState current.state [] constraints).foldl
      (relax env startState [] bound current) (open_heap.eraseIdx i, open_list)).2,
      current.gScore < s.time - startState.time →
      ∃ n ∈ ((env.expandState current.state [] constraints).foldl
        (relax env startState [] bound current) (open_heap.eraseIdx i, open_list)).1,
        n.state = s := by
    intro s hs hdepth
    rcases hgrow.2.2 s hs with h | h
    · have hdcur := hd current hcurmem
      obtain ⟨n, hn, hns⟩ := hB s h (by omega)
      refine ⟨n, hgrow.1 n (mem_eraseIdx_of_ne open_heap i current n hi hn ?_), hns⟩
      intro heq
      have h3 := hcurA.2.1
      rw [← heq, hns] at h3
      omega
    · exact h
  refine ⟨hnextA, ⟨current.gScore, ?_, hnextB⟩, ?_⟩
  · intro n hn
    rcases hnew n hn with h | ⟨st, _, h, _, hn'⟩
    · exact hming n (List.mem_of_mem_eraseIdx h)
    · rw [hn', gScore_mk]
      omega
  · by_cases hwc : w.state = current.state
    · rw [hwc] at hwj
      have hjlt : j < rest.length := by
        by_contra hge
        have hjlen : j < (startState :: rest).length := (List.getElem?_eq_some.mp hwj).1
        have hj : j = rest.length := by
          simp only [List.length_cons] at hjlen
          omega
        have hl : (startState :: rest).getLast (List.cons_ne_nil _ _) = current.state := by
          have h1 : (startState :: rest).getLast? = some current.state := by
            rw [List.getLast?_eq_getElem?]
            simp only [List.length_cons, Nat.add_sub_cancel]
            rw [← hj]; exact hwj
          rw [List.getLast?_eq_getLast _ (List.cons_ne_nil _ _)] at h1
          exact Option.some.inj h1
        rw [hl, hgoal] at hlast
        exact absurd hlast (by simp)
      have hnext : ∃ s', (startState :: rest)[j + 1]? = some s' := by
        have : j + 1 < (startState :: rest).length := by
          simp only [List.length_cons]; omega
        exact ⟨(startState :: rest)[j + 1], List.getElem?_eq_getElem this⟩
      obtain ⟨s', hs'⟩ := hnext
      have hR := chain_getElem?_step _ rest startState hch j current.state s' hwj hs'
      have hR' := hR
      rw [mem_expandState] at hR'
      have htime : s'.time = current.state.time + 1 := by
        rcases hR'.1 with e | e | e | e <;> rw [e]
      have h3 := hcurA.2.1
      obtain ⟨n, hn, hns⟩ := hnextB s' (hall s' hR) (by omega)
      exact ⟨n, hn, j + 1, by rw [hns]; exact hs'⟩
    · exact ⟨w, hgrow.1 w (mem_eraseIdx_of_ne open_heap i current w hi hw hwc), j, hwj⟩

/-- C20: without reference solutions, whenever `plan` returns success, no
sequence of states that starts at the start state, ends at a goal state and in
which every state is produced by `expandState` from the one before (a cardinal
move to the next time step that `isStateValid` accepts) has fewer states than
the returned path, whatever the order in which the heap breaks ties. -/
theorem plan_length_optimal (tie : Nat → List Node → Nat) (env : Environment) (fuel : Nat)
    (startState : State) (solution : List State) (constraints : List Constraint)
    (bound : Int) (path : List State)
    (h : plan tie env fuel startState solution constraints [] bound = some (true, path)) :
    ∀ rest : List State,
      List.Chain (fun p q => q ∈ env.expandState p [] constraints) startState rest →
      env.isStateGoal ((startState :: rest).getLast (List.cons_ne_nil _ _)) = true →
      path.length ≤ (startState :: rest).length := by
  intro rest hch hlast
  unfold plan at h
  obtain ⟨k', i, current, heap', ol', hP, htop, hgoal, hpath⟩ :=
    planLoop_success_inv tie env startState constraints [] bound
      (LayerInv env startState (startState :: rest))
      (fun k i current heap ol hP htop hng =>
        layerInv_step tie env startState constraints bound rest hch hlast k i current heap ol
          hP htop hng)
      fuel 0 _ _ _ path
      (by
        refine ⟨?_, ⟨0, ?_, ?_⟩, ⟨_, List.mem_singleton_self _, 0, ?_⟩⟩
        · intro n hn
          simp only [List.mem_singleton] at hn
          subst hn
          exact ⟨rfl, by simp [gScore_mk, state_mk], by simp [walkUp, gScore_mk]⟩
        · intro n hn
          simp only [List.mem_singleton] at hn
          subst hn
          exact le_refl _
        · intro s hs hd
          simp only [List.mem_singleton] at hs
          subst hs
          simp at hd
        · simp [state_mk])
      h
  obtain ⟨hA, _, ⟨w, hw, j, hwj⟩⟩ := hP
  obtain ⟨_, hmin⟩ := heapTop_eq_some tie k' heap' i current htop
  have hcurA := hA current (heapTop_mem tie k' heap' i current htop)
  have hwA := hA w hw
  have h1 := hmin w hw
  unfold Node.fScore at h1
  rw [hwA.1, hcurA.1] at h1
  have htime := chain_getElem?_time env constraints rest startState hch j w.state hwj
  have hjlen : j < (startState :: rest).length := (List.getElem?_eq_some.mp hwj).1
  have h2 := hwA.2.1
  have h3 := hcurA.2.2
  rw [hpath]
  have : ((walkUp current []).length : Int) ≤ ((startState :: rest).length : Int) := by
    have : (j : Int) < ((startState :: rest).length : Int) := by exact_mod_cast hjlen
    omega
  exact_mod_cast this

/-- Witness of C20: on the 5x5 grid with goal (2,2) the path returned from
(0,0,0) has no more states than the route that goes right twice and then up
twice. -/
theorem plan_length_optimal_witness :
    plan (fun _ _ => 0) (Environment.new 5 5 [] [⟨2, 2⟩]) 20 ⟨0, 0, 0⟩ [] [] [] 0
        = some (true, [⟨0, 0, 0⟩, ⟨1, 0, 1⟩, ⟨2, 0, 2⟩, ⟨3, 1, 2⟩, ⟨4, 2, 2⟩]) ∧
      ([⟨0, 0, 0⟩, ⟨1, 0, 1⟩, ⟨2, 0, 2⟩, ⟨3, 1, 2⟩, ⟨4, 2, 2⟩] : List State).length ≤
        ([⟨0, 0, 0⟩, ⟨1, 1, 0⟩, ⟨2, 2, 0⟩, ⟨3, 2, 1⟩, ⟨4, 2, 2⟩] : List State).length :=
  ⟨by decide,
    plan_length_optimal (fun _ _ => 0) (Environment.new 5 5 [] [⟨2, 2⟩]) 20 ⟨0, 0, 0⟩ [] []
      0 _ (by decide) [⟨1, 1, 0⟩, ⟨2, 2, 0⟩, ⟨3, 2, 1⟩, ⟨4, 2, 2⟩]
      (List.Chain.cons (by decide) (List.Chain.cons (by decide)
        (List.Chain.cons (by decide) (List.Chain.cons (by decide) List.Chain.nil))))
      (by decide)⟩

/-! ## The segmentation loop -/

theorem is_disjoint_nil_right (v : List State) : is_disjoint v [] = true := by
  unfold is_disjoint
  simp

theorem is_disjoint_nil_left (v : List State) : is_disjoint [] v = true := by
  unfold is_disjoint
  simp

theorem foldl_bump {σ α : Type} (l : List α) (g : σ → α → σ) (cond : σ → α → Prop)
    (bump : σ → σ)
    (hg : ∀ s a, a ∈ l → (cond s a → g s a = bump s) ∧ (¬ cond s a → g s a = s))
    (hstable : ∀ s a, a ∈ l → ¬ cond (bump s) a) :
    ∀ s, (l.foldl g s = s ∧ ∀ a ∈ l, ¬ cond s a) ∨
      (l.foldl g s = bump s ∧ ∃ a ∈ l, cond s a) := by
  induction l with
  | nil => intro s; left; exact ⟨rfl, fun a ha => absurd ha (List.not_mem_nil a)⟩
  | cons a rest ih =>
    intro s
    have hg' : ∀ s a, a ∈ rest → (cond s a → g s a = bump s) ∧ (¬ cond s a → g s a = s) :=
      fun s a ha => hg s a (List.mem_cons_of_mem _ ha)
    have hs' : ∀ s a, a ∈ rest → ¬ cond (bump s) a :=
      fun s a ha => hstable s a (List.mem_cons_of_mem _ ha)
    rw [List.foldl_cons]
    by_cases hc : cond s a
    · right
      rw [(hg s a (List.mem_cons_self _ _)).1 hc]
      refine ⟨?_, a, List.mem_cons_self _ _, hc⟩
      rcases ih hg' hs' (bump s) with ⟨h1, _⟩ | ⟨_, b, hb, hcb⟩
      · exact h1
      · exact absurd hcb (hs' s b hb)
    · rw [(hg s a (List.mem_cons_self _ _)).2 hc]
      rcases ih hg' hs' s with ⟨h1, h2⟩ | ⟨h1, b, hb, hcb⟩
      · left
        refine ⟨h1, ?_⟩
        intro b hb
        rcases List.mem_cons.mp hb with h | h
        · rw [h]; exact hc
        · exact h2 b h
      · right
        exact ⟨h1, b, List.mem_cons_of_mem _ hb, hcb⟩

theorem foldl_set_nil_getElem? (m : Nat) (av : List (List State)) (a : Nat) :
    ((List.range m).foldl (fun av a => av.set a []) av)[a]? =
      if a < m then (if a < av.length then some [] else none) else av[a]? := by
  induction m with
  | zero => simp
  | succ m ih =>
    rw [List.range_succ, List.foldl_append, List.foldl_cons, List.foldl_nil,
      List.getElem?_set]
    have hlen : ((List.range m).foldl (fun av a => av.set a []) av).length = av.length := by
      clear ih
      induction m with
      | zero => simp
      | succ m ih2 =>
        rw [List.range_succ, List.foldl_append, List.foldl_cons, List.foldl_nil,
          List.length_set, ih2]
    rw [hlen, ih]
    by_cases h1 : m = a
    · subst h1
      simp
    · rw [if_neg h1]
      by_cases h2 : a < m
      · have : a < m + 1 := by omega
        rw [if_pos h2, if_pos this]
      · have : ¬ a < m + 1 := by omega
        rw [if_neg h2, if_neg this]

theorem clearVisited_getD (otherSols : List (List State)) (av : List (List State)) (a : Nat) :
    (clearVisited otherSols av).getD a [] =
      if a < otherSols.length then [] else av.getD a [] := by
  unfold clearVisited
  rw [List.getD_eq_getElem?_getD, List.getD_eq_getElem?_getD, foldl_set_nil_getElem?]
  by_cases h : a < otherSols.length
  · rw [if_pos h, if_pos h]
    by_cases h2 : a < av.length
    · rw [if_pos h2]; rfl
    · rw [if_neg h2]; rfl
  · rw [if_neg h, if_neg h]

theorem checkPair_eq (otherSols : List (List State)) (currTime : Nat) (seg : SegState)
    (a1 a2 : Nat) :
    (pairConflict seg a1 a2 → checkPair otherSols currTime seg a1 a2
        = bumpSeg otherSols currTime seg) ∧
    (¬ pairConflict seg a1 a2 → checkPair otherSols currTime seg a1 a2 = seg) := by
  unfold pairConflict checkPair
  by_cases h : a1 ≠ a2
  · cases hd : is_disjoint (seg.agentVisited.getD a1 []) (seg.agentVisited.getD a2 [])
    · simp [h, bumpSeg, clearVisited]
    · simp [h]
  · simp [h]

theorem pairConflict_bumpSeg (otherSols : List (List State)) (currTime : Nat) (seg : SegState)
    (a1 a2 : Nat) (h2 : a2 < otherSols.length) :
    ¬ pairConflict (bumpSeg otherSols currTime seg) a1 a2 := by
  rintro ⟨_, hd⟩
  simp only [bumpSeg, clearVisited_getD, if_pos h2] at hd
  rw [is_disjoint_nil_right] at hd
  exact absurd hd (by simp)

theorem checkPairs_spec (otherSols : List (List State)) (currTime : Nat) (seg : SegState) :
    (checkPairs otherSols currTime seg = seg ∧
      ∀ a1 ∈ List.range otherSols.length, ∀ a2 ∈ List.range otherSols.length,
        ¬ pairConflict seg a1 a2) ∨
    (checkPairs otherSols currTime seg = bumpSeg otherSols currTime seg ∧
      ∃ a1 ∈ List.range otherSols.length, ∃ a2 ∈ List.range otherSols.length,
        pairConflict seg a1 a2) := by
  have inner : ∀ (a1 : Nat) (s : SegState),
      ((List.range otherSols.length).foldl
          (fun seg2 a2 => checkPair otherSols currTime seg2 a1 a2) s = s ∧
        ∀ a2 ∈ List.range otherSols.length, ¬ pairConflict s a1 a2) ∨
      ((List.range otherSols.length).foldl
          (fun seg2 a2 => checkPair otherSols currTime seg2 a1 a2) s
          = bumpSeg otherSols currTime s ∧
        ∃ a2 ∈ List.range otherSols.length, pairConflict s a1 a2) := by
    intro a1
    exact foldl_bump (List.range otherSols.length)
      (fun seg2 a2 => checkPair otherSols currTime seg2 a1 a2)
      (fun s a2 => pairConflict s a1 a2) (bumpSeg otherSols currTime)
      (fun s a2 _ => checkPair_eq otherSols currTime s a1 a2)
      (fun s a2 ha2 => pairConflict_bumpSeg otherSols currTime s a1 a2 (List.mem_range.mp ha2))
  unfold checkPairs
  have outer := foldl_bump (List.range otherSols.length)
    (fun seg1 a1 => (List.range otherSols.length).foldl
      (fun seg2 a2 => checkPair otherSols currTime seg2 a1 a2) seg1)
    (fun s a1 => ∃ a2 ∈ List.range otherSols.length, pairConflict s a1 a2)
    (bumpSeg otherSols currTime)
    (by
      intro s a1 _
      rcases inner a1 s with ⟨h1, h2⟩ | ⟨h1, h2⟩
      · exact ⟨fun ⟨a2, ha2, hc⟩ => absurd hc (h2 a2 ha2), fun _ => h1⟩
      · exact ⟨fun _ => h1, fun hn => absurd h2 hn⟩)
    (by
      rintro s a1 _ ⟨a2, ha2, hc⟩
      exact pairConflict_bumpSeg otherSols currTime s a1 a2 (List.mem_range.mp ha2) hc)
    seg
  rcases outer with ⟨h1, h2⟩ | ⟨h1, h2⟩
  · left
    exact ⟨h1, fun a1 ha1 a2 ha2 hc => h2 a1 ha1 ⟨a2, ha2, hc⟩⟩
  · right
    exact ⟨h1, h2⟩

theorem windowVisited_getElem? (env : Environment) (currPathSeg : List State)
    (otherSols : List (List State)) (w u a : Nat) :
    (windowVisited env currPathSeg otherSols w u)[a]? =
      if a < env.getGoals.length then
        some (if a < otherSols.length then
          ((agentPath env currPathSeg otherSols a).take u).drop w else [])
      else none := by
  unfold windowVisited
  rw [List.getElem?_map]
  by_cases h : a < env.getGoals.length
  · rw [List.getElem?_range h, if_pos h]; rfl
  · rw [if_neg h, List.getElem?_eq_none (by simpa using h)]; rfl

theorem windowVisited_getD (env : Environment) (currPathSeg : List State)
    (otherSols : List (List State)) (w u a : Nat) :
    (windowVisited env currPathSeg otherSols w u).getD a [] =
      if a < env.getGoals.length ∧ a < otherSols.length then
        ((agentPath env currPathSeg otherSols a).take u).drop w else [] := by
  rw [List.getD_eq_getElem?_getD, windowVisited_getElem?]
  by_cases h : a < env.getGoals.length
  · by_cases h2 : a < otherSols.length
    · simp [h, h2]
    · simp [h, h2]
  · simp [h]

theorem replicate_eq_windowVisited (env : Environment) (currPathSeg : List State)
    (otherSols : List (List State)) :
    List.replicate env.getGoals.length ([] : List State)
      = windowVisited env currPathSeg otherSols 0 0 := by
  apply List.ext_getElem?
  intro a
  rw [windowVisited_getElem?, List.getElem?_replicate]
  by_cases h : a < env.getGoals.length
  · simp [h]
  · simp [h]

theorem recordVisited_getElem? (env : Environment) (currPathSeg : List State)
    (otherSols : List (List State)) (currTime : Nat) (av : List (List State)) (a : Nat) :
    (recordVisited env currPathSeg otherSols currTime av)[a]? =
      (av[a]?).map (fun v =>
        if a < otherSols.length then
          v ++ ((agentPath env currPathSeg otherSols a)[currTime]?).toList
        else v) := by
  unfold recordVisited
  generalize otherSols.length = m
  induction m with
  | zero => simp
  | succ m ih =>
    rw [List.range_succ, List.foldl_append, List.foldl_cons, List.foldl_nil]
    cases hs : (agentPath env currPathSeg otherSols m)[currTime]? with
    | none =>
      simp only
      rw [ih]
      cases av[a]? with
      | none => rfl
      | some v =>
        simp only [Option.map_some']
        by_cases h1 : a < m
        · have : a < m + 1 := by omega
          rw [if_pos h1, if_pos this]
        · by_cases h2 : a = m
          · subst h2
            simp [hs]
          · have : ¬ a < m + 1 := by omega
            rw [if_neg h1, if_neg this]
    | some s =>
      simp only
      rw [List.getElem?_modify, ih]
      cases av[a]? with
      | none => rfl
      | some v =>
        simp only [Option.map_some', Option.map_eq_map]
        by_cases h2 : m = a
        · subst h2
          simp [hs]
        · rw [if_neg h2]
          by_cases h1 : a < m
          · have : a < m + 1 := by omega
            rw [if_pos h1, if_pos this]
          · have : ¬ a < m + 1 := by omega
            rw [if_neg h1, if_neg this]

theorem recordVisited_window (env : Environment) (currPathSeg : List State)
    (otherSols : List (List State)) (w t : Nat) (hw : w ≤ t) :
    recordVisited env currPathSeg otherSols t (windowVisited env currPathSeg otherSols w t)
      = windowVisited env currPathSeg otherSols w (t + 1) := by
  apply List.ext_getElem?
  intro a
  rw [recordVisited_getElem?, windowVisited_getElem?, windowVisited_getElem?]
  by_cases h : a < env.getGoals.length
  · rw [if_pos h, if_pos h]
    simp only [Option.map_some', Option.some.injEq]
    by_cases h2 : a < otherSols.length
    · simp only [if_pos h2]
      rw [List.take_succ]
      by_cases h3 : t < (agentPath env currPathSeg otherSols a).length
      · rw [List.drop_append_of_le_length]
        rw [List.length_take]
        omega
      · have hnone : (agentPath env currPathSeg otherSols a)[t]? = none :=
          List.getElem?_eq_none (by omega)
        rw [hnone]
        simp
    · simp only [if_neg h2]
  · rw [if_neg h, if_neg h]
    rfl

theorem clearVisited_window (env : Environment) (currPathSeg : List State)
    (otherSols : List (List State)) (w u : Nat) :
    clearVisited otherSols (windowVisited env currPathSeg otherSols w u)
      = windowVisited env currPathSeg otherSols u u := by
  apply List.ext_getElem?
  intro a
  unfold clearVisited
  rw [foldl_set_nil_getElem?, windowVisited_getElem?, windowVisited_getElem?]
  have hlen : (windowVisited env currPathSeg otherSols w u).length = env.getGoals.length := by
    simp [windowVisited]
  rw [hlen]
  by_cases h : a < env.getGoals.length
  · by_cases h2 : a < otherSols.length
    · simp [h, h2]
    · simp [h, h2]
  · by_cases h2 : a < otherSols.length
    · simp [h, h2]
    · simp [h, h2]

theorem segmentCost_eq_segAfter (env : Environment) (currPathSeg : List State)
    (otherSols : List (List State)) :
    segmentCost env currPathSeg otherSols =
      ((segAfter env currPathSeg otherSols
        (longTimeOf env currPathSeg otherSols + 1)).currCost : Int) := rfl

theorem segAfter_succ (env : Environment) (currPathSeg : List State)
    (otherSols : List (List State)) (k : Nat) :
    segAfter env currPathSeg otherSols (k + 1) =
      segmentStep env currPathSeg otherSols (segAfter env currPathSeg otherSols k) k := by
  unfold segAfter
  rw [List.range_succ, List.foldl_append, List.foldl_cons, List.foldl_nil]

theorem mem_window (p : List State) (w u : Nat) (s : State) :
    s ∈ (p.take u).drop w ↔ ∃ i, (w ≤ i ∧ i < u) ∧ p[i]? = some s := by
  rw [List.mem_iff_getElem?]
  constructor
  · rintro ⟨m, hm⟩
    rw [List.getElem?_drop, List.getElem?_take] at hm
    by_cases h : w + m < u
    · rw [if_pos h] at hm
      exact ⟨w + m, ⟨by omega, h⟩, hm⟩
    · rw [if_neg h] at hm
      exact absurd hm (by simp)
  · rintro ⟨i, ⟨h1, h2⟩, hi⟩
    refine ⟨i - w, ?_⟩
    rw [List.getElem?_drop, List.getElem?_take]
    have : w + (i - w) = i := by omega
    rw [this, if_pos h2]
    exact hi

theorem is_disjoint_eq_false_iff (v1 v2 : List State) :
    is_disjoint v1 v2 = false ↔ ∃ s1 ∈ v1, ∃ s2 ∈ v2, s1.x = s2.x ∧ s1.y = s2.y := by
  rw [← Bool.not_eq_true, is_disjoint_iff]
  push_neg
  rfl

theorem pairConflict_window_iff (env : Environment) (currPathSeg : List State)
    (otherSols : List (List State)) (w u : Nat) (seg : SegState)
    (hav : seg.agentVisited = windowVisited env currPathSeg otherSols w u) :
    (∃ a1 ∈ List.range otherSols.length, ∃ a2 ∈ List.range otherSols.length,
      pairConflict seg a1 a2) ↔ windowConflict env currPathSeg otherSols w u := by
  unfold pairConflict windowConflict
  rw [hav]
  constructor
  · rintro ⟨a1, ha1, a2, ha2, hne, hd⟩
    rw [is_disjoint_eq_false_iff] at hd
    obtain ⟨s1, hs1, s2, hs2, hsame⟩ := hd
    rw [windowVisited_getD] at hs1 hs2
    by_cases h1 : a1 < env.getGoals.length ∧ a1 < otherSols.length
    · by_cases h2 : a2 < env.getGoals.length ∧ a2 < otherSols.length
      · rw [if_pos h1, mem_window] at hs1
        rw [if_pos h2, mem_window] at hs2
        obtain ⟨i, hi, hi2⟩ := hs1
        obtain ⟨j, hj, hj2⟩ := hs2
        exact ⟨a1, a2, i, j, s1, s2, hne, ⟨h1.2, h1.1⟩, ⟨h2.2, h2.1⟩, hi, hj, hi2, hj2, hsame⟩
      · rw [if_neg h2] at hs2; simp at hs2
    · rw [if_neg h1] at hs1; simp at hs1
  · rintro ⟨a1, a2, i, j, s1, s2, hne, h1, h2, hi, hj, hi2, hj2, hsame⟩
    refine ⟨a1, List.mem_range.mpr h1.1, a2, List.mem_range.mpr h2.1, hne, ?_⟩
    rw [is_disjoint_eq_false_iff]
    refine ⟨s1, ?_, s2, ?_, hsame⟩
    · rw [windowVisited_getD, if_pos ⟨h1.2, h1.1⟩, mem_window]
      exact ⟨i, hi, hi2⟩
    · rw [windowVisited_getD, if_pos ⟨h2.2, h2.1⟩, mem_window]
      exact ⟨j, hj, hj2⟩

theorem segmentStep_window (env : Environment) (currPathSeg : List State)
    (otherSols : List (List State)) (w k : Nat) (hw : w ≤ k) (seg : SegState)
    (hav : seg.agentVisited = windowVisited env currPathSeg otherSols w k) :
    (¬ windowConflict env currPathSeg otherSols w (k + 1) ∧
      segmentStep env currPathSeg otherSols seg k =
        { agentVisited := windowVisited env currPathSeg otherSols w (k + 1),
          lastSegmentTime := seg.lastSegmentTime, currCost := seg.currCost }) ∨
    (windowConflict env currPathSeg otherSols w (k + 1) ∧
      segmentStep env currPathSeg otherSols seg k =
        { agentVisited := windowVisited env currPathSeg otherSols (k + 1) (k + 1),
          lastSegmentTime := k, currCost := seg.currCost + 1 }) := by
  unfold segmentStep
  rw [hav, recordVisited_window env currPathSeg otherSols w k hw]
  have hiff := pairConflict_window_iff env currPathSeg otherSols w (k + 1)
    { seg with agentVisited := windowVisited env currPathSeg otherSols w (k + 1) } rfl
  rcases checkPairs_spec otherSols k
    { seg with agentVisited := windowVisited env currPathSeg otherSols w (k + 1) } with
    ⟨h1, h2⟩ | ⟨h1, h2⟩
  · left
    refine ⟨?_, h1⟩
    rw [← hiff]
    rintro ⟨a1, ha1, a2, ha2, hc⟩
    exact h2 a1 ha1 a2 ha2 hc
  · right
    refine ⟨hiff.mp h2, ?_⟩
    rw [h1]
    simp only [bumpSeg, clearVisited_window]

theorem segmentStep_currCost (env : Environment) (currPathSeg : List State)
    (otherSols : List (List State)) (seg : SegState) (k : Nat) :
    (segmentStep env currPathSeg otherSols seg k).currCost = seg.currCost ∨
    (segmentStep env currPathSeg otherSols seg k).currCost = seg.currCost + 1 := by
  unfold segmentStep
  rcases checkPairs_spec otherSols k
    { seg with agentVisited :=
        recordVisited env currPathSeg otherSols k seg.agentVisited } with ⟨h1, _⟩ | ⟨h1, _⟩
  · left; rw [h1]
  · right; rw [h1]; rfl

theorem segAfter_window (env : Environment) (currPathSeg : List State)
    (otherSols : List (List State)) (k : Nat) :
    ∃ w, w ≤ k ∧ (segAfter env currPathSeg otherSols k).agentVisited
      = windowVisited env currPathSeg otherSols w k := by
  induction k with
  | zero => exact ⟨0, le_refl _, replicate_eq_windowVisited env currPathSeg otherSols⟩
  | succ k ih =>
    obtain ⟨w, hw, hav⟩ := ih
    rw [segAfter_succ]
    rcases segmentStep_window env currPathSeg otherSols w k hw _ hav with ⟨_, h⟩ | ⟨_, h⟩
    · exact ⟨w, by omega, by rw [h]⟩
    · exact ⟨k + 1, le_refl _, by rw [h]⟩

theorem segAfter_currCost_pos (env : Environment) (currPathSeg : List State)
    (otherSols : List (List State)) (k : Nat) :
    1 ≤ (segAfter env currPathSeg otherSols k).currCost := by
  induction k with
  | zero => exact le_refl _
  | succ k ih =>
    rw [segAfter_succ]
    rcases segmentStep_currCost env currPathSeg otherSols
      (segAfter env currPathSeg otherSols k) k with h | h <;> omega

theorem segAfter_no_conflict (env : Environment) (currPathSeg : List State)
    (otherSols : List (List State))
    (hno : ∀ w u, ¬ windowConflict env currPathSeg otherSols w u) (k : Nat) :
    (segAfter env currPathSeg otherSols k).currCost = 1 := by
  induction k with
  | zero => rfl
  | succ k ih =>
    obtain ⟨w, hw, hav⟩ := segAfter_window env currPathSeg otherSols k
    rw [segAfter_succ]
    rcases segmentStep_window env currPathSeg otherSols w k hw _ hav with ⟨_, h⟩ | ⟨hc, _⟩
    · rw [h]; exact ih
    · exact absurd hc (hno w (k + 1))

theorem segAfter_one (env : Environment) (currPathSeg : List State)
    (otherSols : List (List State)) (k : Nat) :
    (segAfter env currPathSeg otherSols k).currCost = 1 →
      (segAfter env currPathSeg otherSols k).agentVisited
          = windowVisited env currPathSeg otherSols 0 k ∧
        (0 < k → ¬ windowConflict env currPathSeg otherSols 0 k) := by
  induction k with
  | zero =>
    intro _
    exact ⟨replicate_eq_windowVisited env currPathSeg otherSols, fun h => absurd h (by omega)⟩
  | succ k ih =>
    intro hc
    rw [segAfter_succ] at hc ⊢
    have hpos := segAfter_currCost_pos env currPathSeg otherSols k
    have hold : (segAfter env currPathSeg otherSols k).currCost = 1 := by
      rcases segmentStep_currCost env currPathSeg otherSols
        (segAfter env currPathSeg otherSols k) k with h | h <;> omega
    obtain ⟨hav, _⟩ := ih hold
    rcases segmentStep_window env currPathSeg otherSols 0 k (Nat.zero_le _) _ hav with
      ⟨hn, h⟩ | ⟨_, h⟩
    · rw [h]
      exact ⟨rfl, fun _ => hn⟩
    · rw [h] at hc
      simp only at hc
      omega

theorem longTimeOf_ge (env : Environment) (currPathSeg : List State)
    (otherSols : List (List State)) (a : Nat) (ha : a < otherSols.length) :
    (agentPath env currPathSeg otherSols a).length
      ≤ longTimeOf env currPathSeg otherSols := by
  unfold longTimeOf
  have key : ∀ (l : List Nat) (init : Nat),
      init ≤ l.foldl (fun longTime a =>
        if (agentPath env currPathSeg otherSols a).length > longTime then
          (agentPath env currPathSeg otherSols a).length else longTime) init ∧
      ∀ b ∈ l, (agentPath env currPathSeg otherSols b).length ≤
        l.foldl (fun longTime a =>
          if (agentPath env currPathSeg otherSols a).length > longTime then
            (agentPath env currPathSeg otherSols a).length else longTime) init := by
    intro l
    induction l with
    | nil => intro init; exact ⟨le_refl _, fun b hb => absurd hb (List.not_mem_nil b)⟩
    | cons c rest ih =>
      intro init
      rw [List.foldl_cons]
      obtain ⟨h1, h2⟩ := ih (if (agentPath env currPathSeg otherSols c).length > init then
          (agentPath env currPathSeg otherSols c).length else init)
      constructor
      · refine le_trans ?_ h1
        split <;> omega
      · intro b hb
        rcases List.mem_cons.mp hb with h | h
        · subst h
          refine le_trans ?_ h1
          split <;> omega
        · exact h2 b h
  exact (key (List.range otherSols.length) 0).2 a (List.mem_range.mpr ha)

theorem segmentCost_ge_two (env : Environment) (currPathSeg : List State)
    (otherSols : List (List State))
    (hc : windowConflict env currPathSeg otherSols 0
      (longTimeOf env currPathSeg otherSols + 1)) :
    2 ≤ segmentCost env currPathSeg otherSols := by
  rw [segmentCost_eq_segAfter]
  have hpos := segAfter_currCost_pos env currPathSeg otherSols
    (longTimeOf env currPathSeg otherSols + 1)
  by_contra hlt
  have hone : (segAfter env currPathSeg otherSols
      (longTimeOf env currPathSeg otherSols + 1)).currCost = 1 := by
    omega
  exact (segAfter_one env currPathSeg otherSols _ hone).2 (by omega) hc

theorem windowConflict_of_shared (env : Environment) (currPathSeg : List State)
    (otherSols : List (List State)) (a1 a2 : Nat) (s1 s2 : State)
    (hne : a1 ≠ a2)
    (h1 : a1 < otherSols.length ∧ a1 < env.getGoals.length)
    (h2 : a2 < otherSols.length ∧ a2 < env.getGoals.length)
    (hs1 : s1 ∈ agentPath env currPathSeg otherSols a1)
    (hs2 : s2 ∈ agentPath env currPathSeg otherSols a2)
    (hsame : s1.x = s2.x ∧ s1.y = s2.y) :
    windowConflict env currPathSeg otherSols 0 (longTimeOf env currPathSeg otherSols + 1) := by
  obtain ⟨i, hi⟩ := List.mem_iff_getElem?.mp hs1
  obtain ⟨j, hj⟩ := List.mem_iff_getElem?.mp hs2
  have hil := (List.getElem?_eq_some.mp hi).1
  have hjl := (List.getElem?_eq_some.mp hj).1
  have hl1 := longTimeOf_ge env currPathSeg otherSols a1 h1.1
  have hl2 := longTimeOf_ge env currPathSeg otherSols a2 h2.1
  exact ⟨a1, a2, i, j, s1, s2, hne, h1, h2, ⟨Nat.zero_le _, by omega⟩,
    ⟨Nat.zero_le _, by omega⟩, hi, hj, hsame⟩
theorem agentPath_self (env : Environment) (currPathSeg : List State)
    (otherSols : List (List State)) :
    agentPath env currPathSeg otherSols env.m_agentIdx = currPathSeg := by
  simp [agentPath, Environment.getAgent]

theorem agentPath_other (env : Environment) (currPathSeg : List State)
    (otherSols : List (List State)) (a : Nat) (h : a ≠ env.m_agentIdx) :
    agentPath env currPathSeg otherSols a = otherSols.getD a [] := by
  simp [agentPath, Environment.getAgent, h]

theorem two_agents_conflict (env : Environment) (currPathSeg : List State)
    (otherSols : List (List State)) (hn : otherSols.length = 2)
    (hagent : env.m_agentIdx < 2) (w u : Nat)
    (hc : windowConflict env currPathSeg otherSols w u) :
    ∃ s ∈ currPathSeg, ∃ b ∈ otherSols.getD (1 - env.m_agentIdx) [],
      s.x = b.x ∧ s.y = b.y := by
  obtain ⟨a1, a2, i, j, s1, s2, hne, h1, h2, _, _, hi, hj, hsame⟩ := hc
  rw [hn] at h1 h2
  have hcase : (a1 = env.m_agentIdx ∧ a2 = 1 - env.m_agentIdx) ∨
      (a2 = env.m_agentIdx ∧ a1 = 1 - env.m_agentIdx) := by omega
  rcases hcase with ⟨e1, e2⟩ | ⟨e2, e1⟩
  · have hne2 : a2 ≠ env.m_agentIdx := by omega
    rw [e1, agentPath_self] at hi
    rw [agentPath_other env currPathSeg otherSols a2 hne2, e2] at hj
    exact ⟨s1, List.getElem?_mem hi, s2, List.getElem?_mem hj, hsame⟩
  · have hne1 : a1 ≠ env.m_agentIdx := by omega
    rw [e2, agentPath_self] at hj
    rw [agentPath_other env currPathSeg otherSols a1 hne1, e1] at hi
    exact ⟨s2, List.getElem?_mem hj, s1, List.getElem?_mem hi, hsame.1.symm, hsame.2.symm⟩

theorem segmentCost_two_disjoint (env : Environment) (currPathSeg : List State)
    (otherSols : List (List State)) (hn : otherSols.length = 2)
    (hagent : env.m_agentIdx < 2)
    (hdis : ∀ s ∈ currPathSeg, ∀ b ∈ otherSols.getD (1 - env.m_agentIdx) [],
      ¬ (s.x = b.x ∧ s.y = b.y)) :
    segmentCost env currPathSeg otherSols = 1 := by
  rw [segmentCost_eq_segAfter, segAfter_no_conflict]
  · rfl
  · intro w u hc
    obtain ⟨s, hs, b, hb, hsame⟩ :=
      two_agents_conflict env currPathSeg otherSols hn hagent w u hc
    exact hdis s hs b hb hsame

theorem segmentCost_two_shared (env : Environment) (currPathSeg : List State)
    (otherSols : List (List State)) (hn : otherSols.length = 2)
    (hgoals : 2 ≤ env.m_goals.length) (hagent : env.m_agentIdx < 2)
    (hsh : ∃ s ∈ currPathSeg, ∃ b ∈ otherSols.getD (1 - env.m_agentIdx) [],
      s.x = b.x ∧ s.y = b.y) :
    2 ≤ segmentCost env currPathSeg otherSols := by
  obtain ⟨s, hs, b, hb, hsame⟩ := hsh
  apply segmentCost_ge_two
  have hne : env.m_agentIdx ≠ 1 - env.m_agentIdx := by omega
  refine windowConflict_of_shared env currPathSeg otherSols env.m_agentIdx
    (1 - env.m_agentIdx) s b hne ⟨by omega, ?_⟩ ⟨by omega, ?_⟩ ?_ ?_ hsame
  · show env.m_agentIdx < env.m_goals.length
    omega
  · show 1 - env.m_agentIdx < env.m_goals.length
    omega
  · rw [agentPath_self]; exact hs
  · rw [agentPath_other env currPathSeg otherSols _ (Ne.symm hne)]; exact hb

/-- C13: with two agents (two goals, two reference paths, the agent being
planned one of them) `SegHeuristic` returns 1 when the candidate path of the
node and the path `B` of the other agent share no cell, and at least 2 when
they share one; so when `B` has four states, all on (1,1), a candidate path
that visits (1,1) gets a strictly higher value than a candidate path of the
same length that never does. -/
theorem SegHeuristic_two_agents (env : Environment) (otherSols : List (List State))
    (hn : otherSols.length = 2) (hgoals : 2 ≤ env.m_goals.length)
    (hagent : env.m_agentIdx < 2) :
    (∀ n : Node,
      (∀ s ∈ walkUp n [], ∀ b ∈ otherSols.getD (1 - env.m_agentIdx) [],
        ¬ (s.x = b.x ∧ s.y = b.y)) →
      SegHeuristic env n otherSols = 1) ∧
    (∀ n : Node,
      (∃ s ∈ walkUp n [], ∃ b ∈ otherSols.getD (1 - env.m_agentIdx) [],
        s.x = b.x ∧ s.y = b.y) →
      2 ≤ SegHeuristic env n otherSols) ∧
    (((otherSols.getD (1 - env.m_agentIdx) []).length = 4 ∧
        ∀ b ∈ otherSols.getD (1 - env.m_agentIdx) [], b.x = 1 ∧ b.y = 1) →
      ∀ n1 n2 : Node, (walkUp n1 []).length = (walkUp n2 []).length →
        (∃ s ∈ walkUp n1 [], s.x = 1 ∧ s.y = 1) →
        (∀ s ∈ walkUp n2 [], ¬ (s.x = 1 ∧ s.y = 1)) →
        SegHeuristic env n2 otherSols < SegHeuristic env n1 otherSols) := by
  refine ⟨?_, ?_, ?_⟩
  · intro n hdis
    rw [SegHeuristic_eq_segmentCost]
    exact segmentCost_two_disjoint env _ otherSols hn hagent hdis
  · intro n hsh
    rw [SegHeuristic_eq_segmentCost]
    exact segmentCost_two_shared env _ otherSols hn hgoals hagent hsh
  · rintro ⟨hlen, hB⟩ n1 n2 _ ⟨s, hs, hsx, hsy⟩ havoid
    have h2 : SegHeuristic env n2 otherSols = 1 := by
      rw [SegHeuristic_eq_segmentCost]
      apply segmentCost_two_disjoint env _ otherSols hn hagent
      intro s' hs' b hb hsame
      have := hB b hb
      exact havoid s' hs' ⟨by rw [hsame.1, this.1], by rw [hsame.2, this.2]⟩
    have h1 : 2 ≤ SegHeuristic env n1 otherSols := by
      rw [SegHeuristic_eq_segmentCost]
      apply segmentCost_two_shared env _ otherSols hn hgoals hagent
      cases hBl : otherSols.getD (1 - env.m_agentIdx) [] with
      | nil => rw [hBl] at hlen; simp at hlen
      | cons b rest =>
        have hb := hB b (by rw [hBl]; exact List.mem_cons_self _ _)
        exact ⟨s, hs, b, List.mem_cons_self _ _, by rw [hsx, hb.1], by rw [hsy, hb.2]⟩
    omega

/-- Witness of C13: the first of two agents is planned while the second rests
on (1,1) for the timesteps 0 to 3; the chain (0,0), (1,0), (1,1) costs more
than the chain (0,0), (0,1), (0,2). -/
theorem SegHeuristic_two_agents_witness :
    SegHeuristic (Environment.new 5 5 [] [⟨2, 2⟩, ⟨1, 1⟩])
        (Node.mk ⟨2, 0, 2⟩ 0 2 (some (Node.mk ⟨1, 0, 1⟩ 0 1 (some (Node.mk ⟨0, 0, 0⟩ 0 0 none)))))
        [[], [⟨0, 1, 1⟩, ⟨1, 1, 1⟩, ⟨2, 1, 1⟩, ⟨3, 1, 1⟩]] <
      SegHeuristic (Environment.new 5 5 [] [⟨2, 2⟩, ⟨1, 1⟩])
        (Node.mk ⟨2, 1, 1⟩ 0 2 (some (Node.mk ⟨1, 1, 0⟩ 0 1 (some (Node.mk ⟨0, 0, 0⟩ 0 0 none)))))
        [[], [⟨0, 1, 1⟩, ⟨1, 1, 1⟩, ⟨2, 1, 1⟩, ⟨3, 1, 1⟩]] :=
  (SegHeuristic_two_agents (Environment.new 5 5 [] [⟨2, 2⟩, ⟨1, 1⟩])
    [[], [⟨0, 1, 1⟩, ⟨1, 1, 1⟩, ⟨2, 1, 1⟩, ⟨3, 1, 1⟩]] rfl (by decide) (by decide)).2.2
    ⟨rfl, by decide⟩ _ _ rfl ⟨⟨2, 1, 1⟩, by decide, rfl, rfl⟩ (by decide)

theorem longTimeOf_congr (env : Environment) (currPathSeg : List State)
    (R R' : List (List State)) (hlen : R.length = R'.length)
    (hlens : ∀ a, (R.getD a []).length = (R'.getD a []).length) :
    longTimeOf env currPathSeg R = longTimeOf env currPathSeg R' := by
  unfold longTimeOf
  rw [hlen]
  have hfun : ∀ a, (agentPath env currPathSeg R a).length
      = (agentPath env currPathSeg R' a).length := by
    intro a
    unfold agentPath
    by_cases h : a = env.getAgent
    · rw [if_pos h, if_pos h]
    · rw [if_neg h, if_neg h]; exact hlens a
  simp only [hfun]

theorem windowConflict_mono (env : Environment) (currPathSeg : List State)
    (R R' : List (List State)) (hlen : R.length = R'.length)
    (hov : ∀ (a b i j : Nat) (sa sb : State), a ≠ b → a < R.length → b < R.length →
      (agentPath env currPathSeg R a)[i]? = some sa →
      (agentPath env currPathSeg R b)[j]? = some sb →
      sa.x = sb.x ∧ sa.y = sb.y →
      ∃ sa' sb' : State, (agentPath env currPathSeg R' a)[i]? = some sa' ∧
        (agentPath env currPathSeg R' b)[j]? = some sb' ∧ sa'.x = sb'.x ∧ sa'.y = sb'.y)
    (w w' u : Nat) (hw : w' ≤ w)
    (hc : windowConflict env currPathSeg R w u) :
    windowConflict env currPathSeg R' w' u := by
  obtain ⟨a1, a2, i, j, s1, s2, hne, h1, h2, hi, hj, hi2, hj2, hsame⟩ := hc
  obtain ⟨s1', s2', h1', h2', hsame'⟩ := hov a1 a2 i j s1 s2 hne h1.1 h2.1 hi2 hj2 hsame
  exact ⟨a1, a2, i, j, s1', s2', hne, ⟨by omega, h1.2⟩, ⟨by omega, h2.2⟩,
    ⟨by omega, hi.2⟩, ⟨by omega, hj.2⟩, h1', h2', hsame'⟩

theorem segAfter_mono (env : Environment) (currPathSeg : List State)
    (R R' : List (List State)) (hlen : R.length = R'.length)
    (hov : ∀ (a b i j : Nat) (sa sb : State), a ≠ b → a < R.length → b < R.length →
      (agentPath env currPathSeg R a)[i]? = some sa →
      (agentPath env currPathSeg R b)[j]? = some sb →
      sa.x = sb.x ∧ sa.y = sb.y →
      ∃ sa' sb' : State, (agentPath env currPathSeg R' a)[i]? = some sa' ∧
        (agentPath env currPathSeg R' b)[j]? = some sb' ∧ sa'.x = sb'.x ∧ sa'.y = sb'.y)
    (k : Nat) :
    ∃ w w', w ≤ k ∧ w' ≤ k ∧
      (segAfter env currPathSeg R k).agentVisited = windowVisited env currPathSeg R w k ∧
      (segAfter env currPathSeg R' k).agentVisited = windowVisited env currPathSeg R' w' k ∧
      (segAfter env currPathSeg R k).currCost ≤ (segAfter env currPathSeg R' k).currCost ∧
      ((segAfter env currPathSeg R k).currCost = (segAfter env currPathSeg R' k).currCost →
        w' ≤ w) := by
  induction k with
  | zero =>
    exact ⟨0, 0, le_refl _, le_refl _, replicate_eq_windowVisited env currPathSeg R,
      replicate_eq_windowVisited env currPathSeg R', le_refl _, fun _ => le_refl _⟩
  | succ k ih =>
    obtain ⟨w, w', hw, hw', hav, hav', hle, heq⟩ := ih
    rw [segAfter_succ, segAfter_succ]
    rcases segmentStep_window env currPathSeg R w k hw _ hav with ⟨hn, h⟩ | ⟨hc, h⟩ <;>
      rcases segmentStep_window env currPathSeg R' w' k hw' _ hav' with ⟨hn', h'⟩ | ⟨hc', h'⟩
    · refine ⟨w, w', by omega, by omega, by rw [h], by rw [h'], ?_, ?_⟩
      · rw [h, h']; exact hle
      · rw [h, h']; exact heq
    · refine ⟨w, k + 1, by omega, le_refl _, by rw [h], by rw [h'], ?_, ?_⟩
      · rw [h, h']; simp only; omega
      · rw [h, h']; simp only; intro he; omega
    · refine ⟨k + 1, w', le_refl _, by omega, by rw [h], by rw [h'], ?_, ?_⟩
      · rw [h, h']
        simp only
        by_contra hlt
        have he : (segAfter env currPathSeg R k).currCost
            = (segAfter env currPathSeg R' k).currCost := by omega
        exact hn' (windowConflict_mono env currPathSeg R R' hlen hov w w' (k + 1) (heq he) hc)
      · rw [h, h']; simp only; intro _; omega
    · refine ⟨k + 1, k + 1, le_refl _, le_refl _, by rw [h], by rw [h'], ?_, ?_⟩
      · rw [h, h']; simp only; omega
      · rw [h, h']; simp only; intro _; exact le_refl _

/-- C12: for a fixed candidate path, `SegHeuristic` does not decrease when
overlaps are added to the reference set: if `R` and `R'` have the same number
of agents and path lengths, and whenever two distinct agents stand on a common
cell at timesteps `i` and `j` with `R` (the candidate path standing in for the
agent being planned) they also do with `R'`, then the value for `R'` is at
least the value for `R`. -/
theorem SegHeuristic_monotone (env : Environment) (n : Node) (R R' : List (List State))
    (hlen : R.length = R'.length)
    (hlens : ∀ a, (R.getD a []).length = (R'.getD a []).length)
    (hov : ∀ (a b i j : Nat) (sa sb : State), a ≠ b → a < R.length → b < R.length →
      (agentPath env (walkUp n []) R a)[i]? = some sa →
      (agentPath env (walkUp n []) R b)[j]? = some sb →
      sa.x = sb.x ∧ sa.y = sb.y →
      ∃ sa' sb' : State, (agentPath env (walkUp n []) R' a)[i]? = some sa' ∧
        (agentPath env (walkUp n []) R' b)[j]? = some sb' ∧ sa'.x = sb'.x ∧ sa'.y = sb'.y) :
    SegHeuristic env n R ≤ SegHeuristic env n R' := by
  rw [SegHeuristic_eq_segmentCost, SegHeuristic_eq_segmentCost, segmentCost_eq_segAfter,
    segmentCost_eq_segAfter, longTimeOf_congr env (walkUp n []) R R' hlen hlens]
  obtain ⟨_, _, _, _, _, _, hle, _⟩ := segAfter_mono env (walkUp n []) R R' hlen hov
    (longTimeOf env (walkUp n []) R' + 1)
  exact_mod_cast hle
/-- Witness of C12: the first of two agents is planned along (0,0), (1,0); the
second rests on (3,3) in `R` and moves from (3,3) onto (1,0) in `R'`. -/
theorem SegHeuristic_monotone_witness :
    SegHeuristic (Environment.new 5 5 [] [⟨2, 2⟩, ⟨1, 1⟩])
        (Node.mk ⟨1, 1, 0⟩ 0 1 (some (Node.mk ⟨0, 0, 0⟩ 0 0 none)))
        [[], [⟨0, 3, 3⟩, ⟨1, 3, 3⟩]] ≤
      SegHeuristic (Environment.new 5 5 [] [⟨2, 2⟩, ⟨1, 1⟩])
        (Node.mk ⟨1, 1, 0⟩ 0 1 (some (Node.mk ⟨0, 0, 0⟩ 0 0 none)))
        [[], [⟨0, 3, 3⟩, ⟨1, 1, 0⟩]] :=
  SegHeuristic_monotone (Environment.new 5 5 [] [⟨2, 2⟩, ⟨1, 1⟩])
    (Node.mk ⟨1, 1, 0⟩ 0 1 (some (Node.mk ⟨0, 0, 0⟩ 0 0 none)))
    [[], [⟨0, 3, 3⟩, ⟨1, 3, 3⟩]] [[], [⟨0, 3, 3⟩, ⟨1, 1, 0⟩]] rfl
    (by
      intro a
      rcases a with _ | _ | a <;> simp)
    (by
      intro a b i j sa sb hne ha hb hi hj hsame
      exfalso
      have ha' : a < 2 := ha
      have hb' : b < 2 := hb
      have hma := List.getElem?_mem hi
      have hmb := List.getElem?_mem hj
      interval_cases a <;> interval_cases b <;>
        simp [agentPath, Environment.getAgent, Environment.new, walkUp] at hma hmb hne <;>
        rcases hma with h | h <;> rcases hmb with h' | h' <;> subst h <;> subst h' <;>
        simp at hsame)

/-! ## The cost tags -/

theorem foldl_writes {X : Type} (xs : List X) (g : (Ref → StateObj) → X → (Ref → StateObj))
    (v : Int) (H : X → Ref → Prop)
    (hg : ∀ m x q, (H x q → g m x q = { m q with cost := v }) ∧ (¬ H x q → g m x q = m q)) :
    ∀ m q, ((∃ x ∈ xs, H x q) → xs.foldl g m q = { m q with cost := v }) ∧
      (¬ (∃ x ∈ xs, H x q) → xs.foldl g m q = m q) := by
  induction xs with
  | nil =>
    intro m q
    exact ⟨fun ⟨x, hx, _⟩ => absurd hx (List.not_mem_nil x), fun _ => rfl⟩
  | cons x rest ih =>
    intro m q
    rw [List.foldl_cons]
    obtain ⟨ih1, ih2⟩ := ih (g m x) q
    obtain ⟨hg1, hg2⟩ := hg m x q
    by_cases hrest : ∃ y ∈ rest, H y q
    · refine ⟨fun _ => ?_, fun hn => ?_⟩
      · rw [ih1 hrest]
        by_cases hx : H x q
        · rw [hg1 hx]
        · rw [hg2 hx]
      · obtain ⟨y, hy, hH⟩ := hrest
        exact absurd ⟨y, List.mem_cons_of_mem _ hy, hH⟩ hn
    · rw [ih2 hrest]
      refine ⟨fun ⟨y, hy, hH⟩ => ?_, fun hn => ?_⟩
      · rcases List.mem_cons.mp hy with h | h
        · subst h; exact hg1 hH
        · exact absurd ⟨y, h, hH⟩ hrest
      · exact hg2 (fun hH => hn ⟨x, List.mem_cons_self _ _, hH⟩)

theorem writeCosts_spec (env : Environment) (currPathSeg : List Ref)
    (otherSols : List (List Ref)) (lo hi : Nat) (v : Int) (mem : Ref → StateObj) (q : Ref) :
    ((∃ a t, a < otherSols.length ∧ (lo ≤ t ∧ t < hi) ∧
        (agentRefs env currPathSeg otherSols a)[t]? = some q) →
      writeCosts env currPathSeg otherSols lo hi v mem q = { mem q with cost := v }) ∧
    (¬ (∃ a t, a < otherSols.length ∧ (lo ≤ t ∧ t < hi) ∧
        (agentRefs env currPathSeg otherSols a)[t]? = some q) →
      writeCosts env currPathSeg otherSols lo hi v mem q = mem q) := by
  have inner : ∀ (a : Nat) (m : Ref → StateObj) (q : Ref),
      ((∃ t ∈ List.range' lo (hi - lo),
          (agentRefs env currPathSeg otherSols a)[t]? = some q) →
        (List.range' lo (hi - lo)).foldl
          (fun m2 t =>
            match (agentRefs env currPathSeg otherSols a)[t]? with
            | some p => setCost m2 p v
            | none => m2) m q = { m q with cost := v }) ∧
      (¬ (∃ t ∈ List.range' lo (hi - lo),
          (agentRefs env currPathSeg otherSols a)[t]? = some q) →
        (List.range' lo (hi - lo)).foldl
          (fun m2 t =>
            match (agentRefs env currPathSeg otherSols a)[t]? with
            | some p => setCost m2 p v
            | none => m2) m q = m q) := by
    intro a
    refine foldl_writes (List.range' lo (hi - lo)) _ v
      (fun t q => (agentRefs env currPathSeg otherSols a)[t]? = some q) ?_
    intro m t q
    simp only
    constructor
    · intro h
      rw [h]
      simp [setCost]
    · intro h
      cases hp : (agentRefs env currPathSeg otherSols a)[t]? with
      | none => rfl
      | some p =>
        have hne : q ≠ p := by
          intro e
          rw [hp, e] at h
          exact h rfl
        simp [setCost, hne]
  have outer := foldl_writes (List.range otherSols.length)
    (fun m a =>
      (List.range' lo (hi - lo)).foldl
        (fun m2 t =>
          match (agentRefs env currPathSeg otherSols a)[t]? with
          | some p => setCost m2 p v
          | none => m2) m) v
    (fun a q => ∃ t ∈ List.range' lo (hi - lo),
      (agentRefs env currPathSeg otherSols a)[t]? = some q)
    (fun m a q => inner a m q) mem q
  have hiff : (∃ a ∈ List.range otherSols.length, ∃ t ∈ List.range' lo (hi - lo),
        (agentRefs env currPathSeg otherSols a)[t]? = some q) ↔
      (∃ a t, a < otherSols.length ∧ (lo ≤ t ∧ t < hi) ∧
        (agentRefs env currPathSeg otherSols a)[t]? = some q) := by
    constructor
    · rintro ⟨a, ha, t, ht, h⟩
      rw [List.mem_range'_1] at ht
      exact ⟨a, t, List.mem_range.mp ha, ⟨ht.1, by omega⟩, h⟩
    · rintro ⟨a, t, ha, ht, h⟩
      exact ⟨a, List.mem_range.mpr ha, t, List.mem_range'_1.mpr ⟨ht.1, by omega⟩, h⟩
  unfold writeCosts
  rw [← hiff]
  exact outer

theorem writeCosts_toState (env : Environment) (currPathSeg : List Ref)
    (otherSols : List (List Ref)) (lo hi : Nat) (v : Int) (mem : Ref → StateObj) (q : Ref) :
    (writeCosts env currPathSeg otherSols lo hi v mem q).toState = (mem q).toState := by
  obtain ⟨h1, h2⟩ := writeCosts_spec env currPathSeg otherSols lo hi v mem q
  by_cases h : ∃ a t, a < otherSols.length ∧ (lo ≤ t ∧ t < hi) ∧
      (agentRefs env currPathSeg otherSols a)[t]? = some q
  · rw [h1 h]; rfl
  · rw [h2 h]

theorem foldl_rel {σ τ α : Type} (Rl : σ → τ → Prop) (g : σ → α → σ) (g' : τ → α → τ)
    (l : List α) (hstep : ∀ s s' a, a ∈ l → Rl s s' → Rl (g s a) (g' s' a)) :
    ∀ s s', Rl s s' → Rl (l.foldl g s) (l.foldl g' s') := by
  induction l with
  | nil => intro s s' h; exact h
  | cons a rest ih =>
    intro s s' h
    rw [List.foldl_cons, List.foldl_cons]
    exact ih (fun s s' b hb => hstep s s' b (List.mem_cons_of_mem _ hb)) _ _
      (hstep s s' a (List.mem_cons_self _ _) h)

theorem derefPath_eq_map (mem : Ref → StateObj) (pos : Ref → State)
    (hpos : ∀ r, (mem r).toState = pos r) (p : List Ref) :
    derefPath mem p = p.map pos := by
  unfold derefPath
  exact List.map_congr_left (fun r _ => hpos r)

theorem agentPath_map (env : Environment) (pos : Ref → State) (currPathSeg : List Ref)
    (otherSols : List (List Ref)) (a : Nat) :
    agentPath env (currPathSeg.map pos) (otherSols.map (List.map pos)) a
      = (agentRefs env currPathSeg otherSols a).map pos := by
  unfold agentPath agentRefs
  by_cases h : a = env.getAgent
  · rw [if_pos h, if_pos h]
  · rw [if_neg h, if_neg h]
    exact List.getD_map otherSols [] (List.map pos)

theorem longTimeRefs_eq (env : Environment) (pos : Ref → State) (currPathSeg : List Ref)
    (otherSols : List (List Ref)) :
    longTimeRefs env currPathSeg otherSols
      = longTimeOf env (currPathSeg.map pos) (otherSols.map (List.map pos)) := by
  unfold longTimeRefs longTimeOf
  simp only [List.length_map, agentPath_map]

theorem map_modify_append (pos : Ref → State) (av : List (List Ref)) (a : Nat) (p : Ref) :
    (av.modify (fun visited => visited ++ [p]) a).map (List.map pos)
      = (av.map (List.map pos)).modify (fun visited => visited ++ [pos p]) a := by
  apply List.ext_getElem?
  intro i
  rw [List.getElem?_map, List.getElem?_modify, List.getElem?_modify, List.getElem?_map]
  cases av[i]? with
  | none => rfl
  | some v =>
    by_cases h : a = i
    · simp [h]
    · simp [h]

theorem recordVisitedRefs_map (env : Environment) (pos : Ref → State)
    (currPathSeg : List Ref) (otherSols : List (List Ref)) (currTime : Nat)
    (av : List (List Ref)) :
    (recordVisitedRefs env currPathSeg otherSols currTime av).map (List.map pos)
      = recordVisited env (currPathSeg.map pos) (otherSols.map (List.map pos)) currTime
          (av.map (List.map pos)) := by
  unfold recordVisitedRefs recordVisited
  rw [List.length_map]
  refine foldl_rel (fun (s : List (List Ref)) (s' : List (List State)) =>
    s.map (List.map pos) = s') _ _ (List.range otherSols.length) ?_ av _ rfl
  intro s s' a _ hs
  subst hs
  simp only [agentPath_map, List.getElem?_map]
  cases (agentRefs env currPathSeg otherSols a)[currTime]? with
  | none => rfl
  | some p => exact map_modify_append pos s a p

theorem foldl_set_nil_map (pos : Ref → State) (m : Nat) (av : List (List Ref)) :
    ((List.range m).foldl (fun av a => av.set a []) av).map (List.map pos)
      = (List.range m).foldl (fun av a => av.set a []) (av.map (List.map pos)) := by
  refine foldl_rel (fun (s : List (List Ref)) (s' : List (List State)) =>
    s.map (List.map pos) = s') _ _ (List.range m) ?_ av _ rfl
  intro s s' a _ hs
  subst hs
  rw [List.map_set]
  rfl

theorem checkPairRefs_view (env : Environment) (pos : Ref → State)
    (currPathSeg : List Ref) (otherSols : List (List Ref)) (currTime : Nat)
    (run : SegRun) (a1 a2 : Nat) (hpos : ∀ r, (run.mem r).toState = pos r) :
    (checkPairRefs env currPathSeg otherSols currTime run a1 a2).view pos
        = checkPair (otherSols.map (List.map pos)) currTime (run.view pos) a1 a2 ∧
      ∀ r, ((checkPairRefs env currPathSeg otherSols currTime run a1 a2).mem r).toState
        = pos r := by
  unfold checkPairRefs checkPair
  have hd : ∀ a, derefPath run.mem (run.agentVisited.getD a [])
      = (run.view pos).agentVisited.getD a [] := by
    intro a
    rw [derefPath_eq_map run.mem pos hpos]
    exact (List.getD_map run.agentVisited [] (List.map pos)).symm
  by_cases h : a1 ≠ a2
  · rw [if_pos h, if_pos h]
    simp only [hd]
    cases is_disjoint ((run.view pos).agentVisited.getD a1 [])
        ((run.view pos).agentVisited.getD a2 [])
    · simp only [Bool.not_false, if_true, List.length_map]
      refine ⟨?_, ?_⟩
      · simp only [SegRun.view, foldl_set_nil_map]
      · intro r
        rw [writeCosts_toState]
        exact hpos r
    · simp only [Bool.not_true, Bool.false_eq_true, if_false]
      exact ⟨trivial, hpos⟩
  · rw [if_neg h, if_neg h]
    exact ⟨rfl, hpos⟩

theorem segmentStepRefs_view (env : Environment) (pos : Ref → State)
    (currPathSeg : List Ref) (otherSols : List (List Ref)) (run : SegRun) (currTime : Nat)
    (hpos : ∀ r, (run.mem r).toState = pos r) :
    (segmentStepRefs env currPathSeg otherSols run currTime).view pos
        = segmentStep env (currPathSeg.map pos) (otherSols.map (List.map pos))
            (run.view pos) currTime ∧
      ∀ r, ((segmentStepRefs env currPathSeg otherSols run currTime).mem r).toState
        = pos r := by
  unfold segmentStepRefs segmentStep checkPairsRefs checkPairs
  rw [List.length_map]
  refine foldl_rel (fun (s : SegRun) (s' : SegState) =>
    s.view pos = s' ∧ ∀ r, (s.mem r).toState = pos r) _ _ (List.range otherSols.length) ?_
    _ _ ⟨?_, hpos⟩
  · intro s s' a1 _ hs
    refine foldl_rel (fun (s : SegRun) (s' : SegState) =>
      s.view pos = s' ∧ ∀ r, (s.mem r).toState = pos r) _ _ (List.range otherSols.length) ?_
      _ _ hs
    rintro t t' a2 _ ⟨ht, htp⟩
    subst ht
    exact checkPairRefs_view env pos currPathSeg otherSols currTime t a1 a2 htp
  · simp only [SegRun.view, recordVisitedRefs_map]

theorem runAfter_view (env : Environment) (currPathSeg : List Ref)
    (otherSols : List (List Ref)) (mem : Ref → StateObj) (k : Nat) :
    (runAfter env currPathSeg otherSols mem k).view (fun r => (mem r).toState)
        = segAfter env (derefPath mem currPathSeg) (otherSols.map (derefPath mem)) k ∧
      ∀ r, ((runAfter env currPathSeg otherSols mem k).mem r).toState = (mem r).toState := by
  unfold runAfter segAfter
  refine foldl_rel (fun (s : SegRun) (s' : SegState) =>
    s.view (fun r => (mem r).toState) = s' ∧ ∀ r, (s.mem r).toState = (mem r).toState)
    _ _ (List.range k) ?_ _ _ ⟨?_, ?_⟩
  · rintro s s' t _ ⟨hs, hsp⟩
    subst hs
    exact segmentStepRefs_view env (fun r => (mem r).toState) currPathSeg otherSols s t hsp
  · simp [SegRun.view]
  · intro r
    simp only
    rw [writeCosts_toState]

theorem SegHeuristicMem_value (env : Environment) (currPathSeg : List Ref)
    (otherSols : List (List Ref)) (mem : Ref → StateObj) :
    (SegHeuristicMem env currPathSeg otherSols mem).1
      = segmentCost env (derefPath mem currPathSeg) (otherSols.map (derefPath mem)) := by
  rw [segmentCost_eq_segAfter]
  unfold SegHeuristicMem
  simp only
  rw [longTimeRefs_eq env (fun r => (mem r).toState)]
  have h := (runAfter_view env currPathSeg otherSols mem
    (longTimeOf env (List.map (fun r => (mem r).toState) currPathSeg)
      (List.map (List.map (fun r => (mem r).toState)) otherSols) + 1)).1
  have hc := congrArg SegState.currCost h
  simp only [SegRun.view] at hc
  rw [hc]
  rfl

theorem SegHeuristicMem_toState (env : Environment) (currPathSeg : List Ref)
    (otherSols : List (List Ref)) (mem : Ref → StateObj) (q : Ref) :
    ((SegHeuristicMem env currPathSeg otherSols mem).2 q).toState = (mem q).toState := by
  unfold SegHeuristicMem
  simp only
  rw [writeCosts_toState]
  exact (runAfter_view env currPathSeg otherSols mem _).2 q

theorem foldl_set_nil_refs_getD (m : Nat) (av : List (List Ref)) (a : Nat) (ha : a < m) :
    ((List.range m).foldl (fun av a => av.set a []) av).getD a [] = [] := by
  induction m with
  | zero => omega
  | succ m ih =>
    rw [List.range_succ, List.foldl_append, List.foldl_cons, List.foldl_nil,
      List.getD_eq_getElem?_getD, List.getElem?_set]
    by_cases h : m = a
    · rw [if_pos h]
      split <;> rfl
    · rw [if_neg h, ← List.getD_eq_getElem?_getD]
      exact ih (by omega)

theorem checkPairRefs_eq (env : Environment) (currPathSeg : List Ref)
    (otherSols : List (List Ref)) (currTime : Nat) (run : SegRun) (a1 a2 : Nat) :
    ((a1 ≠ a2 ∧ is_disjoint (derefPath run.mem (run.agentVisited.getD a1 []))
        (derefPath run.mem (run.agentVisited.getD a2 [])) = false) →
      checkPairRefs env currPathSeg otherSols currTime run a1 a2
        = bumpRun env currPathSeg otherSols currTime run) ∧
    (¬ (a1 ≠ a2 ∧ is_disjoint (derefPath run.mem (run.agentVisited.getD a1 []))
        (derefPath run.mem (run.agentVisited.getD a2 [])) = false) →
      checkPairRefs env currPathSeg otherSols currTime run a1 a2 = run) := by
  unfold checkPairRefs
  by_cases h : a1 ≠ a2
  · cases hd : is_disjoint (derefPath run.mem (run.agentVisited.getD a1 []))
        (derefPath run.mem (run.agentVisited.getD a2 []))
    · simp [h, bumpRun]
    · simp [h]
  · simp [h]

theorem checkPairsRefs_cases (env : Environment) (currPathSeg : List Ref)
    (otherSols : List (List Ref)) (currTime : Nat) (run : SegRun) :
    checkPairsRefs env currPathSeg otherSols currTime run = run ∨
    checkPairsRefs env currPathSeg otherSols currTime run
      = bumpRun env currPathSeg otherSols currTime run := by
  have hstable : ∀ (s : SegRun) (a1 a2 : Nat), a2 ∈ List.range otherSols.length →
      ¬ (a1 ≠ a2 ∧ is_disjoint
        (derefPath (bumpRun env currPathSeg otherSols currTime s).mem
          ((bumpRun env currPathSeg otherSols currTime s).agentVisited.getD a1 []))
        (derefPath (bumpRun env currPathSeg otherSols currTime s).mem
          ((bumpRun env currPathSeg otherSols currTime s).agentVisited.getD a2 [])) = false) := by
    rintro s a1 a2 ha2 ⟨_, hd⟩
    have : (bumpRun env currPathSeg otherSols currTime s).agentVisited.getD a2 [] = [] :=
      foldl_set_nil_refs_getD _ _ a2 (List.mem_range.mp ha2)
    rw [this] at hd
    simp only [derefPath, List.map_nil, is_disjoint_nil_right] at hd
    exact absurd hd (by simp)
  have inner : ∀ (a1 : Nat) (s : SegRun),
      ((List.range otherSols.length).foldl
          (fun run2 a2 => checkPairRefs env currPathSeg otherSols currTime run2 a1 a2) s = s ∧
        ∀ a2 ∈ List.range otherSols.length,
          ¬ (a1 ≠ a2 ∧ is_disjoint (derefPath s.mem (s.agentVisited.getD a1 []))
            (derefPath s.mem (s.agentVisited.getD a2 [])) = false)) ∨
      ((List.range otherSols.length).foldl
          (fun run2 a2 => checkPairRefs env currPathSeg otherSols currTime run2 a1 a2) s
          = bumpRun env currPathSeg otherSols currTime s ∧
        ∃ a2 ∈ List.range otherSols.length,
          (a1 ≠ a2 ∧ is_disjoint (derefPath s.mem (s.agentVisited.getD a1 []))
            (derefPath s.mem (s.agentVisited.getD a2 [])) = false)) := by
    intro a1
    exact foldl_bump (List.range otherSols.length)
      (fun run2 a2 => checkPairRefs env currPathSeg otherSols currTime run2 a1 a2)
      (fun s a2 => a1 ≠ a2 ∧ is_disjoint (derefPath s.mem (s.agentVisited.getD a1 []))
        (derefPath s.mem (s.agentVisited.getD a2 [])) = false)
      (bumpRun env currPathSeg otherSols currTime)
      (fun s a2 _ => checkPairRefs_eq env currPathSeg otherSols currTime s a1 a2)
      (fun s a2 ha2 => hstable s a1 a2 ha2)
  unfold checkPairsRefs
  have outer := foldl_bump (List.range otherSols.length)
    (fun run1 a1 => (List.range otherSols.length).foldl
      (fun run2 a2 => checkPairRefs env currPathSeg otherSols currTime run2 a1 a2) run1)
    (fun s a1 => ∃ a2 ∈ List.range otherSols.length,
      (a1 ≠ a2 ∧ is_disjoint (derefPath s.mem (s.agentVisited.getD a1 []))
        (derefPath s.mem (s.agentVisited.getD a2 [])) = false))
    (bumpRun env currPathSeg otherSols currTime)
    (by
      intro s a1 _
      rcases inner a1 s with ⟨h1, h2⟩ | ⟨h1, h2⟩
      · exact ⟨fun ⟨a2, ha2, hc⟩ => absurd hc (h2 a2 ha2), fun _ => h1⟩
      · exact ⟨fun _ => h1, fun hn => absurd h2 hn⟩)
    (by
      rintro s a1 _ ⟨a2, ha2, hc⟩
      exact hstable s a1 a2 ha2 hc)
    run
  rcases outer with ⟨h1, _⟩ | ⟨h1, _⟩
  · exact Or.inl h1
  · exact Or.inr h1

theorem runAfter_succ (env : Environment) (currPathSeg : List Ref)
    (otherSols : List (List Ref)) (mem : Ref → StateObj) (k : Nat) :
    runAfter env currPathSeg otherSols mem (k + 1) =
      segmentStepRefs env currPathSeg otherSols (runAfter env currPathSeg otherSols mem k) k := by
  unfold runAfter
  rw [List.range_succ, List.foldl_append, List.foldl_cons, List.foldl_nil]

theorem runAfter_succ_cases (env : Environment) (currPathSeg : List Ref)
    (otherSols : List (List Ref)) (mem : Ref → StateObj) (k : Nat) :
    ((runAfter env currPathSeg otherSols mem (k + 1)).currCost
        = (runAfter env currPathSeg otherSols mem k).currCost ∧
      (runAfter env currPathSeg otherSols mem (k + 1)).lastSegmentTime
        = (runAfter env currPathSeg otherSols mem k).lastSegmentTime ∧
      (runAfter env currPathSeg otherSols mem (k + 1)).mem
        = (runAfter env currPathSeg otherSols mem k).mem) ∨
    ((runAfter env currPathSeg otherSols mem (k + 1)).currCost
        = (runAfter env currPathSeg otherSols mem k).currCost + 1 ∧
      (runAfter env currPathSeg otherSols mem (k + 1)).lastSegmentTime = k ∧
      (runAfter env currPathSeg otherSols mem (k + 1)).mem
        = writeCosts env currPathSeg otherSols
            (runAfter env currPathSeg otherSols mem k).lastSegmentTime k
            (runAfter env currPathSeg otherSols mem k).currCost
            (runAfter env currPathSeg otherSols mem k).mem) := by
  rw [runAfter_succ]
  unfold segmentStepRefs
  rcases checkPairsRefs_cases env currPathSeg otherSols k
    { runAfter env currPathSeg otherSols mem k with
      agentVisited := recordVisitedRefs env currPathSeg otherSols k
        (runAfter env currPathSeg otherSols mem k).agentVisited } with h | h
  · left; rw [h]; exact ⟨rfl, rfl, rfl⟩
  · right; rw [h]; exact ⟨rfl, rfl, rfl⟩

theorem longTimeRefs_ge (env : Environment) (currPathSeg : List Ref)
    (otherSols : List (List Ref)) (a : Nat) (ha : a < otherSols.length) :
    (agentRefs env currPathSeg otherSols a).length ≤ longTimeRefs env currPathSeg otherSols := by
  rw [longTimeRefs_eq env (fun _ => (⟨0, 0, 0⟩ : State))]
  have h := longTimeOf_ge env (currPathSeg.map (fun _ => (⟨0, 0, 0⟩ : State)))
    (otherSols.map (List.map (fun _ => (⟨0, 0, 0⟩ : State)))) a (by simpa using ha)
  rw [agentPath_map, List.length_map] at h
  exact h

theorem runAfter_currCost_mono (env : Environment) (currPathSeg : List Ref)
    (otherSols : List (List Ref)) (mem : Ref → StateObj) (k k' : Nat) (h : k ≤ k') :
    (runAfter env currPathSeg otherSols mem k).currCost
      ≤ (runAfter env currPathSeg otherSols mem k').currCost := by
  induction k' with
  | zero =>
    have : k = 0 := by omega
    rw [this]
  | succ k' ih =>
    by_cases hk : k = k' + 1
    · rw [hk]
    · have h1 := ih (by omega)
      rcases runAfter_succ_cases env currPathSeg otherSols mem k' with ⟨h2, _⟩ | ⟨h2, _⟩ <;>
        omega

theorem runAfter_currCost_pos (env : Environment) (currPathSeg : List Ref)
    (otherSols : List (List Ref)) (mem : Ref → StateObj) (k : Nat) :
    1 ≤ (runAfter env currPathSeg otherSols mem k).currCost :=
  runAfter_currCost_mono env currPathSeg otherSols mem 0 k (Nat.zero_le _)

theorem runAfter_currCost_count (env : Environment) (currPathSeg : List Ref)
    (otherSols : List (List Ref)) (mem : Ref → StateObj) (k : Nat) :
    (runAfter env currPathSeg otherSols mem k).currCost
      = 1 + ((List.range k).filter (boundaryAt env currPathSeg otherSols mem)).length := by
  induction k with
  | zero => rfl
  | succ k ih =>
    rw [List.range_succ, List.filter_append, List.length_append]
    rcases runAfter_succ_cases env currPathSeg otherSols mem k with ⟨h, _⟩ | ⟨h, _⟩
    · have hb : boundaryAt env currPathSeg otherSols mem k = false := by
        simp [boundaryAt, h]
      simp only [List.filter_cons, hb, List.filter_nil, List.length_nil]
      simp only [Bool.false_eq_true, if_false, List.length_nil]
      omega
    · have hb : boundaryAt env currPathSeg otherSols mem k = true := by
        simp [boundaryAt, h]
      simp only [List.filter_cons, hb, List.filter_nil, if_true, List.length_singleton]
      omega

theorem runAfter_tags (env : Environment) (currPathSeg : List Ref)
    (otherSols : List (List Ref)) (mem : Ref → StateObj)
    (hdist : ∀ (a a' t t' : Nat) (p : Ref), a < otherSols.length → a' < otherSols.length →
      (agentRefs env currPathSeg otherSols a)[t]? = some p →
      (agentRefs env currPathSeg otherSols a')[t']? = some p → t = t') (k : Nat) :
    (runAfter env currPathSeg otherSols mem k).lastSegmentTime ≤ k ∧
    (∀ t, (runAfter env currPathSeg otherSols mem k).lastSegmentTime ≤ t → t < k →
      (runAfter env currPathSeg otherSols mem (t + 1)).currCost
        = (runAfter env currPathSeg otherSols mem k).currCost) ∧
    (∀ (a t : Nat) (p : Ref), a < otherSols.length →
      t < (runAfter env currPathSeg otherSols mem k).lastSegmentTime →
      (agentRefs env currPathSeg otherSols a)[t]? = some p →
      ((runAfter env currPathSeg otherSols mem k).mem p).cost
        = ((runAfter env currPathSeg otherSols mem (t + 1)).currCost : Int)) := by
  induction k with
  | zero =>
    refine ⟨le_refl _, ?_, ?_⟩
    · intro t _ ht; omega
    · intro a t p _ ht _
      have : (runAfter env currPathSeg otherSols mem 0).lastSegmentTime = 0 := rfl
      omega
  | succ k ih =>
    obtain ⟨ih1, ih2, ih3⟩ := ih
    rcases runAfter_succ_cases env currPathSeg otherSols mem k with ⟨h1, h2, h3⟩ | ⟨h1, h2, h3⟩
    · refine ⟨by omega, ?_, ?_⟩
      · intro t hLt ht
        rw [h2] at hLt
        by_cases htk : t = k
        · rw [htk]
        · rw [h1]; exact ih2 t hLt (by omega)
      · intro a t p ha ht hp
        rw [h2] at ht
        rw [h3]
        exact ih3 a t p ha ht hp
    · refine ⟨by omega, ?_, ?_⟩
      · intro t hLt ht
        rw [h2] at hLt
        have : t = k := by omega
        rw [this]
      · intro a t p ha ht hp
        rw [h2] at ht
        rw [h3]
        obtain ⟨hw1, hw2⟩ := writeCosts_spec env currPathSeg otherSols
          (runAfter env currPathSeg otherSols mem k).lastSegmentTime k
          ((runAfter env currPathSeg otherSols mem k).currCost : Int)
          (runAfter env currPathSeg otherSols mem k).mem p
        by_cases hL : (runAfter env currPathSeg otherSols mem k).lastSegmentTime ≤ t
        · rw [hw1 ⟨a, t, ha, ⟨hL, ht⟩, hp⟩]
          simp only
          rw [ih2 t hL ht]
        · have hnot : ¬ ∃ a' t', a' < otherSols.length ∧
              ((runAfter env currPathSeg otherSols mem k).lastSegmentTime ≤ t' ∧ t' < k) ∧
              (agentRefs env currPathSeg otherSols a')[t']? = some p := by
            rintro ⟨a', t', ha', ⟨hL', _⟩, hp'⟩
            have := hdist a a' t t' p ha ha' hp hp'
            omega
          rw [hw2 hnot]
          exact ih3 a t p ha (by omega) hp

theorem SegHeuristicMem_tag (env : Environment) (currPathSeg : List Ref)
    (otherSols : List (List Ref)) (mem : Ref → StateObj)
    (hdist : ∀ (a a' t t' : Nat) (p : Ref), a < otherSols.length → a' < otherSols.length →
      (agentRefs env currPathSeg otherSols a)[t]? = some p →
      (agentRefs env currPathSeg otherSols a')[t']? = some p → t = t')
    (a t : Nat) (p : Ref) (ha : a < otherSols.length)
    (hp : (agentRefs env currPathSeg otherSols a)[t]? = some p) :
    ((SegHeuristicMem env currPathSeg otherSols mem).2 p).cost
      = ((runAfter env currPathSeg otherSols mem (t + 1)).currCost : Int) := by
  have hlen : t < (agentRefs env currPathSeg otherSols a).length :=
    (List.getElem?_eq_some.mp hp).1
  have hlong := longTimeRefs_ge env currPathSeg otherSols a ha
  obtain ⟨_, inv2, inv3⟩ := runAfter_tags env currPathSeg otherSols mem hdist
    (longTimeRefs env currPathSeg otherSols + 1)
  unfold SegHeuristicMem
  simp only
  obtain ⟨hw1, hw2⟩ := writeCosts_spec env currPathSeg otherSols
    (runAfter env currPathSeg otherSols mem
      (longTimeRefs env currPathSeg otherSols + 1)).lastSegmentTime
    (longTimeRefs env currPathSeg otherSols + 1)
    ((runAfter env currPathSeg otherSols mem
      (longTimeRefs env currPathSeg otherSols + 1)).currCost : Int)
    (runAfter env currPathSeg otherSols mem (longTimeRefs env currPathSeg otherSols + 1)).mem p
  by_cases hL : (runAfter env currPathSeg otherSols mem
      (longTimeRefs env currPathSeg otherSols + 1)).lastSegmentTime ≤ t
  · rw [hw1 ⟨a, t, ha, ⟨hL, by omega⟩, hp⟩]
    simp only
    rw [inv2 t hL (by omega)]
  · have hnot : ¬ ∃ a' t', a' < otherSols.length ∧
        ((runAfter env currPathSeg otherSols mem
          (longTimeRefs env currPathSeg otherSols + 1)).lastSegmentTime ≤ t' ∧
          t' < longTimeRefs env currPathSeg otherSols + 1) ∧
        (agentRefs env currPathSeg otherSols a')[t']? = some p := by
      rintro ⟨a', t', ha', ⟨hL', _⟩, hp'⟩
      have := hdist a a' t t' p ha ha' hp hp'
      omega
    rw [hw2 hnot]
    exact inv3 a t p ha (by omega) hp

theorem positions_distinct (f : Nat → List Ref) (n : Nat)
    (hnd : ((List.range n).flatMap f).Nodup) :
    ∀ (a a' t t' : Nat) (p : Ref), a < n → a' < n →
      (f a)[t]? = some p → (f a')[t']? = some p → t = t' := by
  rw [List.nodup_flatMap] at hnd
  obtain ⟨h1, h2⟩ := hnd
  intro a a' t t' p ha ha' hp hp'
  by_cases haa : a = a'
  · subst haa
    obtain ⟨ht, e⟩ := List.getElem?_eq_some.mp hp
    obtain ⟨ht', e'⟩ := List.getElem?_eq_some.mp hp'
    exact (List.Nodup.getElem_inj_iff (h1 a (List.mem_range.mpr ha))).mp (e.trans e'.symm)
  · exfalso
    have hsymm : Symmetric (List.Disjoint on f) := by
      intro x y hxy
      exact List.Disjoint.symm hxy
    have hdis := List.Pairwise.forall hsymm h2 (List.mem_range.mpr ha) (List.mem_range.mpr ha') haa
    exact hdis (List.getElem?_mem hp) (List.getElem?_mem hp')

/-- C18: when no state object stands at two places of the agents' paths (the
candidate path standing in for the agent being planned), then after
`SegHeuristic` the cost tag of the state at timestep `t` of every agent's path
is 1 plus the number of rounds `u <= t` that created a boundary; so the tag is
between 1 and the value returned, does not decrease along a path, is the same
for all agents at the same timestep, and is the value returned from the last
boundary onward. -/
theorem cost_tags_count_boundaries (env : Environment) (currPathSeg : List Ref)
    (otherSols : List (List Ref)) (mem : Ref → StateObj)
    (hnodup : ((List.range otherSols.length).flatMap
      (agentRefs env currPathSeg otherSols)).Nodup)
    (a t : Nat) (p : Ref) (ha : a < otherSols.length)
    (hp : (agentRefs env currPathSeg otherSols a)[t]? = some p) :
    ((SegHeuristicMem env currPathSeg otherSols mem).2 p).cost
        = 1 + (((List.range (t + 1)).filter
            (boundaryAt env currPathSeg otherSols mem)).length : Int) ∧
      1 ≤ ((SegHeuristicMem env currPathSeg otherSols mem).2 p).cost ∧
      ((SegHeuristicMem env currPathSeg otherSols mem).2 p).cost
        ≤ (SegHeuristicMem env currPathSeg otherSols mem).1 ∧
      (∀ (t' : Nat) (p' : Ref), t ≤ t' →
        (agentRefs env currPathSeg otherSols a)[t']? = some p' →
        ((SegHeuristicMem env currPathSeg otherSols mem).2 p).cost
          ≤ ((SegHeuristicMem env currPathSeg otherSols mem).2 p').cost) ∧
      (∀ (a' : Nat) (p' : Ref), a' < otherSols.length →
        (agentRefs env currPathSeg otherSols a')[t]? = some p' →
        ((SegHeuristicMem env currPathSeg otherSols mem).2 p').cost
          = ((SegHeuristicMem env currPathSeg otherSols mem).2 p).cost) ∧
      ((runAfter env currPathSeg otherSols mem
          (longTimeRefs env currPathSeg otherSols + 1)).lastSegmentTime ≤ t →
        ((SegHeuristicMem env currPathSeg otherSols mem).2 p).cost
          = (SegHeuristicMem env currPathSeg otherSols mem).1) := by
  have hdist := positions_distinct (agentRefs env currPathSeg otherSols) otherSols.length hnodup
  have htag := SegHeuristicMem_tag env currPathSeg otherSols mem hdist
  have hlen : t < (agentRefs env currPathSeg otherSols a).length :=
    (List.getElem?_eq_some.mp hp).1
  have hlong := longTimeRefs_ge env currPathSeg otherSols a ha
  have hval : (SegHeuristicMem env currPathSeg otherSols mem).1
      = ((runAfter env currPathSeg otherSols mem
          (longTimeRefs env currPathSeg otherSols + 1)).currCost : Int) := rfl
  rw [htag a t p ha hp, hval]
  refine ⟨?_, ?_, ?_, ?_, ?_, ?_⟩
  · rw [runAfter_currCost_count]
    push_cast
    rfl
  · exact_mod_cast runAfter_currCost_pos env currPathSeg otherSols mem (t + 1)
  · exact_mod_cast runAfter_currCost_mono env currPathSeg otherSols mem (t + 1)
      (longTimeRefs env currPathSeg otherSols + 1) (by omega)
  · intro t' p' htt' hp'
    rw [htag a t' p' ha hp']
    exact_mod_cast runAfter_currCost_mono env currPathSeg otherSols mem (t + 1) (t' + 1)
      (by omega)
  · intro a' p' ha' hp'
    rw [htag a' t p' ha' hp']
  · intro hL
    have := (runAfter_tags env currPathSeg otherSols mem hdist
      (longTimeRefs env currPathSeg otherSols + 1)).2.1 t hL (by omega)
    rw [this]

set_option maxRecDepth 100000 in
/-- Witness of C18: the first of two agents with the candidate path (0,0),
(1,0), the second on (5,5), (5,5), (5,5), (1,0); the only boundary is created
in round 3, and the state of the second agent at timestep 3 gets the tag 2. -/
theorem cost_tags_count_boundaries_witness :
    ((SegHeuristicMem (Environment.new 5 5 [] [⟨2, 2⟩, ⟨3, 3⟩]) [.caller 0, .caller 1]
        [[], [.caller 10, .caller 11, .caller 12, .caller 13]] exampleMem).2
          (.caller 13)).cost
      = 1 + (((List.range (3 + 1)).filter
          (boundaryAt (Environment.new 5 5 [] [⟨2, 2⟩, ⟨3, 3⟩]) [.caller 0, .caller 1]
            [[], [.caller 10, .caller 11, .caller 12, .caller 13]] exampleMem)).length : Int) :=
  (cost_tags_count_boundaries (Environment.new 5 5 [] [⟨2, 2⟩, ⟨3, 3⟩]) [.caller 0, .caller 1]
    [[], [.caller 10, .caller 11, .caller 12, .caller 13]] exampleMem (by decide)
    1 3 (.caller 13) (by decide) (by decide)).1

set_option maxRecDepth 100000 in
/-- C19, the code at the failing input: for the node whose chain is (0,0,0),
(1,1,0) and another agent on (5,5), (5,5), (5,5), (1,0), `SegHeuristic` returns
2, because the other agent steps at timestep 3 on the cell that the chain left
at timestep 1, while the cost tag that the call leaves on the node's own state
is 1. -/
theorem SegHeuristic_counts_past_node :
    SegHeuristic (Environment.new 5 5 [] [⟨2, 2⟩, ⟨3, 3⟩])
        (Node.mk ⟨1, 1, 0⟩ 0 1 (some (Node.mk ⟨0, 0, 0⟩ 0 0 none)))
        [[], [⟨0, 5, 5⟩, ⟨1, 5, 5⟩, ⟨2, 5, 5⟩, ⟨3, 1, 0⟩]] = 2 ∧
      derefPath exampleMem [.caller 0, .caller 1]
        = walkUp (Node.mk ⟨1, 1, 0⟩ 0 1 (some (Node.mk ⟨0, 0, 0⟩ 0 0 none))) [] ∧
      derefPath exampleMem [.caller 10, .caller 11, .caller 12, .caller 13]
        = [⟨0, 5, 5⟩, ⟨1, 5, 5⟩, ⟨2, 5, 5⟩, ⟨3, 1, 0⟩] ∧
      (SegHeuristicMem (Environment.new 5 5 [] [⟨2, 2⟩, ⟨3, 3⟩]) [.caller 0, .caller 1]
        [[], [.caller 10, .caller 11, .caller 12, .caller 13]] exampleMem).1 = 2 ∧
      ((SegHeuristicMem (Environment.new 5 5 [] [⟨2, 2⟩, ⟨3, 3⟩]) [.caller 0, .caller 1]
        [[], [.caller 10, .caller 11, .caller 12, .caller 13]] exampleMem).2
          (.caller 1)).cost = 1 := by
  decide

/-! ## The search on the memory of the state objects -/

theorem relaxMem_step (env : Environment) (startState : State) (parentSol : List (List Ref))
    (pv : List (List State)) (bound : Int) (current : Node × List Ref) (sm : SearchMem)
    (st : State × Ref)
    (hcur : derefPath sm.mem current.2 = walkUp current.1 [])
    (hpv : parentSol.map (derefPath sm.mem) = pv)
    (hst : (sm.mem st.2).toState = st.1) :
    ((relaxMem env startState parentSol bound current sm st).open_heap.map Prod.fst,
        (relaxMem env startState parentSol bound current sm st).open_list)
      = relax env startState pv bound current.1 (sm.open_heap.map Prod.fst, sm.open_list) st.1 ∧
    (∀ q, ((relaxMem env startState parentSol bound current sm st).mem q).toState
      = (sm.mem q).toState) ∧
    (∀ e ∈ (relaxMem env startState parentSol bound current sm st).open_heap,
      e ∈ sm.open_heap ∨
      (e.2 = current.2 ++ [st.2] ∧ walkUp e.1 [] = walkUp current.1 [] ++ [st.1])) := by
  have hlen : pv.length = parentSol.length := by rw [← hpv, List.length_map]
  have hseg : (SegHeuristicMem env (current.2 ++ [st.2]) parentSol sm.mem).1
      = SegHeuristic env (.mk st.1 0 (current.1.gScore + 1) (some current.1)) pv := by
    rw [SegHeuristicMem_value, SegHeuristic_eq_segmentCost, walkUp_child, hpv]
    congr 1
    simp only [derefPath, List.map_append, List.map_cons, List.map_nil]
    rw [hst]
    exact congrArg (· ++ [st.1]) hcur
  unfold relaxMem relax
  simp only [scoreLess, if_true, hlen, hseg]
  by_cases hmem : st.1 ∈ sm.open_list
  · simp only [hmem, not_true_eq_false, if_false]
    refine ⟨trivial, ?_, fun e he => Or.inl he⟩
    intro q
    by_cases hsol : parentSol.length ≠ 0
    · simp only [if_pos hsol]; exact SegHeuristicMem_toState env _ parentSol sm.mem q
    · simp only [if_neg hsol]
  · simp only [hmem, not_false_eq_true, if_true]
    by_cases hsol : parentSol.length ≠ 0
    · simp only [if_pos hsol]
      by_cases hb : env.m_dimx * env.m_dimy *
          SegHeuristic env (.mk st.1 0 (current.1.gScore + 1) (some current.1)) pv ≤ bound
      · simp only [if_pos hb]
        refine ⟨by simp, fun q => SegHeuristicMem_toState env _ parentSol sm.mem q, ?_⟩
        intro e he
        rcases List.mem_append.mp he with h | h
        · exact Or.inl h
        · right
          simp only [List.mem_singleton] at h
          subst h
          exact ⟨rfl, walkUp_child _ _ _ _⟩
      · simp only [if_neg hb]
        exact ⟨trivial, fun q => SegHeuristicMem_toState env _ parentSol sm.mem q,
          fun e he => Or.inl he⟩
    · simp only [if_neg hsol]
      refine ⟨by simp, fun q => trivial, ?_⟩
      intro e he
      rcases List.mem_append.mp he with h | h
      · exact Or.inl h
      · right
        simp only [List.mem_singleton] at h
        subst h
        exact ⟨rfl, walkUp_child _ _ _ _⟩

theorem map_eraseIdx {α β : Type} (f : α → β) (l : List α) (i : Nat) :
    (l.eraseIdx i).map f = (l.map f).eraseIdx i := by
  rw [List.eraseIdx_eq_take_drop_succ, List.eraseIdx_eq_take_drop_succ, List.map_append,
    List.map_take, List.map_drop]

theorem derefPath_congr (mem mem' : Ref → StateObj) (p : List Ref)
    (h : ∀ r ∈ p, (mem r).toState = (mem' r).toState) :
    derefPath mem p = derefPath mem' p := by
  unfold derefPath
  exact List.map_congr_left h

theorem heapTopMem_eq_none (tie : Nat → List Node → Nat) (k : Nat)
    (open_heap : List (Node × List Ref)) (h : heapTopMem tie k open_heap = none) :
    heapTop tie k (open_heap.map Prod.fst) = none := by
  unfold heapTopMem at h
  cases htop : heapTop tie k (open_heap.map Prod.fst) with
  | none => rfl
  | some top =>
    obtain ⟨i, c⟩ := top
    rw [htop] at h
    simp only [Option.map_eq_none'] at h
    have := (heapTop_eq_some tie k _ i c htop).1
    rw [List.getElem?_map, h] at this
    simp at this

theorem heapTopMem_eq_some (tie : Nat → List Node → Nat) (k : Nat)
    (open_heap : List (Node × List Ref)) (i : Nat) (current : Node × List Ref)
    (h : heapTopMem tie k open_heap = some (i, current)) :
    heapTop tie k (open_heap.map Prod.fst) = some (i, current.1) ∧
      open_heap[i]? = some current := by
  unfold heapTopMem at h
  cases htop : heapTop tie k (open_heap.map Prod.fst) with
  | none => rw [htop] at h; simp at h
  | some top =>
    obtain ⟨i', c⟩ := top
    rw [htop] at h
    simp only [Option.map_eq_some', Prod.mk.injEq] at h
    obtain ⟨e, he, hi, hec⟩ := h
    subst hi; subst hec
    have := (heapTop_eq_some tie k _ i' c htop).1
    rw [List.getElem?_map, he] at this
    simp only [Option.map_some', Option.some.injEq] at this
    rw [this]
    exact ⟨rfl, he⟩

theorem relaxMem_fold (env : Environment) (startState : State) (parentSol : List (List Ref))
    (pv : List (List State)) (bound : Int) (current : Node × List Ref)
    (mem1 : Ref → StateObj)
    (hcur : derefPath mem1 current.2 = walkUp current.1 [])
    (hpv : parentSol.map (derefPath mem1) = pv) (stps : List (State × Ref))
    (hstps : ∀ stp ∈ stps, (mem1 stp.2).toState = stp.1) :
    ∀ sm0 : SearchMem, (∀ q, (sm0.mem q).toState = (mem1 q).toState) →
      (((stps.foldl (relaxMem env startState parentSol bound current) sm0).open_heap.map
            Prod.fst,
          (stps.foldl (relaxMem env startState parentSol bound current) sm0).open_list)
        = (stps.map Prod.fst).foldl (relax env startState pv bound current.1)
            (sm0.open_heap.map Prod.fst, sm0.open_list)) ∧
      (∀ q, ((stps.foldl (relaxMem env startState parentSol bound current) sm0).mem q).toState
        = (mem1 q).toState) ∧
      (∀ e ∈ (stps.foldl (relaxMem env startState parentSol bound current) sm0).open_heap,
        e ∈ sm0.open_heap ∨
        ∃ stp ∈ stps, e.2 = current.2 ++ [stp.2] ∧
          walkUp e.1 [] = walkUp current.1 [] ++ [stp.1]) := by
  induction stps with
  | nil =>
    intro sm0 h0
    exact ⟨rfl, h0, fun e he => Or.inl he⟩
  | cons stp rest ih =>
    intro sm0 h0
    have hstep := relaxMem_step env startState parentSol pv bound current sm0 stp
      (by rw [derefPath_congr sm0.mem mem1 _ (fun r _ => h0 r)]; exact hcur)
      (by
        rw [← hpv]
        exact List.map_congr_left
          (fun p _ => derefPath_congr sm0.mem mem1 p (fun r _ => h0 r)))
      (by rw [h0]; exact hstps stp (List.mem_cons_self _ _))
    obtain ⟨h1, h2, h3⟩ := hstep
    obtain ⟨i1, i2, i3⟩ := ih (fun s hs => hstps s (List.mem_cons_of_mem _ hs))
      (relaxMem env startState parentSol bound current sm0 stp)
      (fun q => by rw [h2 q]; exact h0 q)
    rw [List.foldl_cons, List.map_cons, List.foldl_cons]
    refine ⟨?_, i2, ?_⟩
    · rw [i1, h1]
    · intro e he
      rcases i3 e he with h | ⟨s, hs, hh⟩
      · rcases h3 e h with h' | h'
        · exact Or.inl h'
        · exact Or.inr ⟨stp, List.mem_cons_self _ _, h'⟩
      · exact Or.inr ⟨s, List.mem_cons_of_mem _ hs, hh⟩

theorem makeStates_of_not_made (k : Nat) (neighbors : List State) (mem : Ref → StateObj)
    (r : Ref) (h : ∀ j, r ≠ Ref.made k j) :
    makeStates k neighbors mem r = mem r := by
  unfold makeStates
  cases r with
  | caller a => rfl
  | made k' j =>
    by_cases hk : k' = k
    · subst hk
      exact absurd rfl (h j)
    · simp [hk]

theorem neighborRefs_fst (k : Nat) (neighbors : List State) :
    (neighborRefs k neighbors).map Prod.fst = neighbors := by
  unfold neighborRefs
  rw [List.map_map]
  exact List.enum_map_snd neighbors

theorem neighborRefs_spec (k : Nat) (neighbors : List State) (mem : Ref → StateObj)
    (stp : State × Ref) (h : stp ∈ neighborRefs k neighbors) :
    (makeStates k neighbors mem stp.2).toState = stp.1 ∧ ∃ j, stp.2 = Ref.made k j := by
  unfold neighborRefs at h
  obtain ⟨⟨j, st⟩, hmem, he⟩ := List.mem_map.mp h
  subst he
  rw [List.mk_mem_enum_iff_getElem?] at hmem
  refine ⟨?_, j, rfl⟩
  simp [makeStates, hmem, StateObj.toState]

theorem planLoopMem_fst (tie : Nat → List Node → Nat) (env : Environment)
    (startState : State) (constraints : List Constraint) (parentSol : List (List Ref))
    (pv : List (List State)) (bound : Int) :
    ∀ (fuel k : Nat) (open_heap : List (Node × List Ref)) (open_list neighbors : List State)
      (mem : Ref → StateObj), MemInv k pv parentSol open_heap mem →
      (planLoopMem tie startState constraints parentSol bound fuel k
          open_heap open_list neighbors env mem).map (fun r => r.1)
        = planLoop tie env startState constraints pv bound fuel k
            (open_heap.map Prod.fst) open_list neighbors := by
  intro fuel
  induction fuel with
  | zero => intro k heap ol nb mem _; rfl
  | succ fuel ih =>
    intro k heap ol nb mem hinv
    obtain ⟨hA, hpv, hcaller⟩ := hinv
    rw [planLoopMem, planLoop]
    cases hT : heapTopMem tie k heap with
    | none =>
      rw [heapTopMem_eq_none tie k heap hT]
      rfl
    | some top =>
      obtain ⟨i, current⟩ := top
      obtain ⟨htop, hi⟩ := heapTopMem_eq_some tie k heap i current hT
      rw [htop]
      simp only
      by_cases hgoal : env.isStateGoal current.1.state = true
      · rw [if_pos hgoal, if_pos hgoal]
        rfl
      · rw [if_neg hgoal, if_neg hgoal]
        have hcurmem : current ∈ heap := List.getElem?_mem hi
        obtain ⟨hcur, hcurk⟩ := hA current hcurmem
        have hold : ∀ r, (∀ k' j, r = Ref.made k' j → k' < k) →
            makeStates k (env.expandState current.1.state nb constraints) mem r = mem r := by
          intro r hr
          apply makeStates_of_not_made
          intro j hj
          have := hr k j hj
          omega
        have hcaller' : ∀ p ∈ parentSol, ∀ r ∈ p,
            makeStates k (env.expandState current.1.state nb constraints) mem r = mem r := by
          intro p hp r hr
          apply makeStates_of_not_made
          intro j
          exact hcaller p hp r hr k j
        have hcur1 : derefPath
            (makeStates k (env.expandState current.1.state nb constraints) mem) current.2
            = walkUp current.1 [] := by
          rw [← hcur]
          apply derefPath_congr
          intro r hr
          rw [hold r (hcurk r hr)]
        have hpv1 : parentSol.map (derefPath
            (makeStates k (env.expandState current.1.state nb constraints) mem)) = pv := by
          rw [← hpv]
          apply List.map_congr_left
          intro p hp
          apply derefPath_congr
          intro r hr
          rw [hcaller' p hp r hr]
        obtain ⟨f1, f2, f3⟩ := relaxMem_fold env startState parentSol pv bound current
          (makeStates k (env.expandState current.1.state nb constraints) mem) hcur1 hpv1
          (neighborRefs k (env.expandState current.1.state nb constraints))
          (fun stp hstp => (neighborRefs_spec k _ mem stp hstp).1)
          { open_heap := heap.eraseIdx i, open_list := ol,
            mem := makeStates k (env.expandState current.1.state nb constraints) mem }
          (fun q => rfl)
        rw [neighborRefs_fst] at f1
        simp only [map_eraseIdx] at f1
        have e1 := congrArg Prod.fst f1
        have e2 := congrArg Prod.snd f1
        simp only at e1 e2
        rw [← e1, ← e2]
        apply ih
        refine ⟨?_, ?_, hcaller⟩
        · intro e he
          rcases f3 e he with h | ⟨stp, hstp, hrefs, hwalk⟩
          · have hemem : e ∈ heap := List.mem_of_mem_eraseIdx h
            obtain ⟨h1, h2⟩ := hA e hemem
            refine ⟨?_, fun r hr k' j hj => by have := h2 r hr k' j hj; omega⟩
            rw [← h1]
            apply derefPath_congr
            intro r hr
            rw [f2 r, hold r (h2 r hr)]
          · obtain ⟨hs1, j, hs2⟩ := neighborRefs_spec k _ mem stp hstp
            refine ⟨?_, ?_⟩
            · rw [hwalk, hrefs, ← hcur1]
              simp only [derefPath, List.map_append, List.map_cons, List.map_nil]
              rw [f2 stp.2, hs1]
              congr 1
              apply List.map_congr_left
              intro r _
              rw [f2 r]
            · intro r hr k' j' hj
              rw [hrefs] at hr
              rcases List.mem_append.mp hr with h | h
              · have := hcurk r h k' j' hj
                omega
              · simp only [List.mem_singleton] at h
                rw [h, hs2] at hj
                injection hj with hk _
                omega
        · rw [← hpv1]
          apply List.map_congr_left
          intro p _
          apply derefPath_congr
          intro r _
          rw [f2 r]

theorem relaxMem_toState (env : Environment) (startState : State)
    (parentSol : List (List Ref)) (bound : Int) (current : Node × List Ref) (sm : SearchMem)
    (st : State × Ref) (q : Ref) :
    ((relaxMem env startState parentSol bound current sm st).mem q).toState
      = (sm.mem q).toState := by
  unfold relaxMem
  simp only [scoreLess, if_true]
  by_cases hsol : parentSol.length ≠ 0
  · simp only [if_pos hsol]
    split
    · split
      · exact SegHeuristicMem_toState env _ parentSol sm.mem q
      · exact SegHeuristicMem_toState env _ parentSol sm.mem q
    · exact SegHeuristicMem_toState env _ parentSol sm.mem q
  · simp only [if_neg hsol]
    split <;> rfl

theorem planLoopMem_frame (tie : Nat → List Node → Nat) (env : Environment)
    (startState : State) (constraints : List Constraint) (parentSol : List (List Ref))
    (bound : Int) :
    ∀ (fuel k : Nat) (open_heap : List (Node × List Ref)) (open_list neighbors : List State)
      (mem : Ref → StateObj) (r : Bool × List State) (env' : Environment)
      (mem' : Ref → StateObj),
      planLoopMem tie startState constraints parentSol bound fuel k
          open_heap open_list neighbors env mem = some (r, env', mem') →
      env' = env ∧ ∀ a, (mem' (Ref.caller a)).toState = (mem (Ref.caller a)).toState := by
  intro fuel
  induction fuel with
  | zero => intro k heap ol nb mem r env' mem' h; simp [planLoopMem] at h
  | succ fuel ih =>
    intro k heap ol nb mem r env' mem' h
    rw [planLoopMem] at h
    cases hT : heapTopMem tie k heap with
    | none =>
      rw [hT] at h
      simp only [Option.some.injEq, Prod.mk.injEq] at h
      obtain ⟨_, h2, h3⟩ := h
      subst h2; subst h3
      exact ⟨rfl, fun a => rfl⟩
    | some top =>
      obtain ⟨i, current⟩ := top
      rw [hT] at h
      simp only at h
      by_cases hgoal : env.isStateGoal current.1.state = true
      · rw [if_pos hgoal] at h
        simp only [Option.some.injEq, Prod.mk.injEq] at h
        obtain ⟨_, h2, h3⟩ := h
        subst h2; subst h3
        exact ⟨rfl, fun a => rfl⟩
      · rw [if_neg hgoal] at h
        obtain ⟨h1, h2⟩ := ih _ _ _ _ _ r env' mem' h
        refine ⟨h1, fun a => ?_⟩
        rw [h2 a]
        have key : ∀ q, (((neighborRefs k
            (env.expandState current.1.state nb constraints)).foldl
            (relaxMem env startState parentSol bound current)
            { open_heap := heap.eraseIdx i, open_list := ol,
              mem := makeStates k (env.expandState current.1.state nb constraints) mem }).mem
              q).toState
            = (makeStates k (env.expandState current.1.state nb constraints) mem q).toState := by
          intro q
          refine foldl_invariant (relaxMem env startState parentSol bound current)
            (fun sm => (sm.mem q).toState
              = (makeStates k (env.expandState current.1.state nb constraints) mem q).toState)
            _ _ ?_ rfl
          intro sm stp _ hsm
          rw [relaxMem_toState]
          exact hsm
        rw [key]
        rfl

theorem planMem_fst (tie : Nat → List Node → Nat) (env : Environment) (fuel : Nat)
    (startRef : Ref) (solution : List State) (constraints : List Constraint)
    (parentSol : List (List Ref)) (bound : Int) (mem : Ref → StateObj)
    (hstart : ∀ k j, startRef ≠ Ref.made k j)
    (hrefs : ∀ p ∈ parentSol, ∀ r ∈ p, ∀ k j, r ≠ Ref.made k j) :
    (planMem tie env fuel startRef solution constraints parentSol bound mem).map
        (fun r => r.1)
      = plan tie env fuel (mem startRef).toState solution constraints
          (parentSol.map (derefPath mem)) bound := by
  unfold planMem plan
  simp only
  have h := planLoopMem_fst tie env (mem startRef).toState constraints parentSol
    (parentSol.map (derefPath mem)) bound fuel 0
    [(Node.mk (mem startRef).toState (env.heuristicFunc (mem startRef).toState) 0 none,
      [startRef])] [(mem startRef).toState] [] mem
    (by
      refine ⟨?_, rfl, hrefs⟩
      intro e he
      simp only [List.mem_singleton] at he
      subst he
      refine ⟨by simp [derefPath, walkUp], ?_⟩
      intro r hr k' j hj
      simp only [List.mem_singleton] at hr
      rw [hr] at hj
      exact absurd hj (hstart k' j))
  rw [h]
  rfl

/-- C14: `plan` on the memory of the state objects returns what `plan` on the
states alone returns, so its flag and path depend on the start, the
constraints and the `(time, x, y)` of the reference states only: two memories
that differ in cost tags give the same result, a second call on the memory and
grid that the first call has left returns what the first returned, and the
value of `SegHeuristic` does not depend on the cost tags either.  (The start
and the reference states are objects of the caller.) -/
theorem plan_ignores_cost_tags (tie : Nat → List Node → Nat) (env : Environment) (fuel : Nat)
    (startRef : Ref) (solution : List State) (constraints : List Constraint)
    (parentSol : List (List Ref)) (bound : Int) (mem : Ref → StateObj)
    (hstart : ∀ k j, startRef ≠ Ref.made k j)
    (hrefs : ∀ p ∈ parentSol, ∀ r ∈ p, ∀ k j, r ≠ Ref.made k j) :
    ((planMem tie env fuel startRef solution constraints parentSol bound mem).map
        (fun r => r.1)
      = plan tie env fuel (mem startRef).toState solution constraints
          (parentSol.map (derefPath mem)) bound) ∧
    (∀ mem' : Ref → StateObj, (∀ q, (mem' q).toState = (mem q).toState) →
      (planMem tie env fuel startRef solution constraints parentSol bound mem').map
          (fun r => r.1)
        = (planMem tie env fuel startRef solution constraints parentSol bound mem).map
          (fun r => r.1)) ∧
    (∀ (r : Bool × List State) (env1 : Environment) (mem1 : Ref → StateObj),
      planMem tie env fuel startRef solution constraints parentSol bound mem
        = some (r, env1, mem1) →
      (planMem tie env1 fuel startRef solution constraints parentSol bound mem1).map
          (fun r => r.1) = some r) ∧
    (∀ (currPathSeg : List Ref) (otherSols : List (List Ref)) (mem' : Ref → StateObj),
      (∀ q, (mem' q).toState = (mem q).toState) →
      (SegHeuristicMem env currPathSeg otherSols mem').1
        = (SegHeuristicMem env currPathSeg otherSols mem).1) := by
  have hfst := planMem_fst tie env fuel startRef solution constraints parentSol bound
  refine ⟨hfst mem hstart hrefs, ?_, ?_, ?_⟩
  · intro mem' hsame
    rw [hfst mem hstart hrefs, hfst mem' hstart hrefs, hsame startRef]
    congr 1
    apply List.map_congr_left
    intro p _
    exact derefPath_congr mem' mem p (fun r _ => hsame r)
  · intro r env1 mem1 h
    have hframe : env1 = env ∧
        ∀ a, (mem1 (Ref.caller a)).toState = (mem (Ref.caller a)).toState := by
      unfold planMem at h
      exact planLoopMem_frame tie env _ constraints parentSol bound fuel 0 _ _ _ mem r env1
        mem1 h
    obtain ⟨henv, hmem⟩ := hframe
    have hcaller : ∀ q : Ref, (∀ k j, q ≠ Ref.made k j) →
        (mem1 q).toState = (mem q).toState := by
      intro q hq
      cases q with
      | caller a => exact hmem a
      | made k j => exact absurd rfl (hq k j)
    have h1 := hfst mem hstart hrefs
    rw [h] at h1
    rw [henv, hfst mem1 hstart hrefs, hcaller startRef hstart]
    have hpv : parentSol.map (derefPath mem1) = parentSol.map (derefPath mem) := by
      apply List.map_congr_left
      intro p hp
      exact derefPath_congr mem1 mem p (fun q hq => hcaller q (hrefs p hp q hq))
    rw [hpv, ← h1]
    rfl
  · intro cur os mem' hsame
    rw [SegHeuristicMem_value, SegHeuristicMem_value,
      derefPath_congr mem' mem cur (fun r _ => hsame r)]
    congr 1
    apply List.map_congr_left
    intro p _
    exact derefPath_congr mem' mem p (fun r _ => hsame r)

set_option maxRecDepth 100000 in
/-- Witness of C14: two agents on the 5x5 grid, the first planned from the
object at address 0, the state (0,0,0), to (0,1), the second on the objects at
the addresses 10 to 13. -/
theorem plan_ignores_cost_tags_witness :
    (planMem (fun _ _ => 0) (Environment.new 5 5 [] [⟨0, 1⟩, ⟨3, 3⟩]) 20 (.caller 0) [] []
        [[], [.caller 10, .caller 11, .caller 12, .caller 13]] 100 exampleMem).map
        (fun r => r.1)
      = plan (fun _ _ => 0) (Environment.new 5 5 [] [⟨0, 1⟩, ⟨3, 3⟩]) 20
          (exampleMem (.caller 0)).toState [] []
          ([[], [.caller 10, .caller 11, .caller 12, .caller 13]].map (derefPath exampleMem))
          100 ∧
      plan (fun _ _ => 0) (Environment.new 5 5 [] [⟨0, 1⟩, ⟨3, 3⟩]) 20
          (exampleMem (.caller 0)).toState [] []
          ([[], [.caller 10, .caller 11, .caller 12, .caller 13]].map (derefPath exampleMem))
          100 = some (true, [⟨0, 0, 0⟩, ⟨1, 0, 1⟩]) :=
  ⟨(plan_ignores_cost_tags (fun _ _ => 0) (Environment.new 5 5 [] [⟨0, 1⟩, ⟨3, 3⟩]) 20
      (.caller 0) [] [] [[], [.caller 10, .caller 11, .caller 12, .caller 13]] 100 exampleMem
      (by intro k j h; exact Ref.noConfusion h)
      (by
        intro p hp r hr k j h
        subst h
        simp at hp
        rcases hp with hp | hp <;> subst hp <;> simp at hr)).1,
    by decide⟩

/-- C16: `SegHeuristic` changes nothing but cost tags: after the call every
state object has the `time`, `x` and `y` it had before, so every reference path
(a vector of `State*` that the call does not modify) points to the same states
as before; and `plan` returns with the grid model it was called with and with
the `time`, `x` and `y` of every object of the caller unchanged. -/
theorem SegHeuristic_and_plan_frame (tie : Nat → List Node → Nat) (env : Environment)
    (fuel : Nat) (startRef : Ref) (solution : List State) (constraints : List Constraint)
    (parentSol : List (List Ref)) (bound : Int) (mem : Ref → StateObj) :
    (∀ (currPathSeg : List Ref) (otherSols : List (List Ref)),
      (∀ q, ((SegHeuristicMem env currPathSeg otherSols mem).2 q).toState
        = (mem q).toState) ∧
      otherSols.map (derefPath (SegHeuristicMem env currPathSeg otherSols mem).2)
        = otherSols.map (derefPath mem)) ∧
    (∀ (r : Bool × List State) (env' : Environment) (mem' : Ref → StateObj),
      planMem tie env fuel startRef solution constraints parentSol bound mem
        = some (r, env', mem') →
      (env'.m_dimx = env.m_dimx ∧ env'.m_dimy = env.m_dimy ∧
        env'.m_obstacles = env.m_obstacles ∧ env'.m_goals = env.m_goals ∧
        env'.m_agentIdx = env.m_agentIdx) ∧
      ∀ a, (mem' (Ref.caller a)).toState = (mem (Ref.caller a)).toState) := by
  refine ⟨?_, ?_⟩
  · intro cur os
    refine ⟨fun q => SegHeuristicMem_toState env cur os mem q, ?_⟩
    apply List.map_congr_left
    intro p _
    exact derefPath_congr _ mem p (fun q _ => SegHeuristicMem_toState env cur os mem q)
  · intro r env' mem' h
    unfold planMem at h
    obtain ⟨h1, h2⟩ := planLoopMem_frame tie env _ constraints parentSol bound fuel 0 _ _ _
      mem r env' mem' h
    subst h1
    exact ⟨⟨rfl, rfl, rfl, rfl, rfl⟩, h2⟩

/-! ## The segmentation as a greedy choice of conflict intervals -/

theorem conflictInterval_bounds (env : Environment) (currPathSeg : List State)
    (otherSols : List (List State)) (I : Nat × Nat)
    (h : conflictInterval env currPathSeg otherSols I) :
    I.1 ≤ I.2 ∧ I.2 < longTimeOf env currPathSeg otherSols := by
  obtain ⟨a, b, i, j, s1, s2, _, ha, hb, hi, hj, _, rfl⟩ := h
  have h1 := longTimeOf_ge env currPathSeg otherSols a ha
  have h2 := longTimeOf_ge env currPathSeg otherSols b hb
  have hil := (List.getElem?_eq_some.mp hi).1
  have hjl := (List.getElem?_eq_some.mp hj).1
  refine ⟨?_, ?_⟩
  · show min i j ≤ max i j
    omega
  · show max i j < _
    omega

theorem windowConflict_iff_interval (env : Environment) (currPathSeg : List State)
    (otherSols : List (List State)) (hlen : otherSols.length ≤ env.getGoals.length)
    (w u : Nat) :
    windowConflict env currPathSeg otherSols w u ↔
      ∃ I, conflictInterval env currPathSeg otherSols I ∧ w ≤ I.1 ∧ I.2 < u := by
  constructor
  · rintro ⟨a1, a2, i, j, s1, s2, hne, h1, h2, hi, hj, hi2, hj2, hsame⟩
    refine ⟨(min i j, max i j),
      ⟨a1, a2, i, j, s1, s2, hne, h1.1, h2.1, hi2, hj2, hsame, rfl⟩, ?_, ?_⟩
    · show w ≤ min i j
      omega
    · show max i j < u
      omega
  · rintro ⟨I, ⟨a, b, i, j, s1, s2, hne, ha, hb, hi, hj, hsame, rfl⟩, hw, hu⟩
    have hw' : w ≤ min i j := hw
    have hu' : max i j < u := hu
    exact ⟨a, b, i, j, s1, s2, hne, ⟨ha, by omega⟩, ⟨hb, by omega⟩,
      ⟨by omega, by omega⟩, ⟨by omega, by omega⟩, hi, hj, hsame⟩

theorem pairwise_common_point (F : List (Nat × Nat)) (t : Nat)
    (hp : F.Pairwise nonIntersecting) (hall : ∀ I ∈ F, I.1 ≤ t ∧ t ≤ I.2) :
    F.length ≤ 1 := by
  match F, hp, hall with
  | [], _, _ => simp
  | [_], _, _ => simp
  | I :: J :: rest, hp, hall =>
    exfalso
    have hIJ : nonIntersecting I J :=
      (List.pairwise_cons.mp hp).1 J (List.mem_cons_self _ _)
    exact hIJ t ⟨hall I (List.mem_cons_self _ _),
      hall J (List.mem_cons_of_mem _ (List.mem_cons_self _ _))⟩

theorem filter_length_split (F : List (Nat × Nat)) (w : Nat) :
    F.length = (F.filter (fun I => decide (I.1 < w))).length
      + (F.filter (fun I => decide (¬ I.1 < w))).length := by
  induction F with
  | nil => rfl
  | cons I rest ih =>
    by_cases h : I.1 < w
    · simp only [List.filter_cons, h, decide_True, decide_False, not_true_eq_false, if_true,
        List.length_cons] at ih ⊢
      simp only [Bool.false_eq_true, if_false]
      omega
    · simp only [List.filter_cons, h, decide_True, decide_False, not_false_eq_true, if_true,
        List.length_cons] at ih ⊢
      simp only [Bool.false_eq_true, if_false, List.length_cons]
      omega

/-- The invariant of the segmentation loop after the rounds `0, ..., k - 1`:
the visited lists hold the window from `w`, no conflict interval lies in the
window, the boundaries made so far correspond to `currCost - 1` pairwise
non-intersecting conflict intervals before the window, and no family of
pairwise non-intersecting conflict intervals that start before the window is
larger. -/
theorem segAfter_greedy (env : Environment) (currPathSeg : List State)
    (otherSols : List (List State)) (hlen : otherSols.length ≤ env.getGoals.length)
    (k : Nat) :
    ∃ w, w ≤ k ∧ w ≤ longTimeOf env currPathSeg otherSols ∧
      (segAfter env currPathSeg otherSols k).agentVisited
        = windowVisited env currPathSeg otherSols w k ∧
      ¬ windowConflict env currPathSeg otherSols w k ∧
      (segAfter env currPathSeg otherSols k).currCost ≤ 1 + w ∧
      (∃ F : List (Nat × Nat),
        (∀ I ∈ F, conflictInterval env currPathSeg otherSols I ∧ I.2 < w) ∧
        F.Pairwise nonIntersecting ∧
        (segAfter env currPathSeg otherSols k).currCost = 1 + F.length) ∧
      (∀ F : List (Nat × Nat),
        (∀ I ∈ F, conflictInterval env currPathSeg otherSols I ∧ I.1 < w) →
        F.Pairwise nonIntersecting →
        1 + F.length ≤ (segAfter env currPathSeg otherSols k).currCost) := by
  induction k with
  | zero =>
    refine ⟨0, le_refl _, Nat.zero_le _, replicate_eq_windowVisited env currPathSeg otherSols,
      ?_, le_refl _, ⟨[], ?_, List.Pairwise.nil, rfl⟩, ?_⟩
    · rintro ⟨_, _, i, _, _, _, _, _, _, hi, _⟩
      omega
    · intro I hI
      exact absurd hI (List.not_mem_nil I)
    · intro F hF _
      cases F with
      | nil => exact le_refl _
      | cons I rest =>
        have := (hF I (List.mem_cons_self _ _)).2
        omega
  | succ k ih =>
    obtain ⟨w, hw, hwT, hav, hno, hcw, ⟨G, hG, hGp, hGc⟩, hup⟩ := ih
    rw [segAfter_succ]
    rcases segmentStep_window env currPathSeg otherSols w k hw _ hav with ⟨hn, h⟩ | ⟨hc, h⟩
    · rw [h]
      exact ⟨w, by omega, hwT, rfl, hn, hcw, ⟨G, hG, hGp, hGc⟩, hup⟩
    · rw [h]
      obtain ⟨I, hI, hIw, hIk⟩ :=
        (windowConflict_iff_interval env currPathSeg otherSols hlen w (k + 1)).mp hc
      have hIb := conflictInterval_bounds env currPathSeg otherSols I hI
      have hIk' : k ≤ I.2 := by
        by_contra hlt
        exact hno ((windowConflict_iff_interval env currPathSeg otherSols hlen w k).mpr
          ⟨I, hI, hIw, by omega⟩)
      refine ⟨k + 1, le_refl _, by omega, rfl, ?_, ?_, ⟨I :: G, ?_, ?_, ?_⟩, ?_⟩
      · rintro ⟨_, _, i, _, _, _, _, _, _, hi, _⟩
        omega
      · show (segAfter env currPathSeg otherSols k).currCost + 1 ≤ 1 + (k + 1)
        omega
      · intro J hJ
        rcases List.mem_cons.mp hJ with rfl | hJ
        · exact ⟨hI, hIk⟩
        · exact ⟨(hG J hJ).1, by have := (hG J hJ).2; omega⟩
      · refine List.pairwise_cons.mpr ⟨?_, hGp⟩
        intro J hJ t ht
        have := (hG J hJ).2
        omega
      · show (segAfter env currPathSeg otherSols k).currCost + 1 = 1 + (I :: G).length
        rw [List.length_cons]
        omega
      · intro F hF hFp
        show 1 + F.length ≤ (segAfter env currPathSeg otherSols k).currCost + 1
        have h1 := hup (F.filter (fun I => decide (I.1 < w)))
          (by
            intro J hJ
            rw [List.mem_filter] at hJ
            exact ⟨(hF J hJ.1).1, of_decide_eq_true hJ.2⟩)
          (hFp.sublist (List.filter_sublist _))
        have h2 := pairwise_common_point (F.filter (fun I => decide (¬ I.1 < w))) k
          (hFp.sublist (List.filter_sublist _))
          (by
            intro J hJ
            rw [List.mem_filter] at hJ
            have hJw : ¬ J.1 < w := of_decide_eq_true hJ.2
            have hJk := (hF J hJ.1).2
            refine ⟨by omega, ?_⟩
            by_contra hlt
            exact hno ((windowConflict_iff_interval env currPathSeg otherSols hlen w k).mpr
              ⟨J, (hF J hJ.1).1, by omega, by omega⟩))
        have h3 := filter_length_split F w
        omega

theorem segmentCost_greedy (env : Environment) (currPathSeg : List State)
    (otherSols : List (List State)) (hlen : otherSols.length ≤ env.getGoals.length) :
    (∃ family : List (Nat × Nat),
      (∀ I ∈ family, conflictInterval env currPathSeg otherSols I) ∧
      family.Pairwise nonIntersecting ∧
      segmentCost env currPathSeg otherSols = 1 + (family.length : Int)) ∧
    (∀ family : List (Nat × Nat),
      (∀ I ∈ family, conflictInterval env currPathSeg otherSols I) →
      family.Pairwise nonIntersecting →
      1 + (family.length : Int) ≤ segmentCost env currPathSeg otherSols) ∧
    1 ≤ segmentCost env currPathSeg otherSols ∧
    segmentCost env currPathSeg otherSols
      ≤ 1 + (longTimeOf env currPathSeg otherSols : Int) := by
  rw [segmentCost_eq_segAfter]
  obtain ⟨w, hw, hwT, _, hno, hcw, ⟨G, hG, hGp, hGc⟩, hup⟩ :=
    segAfter_greedy env currPathSeg otherSols hlen (longTimeOf env currPathSeg otherSols + 1)
  refine ⟨⟨G, fun I hI => (hG I hI).1, hGp, by exact_mod_cast hGc⟩, ?_, ?_, ?_⟩
  · intro F hF hFp
    have := hup F
      (by
        intro J hJ
        refine ⟨hF J hJ, ?_⟩
        by_contra hlt
        have hb := conflictInterval_bounds env currPathSeg otherSols J (hF J hJ)
        exact hno ((windowConflict_iff_interval env currPathSeg otherSols hlen w _).mpr
          ⟨J, hF J hJ, by omega, by omega⟩))
      hFp
    exact_mod_cast this
  · have := segAfter_currCost_pos env currPathSeg otherSols
      (longTimeOf env currPathSeg otherSols + 1)
    exact_mod_cast this
  · have : (segAfter env currPathSeg otherSols
        (longTimeOf env currPathSeg otherSols + 1)).currCost
        ≤ 1 + longTimeOf env currPathSeg otherSols := by omega
    exact_mod_cast this

theorem segAfter_step_le (env : Environment) (currPathSeg : List State)
    (otherSols : List (List State)) (k : Nat) :
    (segAfter env currPathSeg otherSols k).currCost
        ≤ (segAfter env currPathSeg otherSols (k + 1)).currCost ∧
      (segAfter env currPathSeg otherSols (k + 1)).currCost
        ≤ (segAfter env currPathSeg otherSols k).currCost + 1 := by
  rw [segAfter_succ]
  rcases segmentStep_currCost env currPathSeg otherSols
    (segAfter env currPathSeg otherSols k) k with h | h <;> omega

/-- C21: `SegHeuristic` counts a greatest family of conflict intervals.  For
every node and every reference set with at most as many paths as there are
goals, the value returned is 1 plus the length of some list of pairwise
non-intersecting conflict intervals, and no list of pairwise non-intersecting
conflict intervals is longer (a conflict interval is `[min i j, max i j]` for
two distinct agents on the same cell at the timesteps `i` and `j`, the candidate
path of the node standing in for the agent being planned).  Every round of the
segmentation loop raises the counter by at most one, and the value lies between
1 and 1 plus the greatest path length. -/
theorem SegHeuristic_greedy_maximum (env : Environment) (n : Node)
    (otherSols : List (List State)) (hlen : otherSols.length ≤ env.getGoals.length) :
    (∃ family : List (Nat × Nat),
      (∀ I ∈ family, conflictInterval env (walkUp n []) otherSols I) ∧
      family.Pairwise nonIntersecting ∧
      SegHeuristic env n otherSols = 1 + (family.length : Int)) ∧
    (∀ family : List (Nat × Nat),
      (∀ I ∈ family, conflictInterval env (walkUp n []) otherSols I) →
      family.Pairwise nonIntersecting →
      1 + (family.length : Int) ≤ SegHeuristic env n otherSols) ∧
    (∀ k : Nat,
      (segAfter env (walkUp n []) otherSols k).currCost
          ≤ (segAfter env (walkUp n []) otherSols (k + 1)).currCost ∧
        (segAfter env (walkUp n []) otherSols (k + 1)).currCost
          ≤ (segAfter env (walkUp n []) otherSols k).currCost + 1) ∧
    SegHeuristic env n otherSols
      = ((segAfter env (walkUp n []) otherSols
          (longTimeOf env (walkUp n []) otherSols + 1)).currCost : Int) ∧
    1 ≤ SegHeuristic env n otherSols ∧
    SegHeuristic env n otherSols ≤ 1 + (longTimeOf env (walkUp n []) otherSols : Int) := by
  rw [SegHeuristic_eq_segmentCost]
  obtain ⟨h1, h2, h3, h4⟩ := segmentCost_greedy env (walkUp n []) otherSols hlen
  exact ⟨h1, h2, fun k => segAfter_step_le env (walkUp n []) otherSols k,
    segmentCost_eq_segAfter env (walkUp n []) otherSols, h3, h4⟩

set_option maxRecDepth 100000 in
/-- Witness of C21: the first of two agents is planned along (0,0), (1,0),
(2,0), (3,0) while the second moves over (3,3), (0,0), (3,3), (3,0).  The
conflict intervals are `[0, 1]` and `[3, 3]`; the value is 3 and no three
conflict intervals are pairwise non-intersecting. -/
theorem SegHeuristic_greedy_maximum_witness :
    SegHeuristic (Environment.new 5 5 [] [⟨2, 2⟩, ⟨3, 3⟩])
        (Node.mk ⟨3, 3, 0⟩ 0 3 (some (Node.mk ⟨2, 2, 0⟩ 0 2
          (some (Node.mk ⟨1, 1, 0⟩ 0 1 (some (Node.mk ⟨0, 0, 0⟩ 0 0 none)))))))
        [[], [⟨0, 3, 3⟩, ⟨1, 0, 0⟩, ⟨2, 3, 3⟩, ⟨3, 3, 0⟩]] = 3 ∧
      ∀ family : List (Nat × Nat),
        (∀ I ∈ family, conflictInterval (Environment.new 5 5 [] [⟨2, 2⟩, ⟨3, 3⟩])
          (walkUp (Node.mk ⟨3, 3, 0⟩ 0 3 (some (Node.mk ⟨2, 2, 0⟩ 0 2
            (some (Node.mk ⟨1, 1, 0⟩ 0 1 (some (Node.mk ⟨0, 0, 0⟩ 0 0 none))))))) [])
          [[], [⟨0, 3, 3⟩, ⟨1, 0, 0⟩, ⟨2, 3, 3⟩, ⟨3, 3, 0⟩]] I) →
        family.Pairwise nonIntersecting →
        1 + (family.length : Int) ≤ 3 :=
  ⟨by decide,
    (SegHeuristic_greedy_maximum (Environment.new 5 5 [] [⟨2, 2⟩, ⟨3, 3⟩])
      (Node.mk ⟨3, 3, 0⟩ 0 3 (some (Node.mk ⟨2, 2, 0⟩ 0 2
        (some (Node.mk ⟨1, 1, 0⟩ 0 1 (some (Node.mk ⟨0, 0, 0⟩ 0 0 none)))))))
      [[], [⟨0, 3, 3⟩, ⟨1, 0, 0⟩, ⟨2, 3, 3⟩, ⟨3, 3, 0⟩]] (by decide)).2.1⟩

end XCBS
